import Mathlib

/-!
# Verification of the elide-js relational cache and synchronization engine

This file gives a shallow embedding, in Lean 4, of the core of the elide-js
library:

* the schema rooting check of `Elide._configureModels` (src/unnamed/part_001),
* the URL-template rooting of `JsonApiDatastore._rootModels` /
  `_rootChildModels` (src/lib/datastores/jsonapidatastore.js),
* the in-memory relational store `MemoryDatastore`
  (src/lib/datastores/memorydatastore.js) together with its link-rewiring
  helpers, the `ChangeWatcher` patch mechanism, and the commit protocol.

Modelling conventions:

* JavaScript objects holding instance fields become the structure `Inst`
  with a total function `String → Option FVal`; an absent property and a
  property whose value is `undefined` are both `none`.  (The two are
  observationally equal in the code: `jsonpatch`'s mirrors are produced by a
  JSON round trip which drops `undefined` values, and `_updateSimpleProps`
  assigns `undefined` in exactly the cases where the distinction would
  matter.)
* Field values are JavaScript strings or arrays of strings (`FVal`).
* The id maps `_data` / `_snapshot` are association lists keyed by model
  name and id, preserving JavaScript object-key insertion order so that
  `Object.keys` enumerations are faithful.
* `uuid.v4()` is modelled by passing the generated id explicitly; the
  current clock (`new Date().getTime()`) is passed explicitly as `now`.
* The link annotation strings (`"hasOne>pet.owner"` …) built by the
  `MemoryDatastore` constructor are modelled by the structured `LinkAnn`;
  `_getLinkAttrs` is the inverse of that encoding, and `_isLinkedProp`'s
  regex search is modelled on the re-rendered annotation string.
* Mutable working objects (the clones produced by `_getData` during a
  `create`/`update` and the instance being written) live in a session heap
  `Sess`; JavaScript references become slot numbers, and `undefined` object
  references become `none`.  A property access on `undefined` is a
  `TypeError`, modelled by `Except.error`.
* `jsonpatch.observe`/`generate`/`apply` are modelled at field granularity,
  matching the spec's patch format: one `Patch` per field whose value at
  `generate` time differs from the mirror captured at `observe` time,
  applied in watcher order.
* The one place where the code aliases a live object in two maps —
  `_setDataFromUpstreamQuery` stores the same `result` object in `_data`
  and `_snapshot` — is modelled by the `shared` flag: a patch applied to a
  shared `_data` entry is also visible through `_snapshot`, exactly as the
  in-place mutation of the shared JavaScript object is.
-/

set_option maxHeartbeats 1000000
set_option linter.unusedVariables false

/-! ## Association-list maps (JavaScript objects keyed by strings) -/

def getIn {α : Type} (m : List (String × α)) (k : String) : Option α :=
  match m.find? (fun p => p.1 == k) with
  | some p => some p.2
  | none => none

/-- Assigning `m[k] = v`: update in place (JS keeps the key's position) or
append a new key at the end (JS insertion order). -/
def setIn {α : Type} (m : List (String × α)) (k : String) (v : α) : List (String × α) :=
  match m with
  | [] => [(k, v)]
  | (k', v') :: rest => if k' = k then (k, v) :: rest else (k', v') :: setIn rest k v

/-- `delete m[k]`. -/
def delIn {α : Type} (m : List (String × α)) (k : String) : List (String × α) :=
  match m with
  | [] => []
  | (k', v') :: rest => if k' = k then rest else (k', v') :: delIn rest k

def keysNodup {α : Type} (m : List (String × α)) : Prop := (m.map Prod.fst).Nodup

/-- Join a list of strings with a separator (`Array.prototype.join`). -/
def joinSep (sep : String) : List String → String
  | [] => ""
  | x :: xs =>
    match xs with
    | [] => x
    | _ => x ++ sep ++ joinSep sep xs

/-- Split a string at every occurrence of a single character
(`String.prototype.split` with a one-character separator). -/
def splitChar (c : Char) : List Char → List String
  | [] => [""]
  | x :: xs =>
    let r := splitChar c xs
    if x = c then "" :: r
    else
      match r with
      | [] => [String.mk [x]]
      | h :: t => String.mk (x :: h.data) :: t

def splitBar (s : String) : List String := splitChar '|' s.data

/-! ## Field values and instances -/

/-- A JavaScript value stored in an instance field: a string (ids and scalar
attributes are strings in every scenario we treat) or an array of id
strings. -/
inductive FVal where
  | str (s : String)
  | arr (l : List String)
deriving DecidableEq, Repr

abbrev Fields := String → Option FVal

/-- An instance record `{id, ...fields}`.  The `id` property is kept
separately; it is written once at creation and never mutated. -/
structure Inst where
  id : String
  fields : Fields

def emptyFields : Fields := fun _ => none

def Inst.setF (i : Inst) (f : String) (v : Option FVal) : Inst :=
  { i with fields := fun g => if g = f then v else i.fields g }

/-- JavaScript truthiness of a field value (`undefined`, `""` are falsy;
arrays and non-empty strings are truthy). -/
def jsFalsy : Option FVal → Bool
  | none => true
  | some (.str s) => s == ""
  | some (.arr _) => false

/-- Using a value as a property key (`this._data[model][value]`): strings are
used as-is, arrays are coerced via `Array.prototype.toString` (join by
commas); `undefined` yields no entry in the stores we build. -/
def asKey : Option FVal → Option String
  | none => none
  | some (.str s) => some s
  | some (.arr l) => some (joinSep "," l)

/-- The state object passed to `create`/`update`.  `fields f = none` means
`f` is not an own property; `fields f = some none` means it is an own
property whose value is `undefined` (the two differ under
`hasOwnProperty`). -/
structure UState where
  id : Option String
  fields : String → Option (Option FVal)

/-- `state[f]` as a plain value read. -/
def UState.val (st : UState) (f : String) : Option FVal :=
  match st.fields f with
  | some v => v
  | none => none

/-! ## Annotated schema (MemoryDatastore constructor) -/

inductive LinkType where
  | hasOne
  | hasMany
deriving DecidableEq, Repr

/-- `>` (OWNS) or `<` (OWNED_BY) in the annotation string. -/
inductive LinkDir where
  | owns
  | ownedBy
deriving DecidableEq, Repr

/-- The parsed form of an annotation string
`type (> | <) otherModel (. otherProp)?`, i.e. the result of
`_getLinkAttrs`. -/
structure LinkAnn where
  type : LinkType
  dir : LinkDir
  otherModel : String
  otherProp : Option String
deriving DecidableEq, Repr

/-- A property of an annotated model: a scalar attribute (its declared type
string) or a link annotation. -/
inductive PropVal where
  | attr (t : String)
  | link (a : LinkAnn)
deriving DecidableEq, Repr

abbrev Template := List (String × PropVal)

/-- The annotation string this property renders to (the constructor stores
`linkage.type + OWNS + linkage.model + ('.' + inverse)?`, attributes keep
their declared type string). -/
def propValString : PropVal → String
  | .attr t => t
  | .link a =>
      (match a.type with | .hasOne => "hasOne" | .hasMany => "hasMany")
        ++ (match a.dir with | .owns => ">" | .ownedBy => "<")
        ++ a.otherModel
        ++ (match a.otherProp with | some p => "." ++ p | none => "")

/-- Substring containment, by structural recursion (kernel-evaluable,
unlike the library's string search). -/
def charsContain (needle : List Char) : List Char → Bool
  | [] => needle.isEmpty
  | x :: xs => needle.isPrefixOf (x :: xs) || charsContain needle xs

/-- `s.search(/hasOne|hasMany/) !== -1`. -/
def searchLinked (s : String) : Bool :=
  charsContain "hasOne".data s.data || charsContain "hasMany".data s.data

/-- A declared link of a model, as handed to the MemoryDatastore
constructor (`{model, type, inverse}`). -/
structure LinkDecl where
  model : String
  type : LinkType
  inverse : Option String
deriving Repr

/-- A declared model: scalar attributes (name and declared type string) and
links. -/
structure MModel where
  attrs : List (String × String)
  links : List (String × LinkDecl)
deriving Repr

/-- The constructor's annotation pass: each model keeps its attributes; each
declared link adds an OWNS annotation on its own model and, when an inverse
is declared, an OWNED_BY annotation (with the forward link's type) on the
target model.  Keys are appended in exactly the order the JavaScript loop
assigns them; the deleted `links` key is simply never materialised. -/
def annotateModels (models : List (String × MModel)) : List (String × Template) :=
  let init : List (String × Template) :=
    models.map (fun p => (p.1, p.2.attrs.map (fun a => (a.1, PropVal.attr a.2))))
  models.foldl (fun ts p =>
    p.2.links.foldl (fun ts lp =>
      let linkage := lp.2
      let ts := setIn ts p.1
        (setIn (Option.getD (getIn ts p.1) []) lp.1
          (PropVal.link ⟨linkage.type, .owns, linkage.model, linkage.inverse⟩))
      match linkage.inverse with
      | none => ts
      | some inv =>
          setIn ts linkage.model
            (setIn (Option.getD (getIn ts linkage.model) []) inv
              (PropVal.link ⟨linkage.type, .ownedBy, p.1, some lp.1⟩))) ts) init

/-! ## The MemoryDatastore -/

abbrev IdMap := List (String × Inst)

structure MemoryDatastore where
  models : List (String × Template)
  data : List (String × IdMap)
  snapshot : List (String × IdMap)
  meta : String → String → Option String
  ttlCache : String → String → Option Int
  /-- `shared m k` holds when `_data[m][k]` and `_snapshot[m][k]` are the
  same JavaScript object (set only by `_setDataFromUpstreamQuery`, which
  stores its `result` uncloned in both maps). -/
  shared : String → String → Bool
  ttl : Option Int
  hasUpstream : Bool

/-- The constructor: annotate the models and initialise one empty id map per
model in `_data`, `_meta`, `_ttlCache`; `_snapshot = clone(_data)`. -/
def MemoryDatastore.init (models : List (String × MModel)) (ttl : Option Int)
    (hasUpstream : Bool) : MemoryDatastore :=
  { models := annotateModels models
    data := models.map (fun p => (p.1, []))
    snapshot := models.map (fun p => (p.1, []))
    meta := fun _ _ => none
    ttlCache := fun _ _ => none
    shared := fun _ _ => false
    ttl := ttl
    hasUpstream := hasUpstream }

def MemoryDatastore.getModelTemplate (s : MemoryDatastore) (model : String) : Template :=
  Option.getD (getIn s.models model) []

def MemoryDatastore.hasModel (s : MemoryDatastore) (model : String) : Bool :=
  (getIn s.models model).isSome

/-- `this._meta[model][id] || id` (an empty-string alias is falsy). -/
def jsOr (o : Option String) (dflt : String) : String :=
  match o with
  | some s => if s = "" then dflt else s
  | none => dflt

/-- `_getData`: resolve the id through the alias table, return `undefined`
when the ttl cache entry has expired, otherwise a clone of the stored
instance.  (`undefined` ids cannot hit an entry.) -/
def MemoryDatastore.getData (s : MemoryDatastore) (now : Int) (model : String)
    (oid : Option String) : Option Inst :=
  match oid with
  | none => none
  | some id0 =>
    let id := jsOr (s.meta model id0) id0
    let expired : Bool :=
      match s.ttlCache model id, s.ttl with
      | some fetched, some t => fetched != 0 && fetched < now - t
      | _, _ => false
    if expired then none
    else getIn (Option.getD (getIn s.data model) []) id

/-- `_setData`: store a clone under `instance.id` (replacing the data entry
breaks any object sharing with the snapshot for that slot). -/
def MemoryDatastore.setData (s : MemoryDatastore) (model : String) (inst : Inst) :
    MemoryDatastore :=
  match getIn s.data model with
  | none => s
  | some im =>
    { s with data := setIn s.data model (setIn im inst.id inst)
             shared := fun m k => if m = model ∧ k = inst.id then false else s.shared m k }

/-- `_deleteData`: resolve the alias then remove the entry. -/
def MemoryDatastore.deleteData (s : MemoryDatastore) (model : String) (id0 : String) :
    MemoryDatastore :=
  let id := jsOr (s.meta model id0) id0
  match getIn s.data model with
  | none => s
  | some im => { s with data := setIn s.data model (delIn im id) }

/-- `_isLinkedProp`.  Reading a property that does not exist on the model
template makes the original `.search` call a `TypeError`. -/
def MemoryDatastore.isLinkedProp (s : MemoryDatastore) (model prop : String) :
    Except String Bool :=
  if prop = "meta" then .ok false
  else match getIn (s.getModelTemplate model) prop with
    | none => .error "TypeError"
    | some pv => .ok (searchLinked (propValString pv))

/-- `_getLinkAttrs` on a template entry; the regex does not match an
attribute's type string, in which case the JavaScript destructuring of
`null` throws. -/
def getLinkAnn : PropVal → Option LinkAnn
  | .link a => some a
  | .attr _ => none

/-! ### Error messages (placeholders already substituted) -/

def ERROR_UNKNOWN_MODEL (model method : String) : String :=
  "Unknown model \"" ++ model ++ "\" passed to #" ++ method ++ "."

def ERROR_NO_UPSTREAM : String := "No upstream store to commit to."

def ERROR_NO_STATE_GIVEN (method : String) : String :=
  "No state passed to #" ++ method

def ERROR_CANNOT_FIND_ON_PROP (lastModel property : String) : String :=
  "\"" ++ property ++ "\" not a linked property on \"" ++ lastModel ++ "\"."

def ERROR_CANNOT_CREATE_WITH_ID : String :=
  "Newly created records must not specify an id."

def ERROR_CANNOT_UPDATE_WITHOUT_ID : String :=
  "You must specify an id in order to modify a record."

def ERROR_CANNOT_UPDATE_MISSING_RECORD (model method : String) : String :=
  "The \"" ++ model ++ "\" passed to #" ++ method ++ " does not exist."

def ERROR_CANNOT_LINK_TO_MISSING_RECORD (model id method : String) : String :=
  "The \"" ++ model ++ "\":" ++ id ++ " passed to #" ++ method ++ " does not exist."

/-- `_ensureReferencesExist`: `[willReject, withReason]`. -/
def MemoryDatastore.ensureReferencesExist (s : MemoryDatastore) (now : Int)
    (model : String) (value : Option FVal) (method : String) :
    Bool × Option String :=
  if jsFalsy value then (false, none)
  else match value with
  | some (.arr l) =>
    match l.find? (fun i => (s.getData now model (some i)).isNone) with
    | some i => (true, some (ERROR_CANNOT_LINK_TO_MISSING_RECORD model i method))
    | none => (false, none)
  | some (.str v) =>
    if (s.getData now model (some v)).isNone then
      (true, some (ERROR_CANNOT_LINK_TO_MISSING_RECORD model v method))
    else (false, none)
  | none => (false, none)

/-- One property of the `_updateSimpleProps` loop: linked properties and
`meta` are skipped, attributes the instance has but `state` omits are kept,
everything else is assigned from `state`. -/
def simplePropStep (st : UState) (inst : Inst) (pp : String × PropVal) : Inst :=
  if pp.1 = "meta" ∨ searchLinked (propValString pp.2) then inst
  else if (inst.fields pp.1).isSome && (st.fields pp.1).isNone then inst
  else inst.setF pp.1 (st.val pp.1)

/-- `_updateSimpleProps`: copy the scalar attributes present in `state` onto
`instance`, keeping attributes the instance already has when `state` omits
them. -/
def MemoryDatastore.updateSimpleProps (s : MemoryDatastore) (model : String)
    (inst : Inst) (st : UState) : Inst :=
  (s.getModelTemplate model).foldl (simplePropStep st) inst

/-- `_setEmptyLinkedProperty`: owned to-many links start as `[]`, everything
else as `undefined`. -/
def emptyLinkVal (type : LinkType) (dir : LinkDir) : Option FVal :=
  if type = .hasMany ∧ dir = .owns then some (.arr []) else none

/-! ## Working-object sessions (mutable clones and the ChangeWatcher)

During one `create`/`update`, the code mutates a set of JavaScript objects
in place: the instance being written and the clones fetched by `_getData`.
We model object references as slots of a session heap.  `watchModel`
captures the object's value as the `jsonpatch.observe` mirror. -/

structure Watch where
  slot : Nat
  model : String
  objId : String
  mirror : Inst

structure Sess where
  heap : Nat → Inst
  next : Nat
  watchers : List Watch

def Sess.read (sess : Sess) (i : Nat) : Inst := sess.heap i

def Sess.setF (sess : Sess) (i : Nat) (f : String) (v : Option FVal) : Sess :=
  { sess with heap := fun j => if j = i then (sess.heap i).setF f v else sess.heap j }

def Sess.alloc (sess : Sess) (inst : Inst) : Nat × Sess :=
  (sess.next, { sess with heap := fun j => if j = sess.next then inst else sess.heap j
                          next := sess.next + 1 })

/-- `watcher.watchModel(object, model)`: ignore `undefined` objects, else
record the observer (path `/model/object.id`) with a mirror clone. -/
def Sess.watchModel (sess : Sess) (obj : Option Nat) (model : String) : Sess :=
  match obj with
  | none => sess
  | some i =>
    { sess with watchers := sess.watchers ++ [⟨i, model, (sess.read i).id, sess.read i⟩] }

/-- `let x = this._getData(model, key)`: clone the stored instance into a
fresh slot (or `undefined`). -/
def getDataS (s : MemoryDatastore) (now : Int) (model : String) (key : Option String)
    (sess : Sess) : Option Nat × Sess :=
  match s.getData now model key with
  | none => (none, sess)
  | some inst => let p := sess.alloc inst; (some p.1, p.2)

/-- Write `obj[f] = v`; a `TypeError` when the object is `undefined`. -/
def writeFOpt (sess : Sess) (obj : Option Nat) (f : String) (v : Option FVal) :
    Except String Sess :=
  match obj with
  | none => .error "TypeError"
  | some i => .ok (sess.setF i f v)

/-! ### The link-rewiring helpers -/

/-- `_removeSingleLeaf`. -/
def removeSingleLeaf (rootProp : String) (rootInstance : Option Nat)
    (leafProp : Option String) (leafInstance : Option Nat) (sess : Sess) :
    Except String Sess :=
  match leafProp with
  | some lp =>
    match writeFOpt sess leafInstance lp none with
    | .error e => .error e
    | .ok sess => writeFOpt sess rootInstance rootProp none
  | none => writeFOpt sess rootInstance rootProp none

/-- `_removeSingleRoot` (no guard on either object in the source). -/
def removeSingleRoot (rootProp : String) (rootInstance : Option Nat)
    (leafProp : String) (leafInstance : Option Nat) (sess : Sess) :
    Except String Sess :=
  match writeFOpt sess rootInstance rootProp none with
  | .error e => .error e
  | .ok sess => writeFOpt sess leafInstance leafProp none

/-- `_addSingleLeaf`. -/
def addSingleLeaf (s : MemoryDatastore) (now : Int)
    (rootModel rootProp : String) (rootInstance : Option Nat)
    (leafModel : String) (leafProp : Option String) (leafInstance : Option Nat)
    (sess : Sess) : Except String Sess :=
  match rootInstance with
  | none => .error "TypeError"
  | some ri =>
    let cur := (sess.read ri).fields rootProp
    let step1 : Except String Sess :=
      if cur ≠ none then
        -- we need to unlink the current value
        let p := getDataS s now leafModel (asKey cur) sess
        let sess := p.2.watchModel p.1 leafModel
        removeSingleLeaf rootProp (some ri) leafProp p.1 sess
      else .ok sess
    match step1 with
    | .error e => .error e
    | .ok sess =>
      match leafInstance with
      | none => .ok (sess.setF ri rootProp none)
      | some li =>
        let sess := sess.setF ri rootProp (some (.str (sess.read li).id))
        match leafProp with
        | none => .ok sess
        | some lp =>
          -- link the inverse
          let lv := (sess.read li).fields lp
          let step2 : Except String Sess :=
            if ¬ jsFalsy lv then
              let p := getDataS s now rootModel (asKey lv) sess
              let sess := p.2.watchModel p.1 rootModel
              removeSingleRoot rootProp p.1 lp (some li) sess
            else .ok sess
          match step2 with
          | .error e => .error e
          | .ok sess => .ok (sess.setF li lp (some (.str (sess.read ri).id)))

/-- `_addSingleRoot`. -/
def addSingleRoot (s : MemoryDatastore) (now : Int)
    (rootModel rootProp : String) (rootInstance : Option Nat)
    (leafModel : String) (leafProp : String) (leafInstance : Nat)
    (sess : Sess) : Except String Sess :=
  let lv := (sess.read leafInstance).fields leafProp
  let step1 : Except String Sess :=
    if lv ≠ none then
      let p := getDataS s now rootModel (asKey lv) sess
      let sess := p.2.watchModel p.1 rootModel
      removeSingleRoot rootProp p.1 leafProp (some leafInstance) sess
    else .ok sess
  match step1 with
  | .error e => .error e
  | .ok sess =>
    match rootInstance with
    | none => .ok (sess.setF leafInstance leafProp none)
    | some ri =>
      let sess := sess.setF leafInstance leafProp (some (.str (sess.read ri).id))
      let cur := (sess.read ri).fields rootProp
      let step2 : Except String Sess :=
        if cur ≠ none then
          -- we need to unlink the current value
          let p := getDataS s now leafModel (asKey cur) sess
          let sess := p.2.watchModel p.1 leafModel
          removeSingleLeaf rootProp (some ri) (some leafProp) p.1 sess
        else .ok sess
      match step2 with
      | .error e => .error e
      | .ok sess => .ok (sess.setF ri rootProp (some (.str (sess.read leafInstance).id)))

/-- `_removeMultiLeaf`. -/
def removeMultiLeaf (rootProp : String) (rootInstance : Option Nat)
    (leafProp : Option String) (leafInstance : Option Nat) (sess : Sess) :
    Except String Sess :=
  match rootInstance with
  | none => .ok sess
  | some ri =>
    match (sess.read ri).fields rootProp with
    | some (.arr l) =>
      match leafInstance with
      | none => .error "TypeError"
      | some li =>
        let lid := (sess.read li).id
        let sess :=
          if l.contains lid then
            sess.setF ri rootProp (some (.arr (l.filter (fun e => e ≠ lid))))
          else sess
        match leafProp with
        | some lp => .ok (sess.setF li lp none)
        | none => .ok sess
    | _ => .error "TypeError"

/-- `_removeMultiRoot`. -/
def removeMultiRoot (rootProp : String) (rootInstance : Option Nat)
    (leafProp : Option String) (leafInstance : Option Nat) (sess : Sess) :
    Except String Sess :=
  let step1 : Except String Sess :=
    match rootInstance with
    | none => .ok sess
    | some ri =>
      match (sess.read ri).fields rootProp with
      | some (.arr l) =>
        match leafInstance with
        | none => .error "TypeError"
        | some li =>
          .ok (sess.setF ri rootProp (some (.arr (l.filter (fun e => e ≠ (sess.read li).id)))))
      | _ => .error "TypeError"
  match step1 with
  | .error e => .error e
  | .ok sess =>
    match leafProp with
    | some lp =>
      match leafInstance with
      | none => .error "TypeError"
      | some li => .ok (sess.setF li lp none)
    | none => .ok sess

/-- `_addMultiLeaf`. -/
def addMultiLeaf (s : MemoryDatastore) (now : Int)
    (rootModel rootProp : String) (rootInstance : Nat)
    (leafModel : String) (leafProp : Option String) (leafInstance : Option Nat)
    (sess : Sess) : Except String Sess :=
  match (sess.read rootInstance).fields rootProp with
  | some (.arr curList) =>
    match leafInstance with
    | none => .error "TypeError"
    | some li =>
      let lid := (sess.read li).id
      let sess :=
        if curList.contains lid then sess
        else sess.setF rootInstance rootProp (some (.arr (curList ++ [lid])))
      match leafProp with
      | none => .ok sess
      | some lp =>
        let lv := (sess.read li).fields lp
        let step1 : Except String Sess :=
          if lv ≠ some (.str (sess.read rootInstance).id) then
            let p := getDataS s now rootModel (asKey lv) sess
            let sess := p.2.watchModel p.1 rootModel
            removeMultiRoot rootProp p.1 (some lp) (some li) sess
          else .ok sess
        match step1 with
        | .error e => .error e
        | .ok sess => .ok (sess.setF li lp (some (.str (sess.read rootInstance).id)))
  | _ => .error "TypeError"

/-- `_addMultiRoot`. -/
def addMultiRoot (s : MemoryDatastore) (now : Int)
    (rootModel rootProp : String) (rootInstance : Option Nat)
    (leafModel : String) (leafProp : String) (leafInstance : Nat)
    (sess : Sess) : Except String Sess :=
  match rootInstance with
  | none => .ok (sess.setF leafInstance leafProp none)
  | some ri =>
    match (sess.read ri).fields rootProp with
    | some (.arr l) =>
      let lid := (sess.read leafInstance).id
      let sess :=
        if l.contains lid then sess
        else sess.setF ri rootProp (some (.arr (l ++ [lid])))
      let lv := (sess.read leafInstance).fields leafProp
      let step1 : Except String Sess :=
        if lv ≠ some (.str (sess.read ri).id) then
          let p := getDataS s now rootModel (asKey lv) sess
          let sess := p.2.watchModel p.1 rootModel
          removeMultiLeaf rootProp p.1 (some leafProp) (some leafInstance) sess
        else .ok sess
      match step1 with
      | .error e => .error e
      | .ok sess => .ok (sess.setF leafInstance leafProp (some (.str (sess.read ri).id)))
    | _ => .error "TypeError"

/-! ### `_updateLinkProperties` -/

/-- The removal loop of the `hasMany`/`owns` branch of
`_updateLinkProperties`: for every id currently linked but absent from the
incoming value, fetch it and `_removeMultiLeaf` it. -/
def linkRemoveLoop (s : MemoryDatastore) (now : Int) (otherModel : String)
    (otherProp : Option String) (prop : String) (instSlot : Nat) :
    List String → Sess → Except String Sess
  | [], sess => .ok sess
  | rid :: rest, sess =>
    let p := getDataS s now otherModel (some rid) sess
    let sess := p.2.watchModel p.1 otherModel
    match removeMultiLeaf prop (some instSlot) otherProp p.1 sess with
    | .error e => .error e
    | .ok sess => linkRemoveLoop s now otherModel otherProp prop instSlot rest sess

/-- The addition loop of the `hasMany`/`owns` branch: fetch every id of the
incoming value and `_addMultiLeaf` it. -/
def linkAddLoop (s : MemoryDatastore) (now : Int) (model : String) (otherModel : String)
    (otherProp : Option String) (prop : String) (instSlot : Nat) :
    List String → Sess → Except String Sess
  | [], sess => .ok sess
  | vid :: rest, sess =>
    let p := getDataS s now otherModel (some vid) sess
    let sess := p.2.watchModel p.1 otherModel
    match addMultiLeaf s now model prop instSlot otherModel otherProp p.1 sess with
    | .error e => .error e
    | .ok sess => linkAddLoop s now model otherModel otherProp prop instSlot rest sess

/-- One linked property's rewiring dispatch (the `type`/`direction` branches
of `_updateLinkProperties`, after the reference check has passed). -/
def processLinkProp (s : MemoryDatastore) (now : Int) (model : String) (instSlot : Nat)
    (prop : String) (a : LinkAnn) (value : Option FVal) (sess : Sess) :
    Except String Sess :=
  match a.type, a.dir with
  | .hasOne, .owns =>
    let p := getDataS s now a.otherModel (asKey value) sess
    let sess := p.2.watchModel p.1 a.otherModel
    addSingleLeaf s now model prop (some instSlot) a.otherModel a.otherProp p.1 sess
  | .hasOne, .ownedBy =>
    let p := getDataS s now a.otherModel (asKey value) sess
    let sess := p.2.watchModel p.1 a.otherModel
    addSingleRoot s now a.otherModel (Option.getD a.otherProp "undefined") p.1
      model prop instSlot sess
  | .hasMany, .owns =>
    match (sess.read instSlot).fields prop with
    | some (.arr cur) =>
      match value with
      | some (.arr valArr) =>
        let step1 := linkRemoveLoop s now a.otherModel a.otherProp prop instSlot
          (cur.filter (fun e => ¬ valArr.contains e)) sess
        match step1 with
        | .error e => .error e
        | .ok sess => linkAddLoop s now model a.otherModel a.otherProp prop instSlot valArr sess
      | _ => .error "TypeError"
    | _ => .error "TypeError"
  | .hasMany, .ownedBy =>
    let p := getDataS s now a.otherModel (asKey value) sess
    let sess := p.2.watchModel p.1 a.otherModel
    addMultiRoot s now a.otherModel (Option.getD a.otherProp "undefined") p.1
      model prop instSlot sess

/-- The `Object.keys(template).some(...)` loop of `_updateLinkProperties`:
skip non-linked properties, compute the effective value, check references
(short-circuiting with `[willReject, withReason]`), then rewire. -/
def updateLinkPropsGo (s : MemoryDatastore) (now : Int) (model : String)
    (instSlot : Nat) (st : UState) (createProps : Bool) (method : String) :
    Template → Sess → Except String (Sess × Bool × Option String)
  | [], sess => .ok (sess, false, none)
  | (prop, pv) :: rest, sess =>
    if prop = "meta" ∨ ¬ searchLinked (propValString pv) then
      updateLinkPropsGo s now model instSlot st createProps method rest sess
    else
      let value0 := (sess.read instSlot).fields prop
      let value1 := match st.fields prop with
        | some v => v
        | none => value0
      match getLinkAnn pv with
      | none => .error "TypeError"
      | some a =>
        let sess := if createProps then sess.setF instSlot prop (emptyLinkVal a.type a.dir)
                    else sess
        let value := if jsFalsy value1 ∧ a.type = .hasMany ∧ a.dir = .owns
                     then some (.arr []) else value1
        match s.ensureReferencesExist now a.otherModel value method with
        | (true, reason) => .ok (sess, true, reason)
        | (false, _) =>
          match processLinkProp s now model instSlot prop a value sess with
          | .error e => .error e
          | .ok sess => updateLinkPropsGo s now model instSlot st createProps method rest sess

/-- `_updateLinkProperties`: watch the instance, process every linked
property, and return the session (from which `watcher.getPatches()` is
read) together with `[willReject, withReason]`. -/
def MemoryDatastore.updateLinkProperties (s : MemoryDatastore) (now : Int)
    (model : String) (instSlot : Nat) (st : UState) (createProps : Bool)
    (method : String) (sess : Sess) : Except String (Sess × Bool × Option String) :=
  let sess := sess.watchModel (some instSlot) model
  updateLinkPropsGo s now model instSlot st createProps method
    (s.getModelTemplate model) sess

/-! ### Patches (`ChangeWatcher.getPatches` and `jsonpatch.apply`) -/

/-- A field-level patch `{op, path: /model/objId/field, value}`; `value =
none` is a removal. -/
structure Patch where
  model : String
  objId : String
  field : String
  value : Option FVal
deriving Repr

/-- The fields a watcher's diff ranges over: the instance's own keys are
always among `id` and the model's template properties. -/
def MemoryDatastore.watchFieldList (s : MemoryDatastore) (model : String) : List String :=
  "id" :: (s.getModelTemplate model).map Prod.fst

/-- `jsonpatch.generate(observer)`: one operation per field whose current
value differs from the mirror. -/
def diffFields (flds : List String) (mirror cur : Inst) : List (String × Option FVal) :=
  flds.filterMap (fun f =>
    if f = "id" then
      if mirror.id = cur.id then none else some ("id", some (.str cur.id))
    else if mirror.fields f = cur.fields f then none
    else some (f, cur.fields f))

/-- `watcher.getPatches()`: concatenate each observer's operations in watch
order, paths prefixed by `/model/objId`. -/
def getPatches (s : MemoryDatastore) (sess : Sess) : List Patch :=
  sess.watchers.foldr (fun w acc =>
    ((diffFields (s.watchFieldList w.model) w.mirror (sess.read w.slot)).map
      (fun d => Patch.mk w.model w.objId d.1 d.2)) ++ acc) []

/-- `jsonpatch.apply(this._data, [p])`: mutate the addressed instance in
place.  When the `_data` entry is the same object as the `_snapshot` entry
(upstream-merged, never re-cloned), the mutation is visible through the
snapshot as well. -/
def applyPatch (s : MemoryDatastore) (p : Patch) : MemoryDatastore :=
  match getIn s.data p.model with
  | none => s
  | some im =>
    match getIn im p.objId with
    | none => s
    | some inst =>
      let s := { s with data := setIn s.data p.model (setIn im p.objId (inst.setF p.field p.value)) }
      if s.shared p.model p.objId then
        match getIn s.snapshot p.model with
        | none => s
        | some sm =>
          match getIn sm p.objId with
          | none => s
          | some sn =>
            { s with snapshot := setIn s.snapshot p.model (setIn sm p.objId (sn.setF p.field p.value)) }
      else s

def applyPatches (s : MemoryDatastore) (ps : List Patch) : MemoryDatastore :=
  ps.foldl applyPatch s

/-! ### The public operations -/

/-- The settled result of one returned promise: resolution, rejection, or a
synchronous throw escaping the method. -/
inductive Outcome (α : Type) where
  | resolve (val : α)
  | reject (msg : String)
  | thrown (msg : String)

def Outcome.isResolve {α : Type} : Outcome α → Bool
  | .resolve _ => true
  | _ => false

def Outcome.getResolve? {α : Type} : Outcome α → Option α
  | .resolve v => some v
  | _ => none

/-- `state.id` truthiness for the `create`/`update`/`delete` guards. -/
def jsTruthyId : Option String → Bool
  | some s => s ≠ ""
  | none => false

/-- `MemoryDatastore#create`.  `freshId` stands for the `uuid.v4()` draw,
`now` for the clock. -/
def MemoryDatastore.create (s : MemoryDatastore) (now : Int) (freshId : String)
    (model : String) (st : Option UState) : MemoryDatastore × Outcome Inst :=
  if ¬ s.hasModel model then (s, .thrown (ERROR_UNKNOWN_MODEL model "create"))
  else match st with
  | none => (s, .reject (ERROR_NO_STATE_GIVEN "create"))
  | some st =>
    if jsTruthyId st.id then (s, .reject ERROR_CANNOT_CREATE_WITH_ID)
    else
      let toCreate := s.updateSimpleProps model ⟨freshId, emptyFields⟩ st
      -- we link objects by applying patches after we determine that the
      -- operation will succeed; `toReturn` is the clone handed to the session
      let sess0 : Sess := ⟨fun _ => toCreate, 1, []⟩
      match s.updateLinkProperties now model 0 st true "create" sess0 with
      | .error e => (s, .thrown e)
      | .ok (sess, willReject, reason) =>
        if willReject then (s, .reject (Option.getD reason ""))
        else
          let relationPatches := getPatches s sess
          let s1 := s.setData model toCreate
          let s2 := applyPatches s1 relationPatches
          (s2, .resolve (sess.read 0))

/-- `MemoryDatastore#update`. -/
def MemoryDatastore.update (s : MemoryDatastore) (now : Int)
    (model : String) (st : Option UState) : MemoryDatastore × Outcome Inst :=
  if ¬ s.hasModel model then (s, .thrown (ERROR_UNKNOWN_MODEL model "update"))
  else match st with
  | none => (s, .reject (ERROR_NO_STATE_GIVEN "update"))
  | some st =>
    if ¬ jsTruthyId st.id then (s, .reject ERROR_CANNOT_UPDATE_WITHOUT_ID)
    else match s.getData now model st.id with
    | none => (s, .reject (ERROR_CANNOT_UPDATE_MISSING_RECORD model "update"))
    | some toUpdate0 =>
      let toUpdate := s.updateSimpleProps model toUpdate0 st
      let sess0 : Sess := ⟨fun _ => toUpdate, 1, []⟩
      match s.updateLinkProperties now model 0 st false "update" sess0 with
      | .error e => (s, .thrown e)
      | .ok (sess, willReject, reason) =>
        if willReject then (s, .reject (Option.getD reason ""))
        else
          let s1 := applyPatches s (getPatches s sess)
          let s2 := s1.setData model (sess.read 0)
          (s2, .resolve (sess.read 0))

/-- `MemoryDatastore#delete`. -/
def MemoryDatastore.delete (s : MemoryDatastore) (now : Int)
    (model : String) (st : Option UState) : MemoryDatastore × Outcome Unit :=
  if ¬ s.hasModel model then (s, .thrown (ERROR_UNKNOWN_MODEL model "delete"))
  else match st with
  | none => (s, .reject (ERROR_NO_STATE_GIVEN "delete"))
  | some st =>
    if ¬ jsTruthyId st.id then (s, .reject ERROR_CANNOT_UPDATE_WITHOUT_ID)
    else match s.getData now model st.id with
    | none => (s, .reject (ERROR_CANNOT_UPDATE_MISSING_RECORD model "delete"))
    | some _ => (s.deleteData model (Option.getD st.id ""), .resolve ())

/-! ### `find` -/

/-- One query hop: the first hop carries `{model, id?}`, later hops
`{field, id?}` (see `Query`). -/
structure QParam where
  model : Option String
  field : Option String
  qid : Option String

def jsTruthyStr : Option String → Bool
  | some s => s ≠ ""
  | none => false

/-- The validation pass of `find` (the first `query._params.some(...)`
loop): resolve each hop's model, reject on a non-linked property, throw on
an unknown model.  Returns `some reason` when the query will be rejected. -/
def findValidateGo (s : MemoryDatastore) :
    List QParam → Option String → Except String (Option String)
  | [], _ => .ok none
  | p :: rest, lastModel =>
    if jsTruthyStr p.model then
      let lm := Option.getD p.model ""
      if ¬ s.hasModel lm then .error (ERROR_UNKNOWN_MODEL lm "find")
      else findValidateGo s rest (some lm)
    else
      let lm := Option.getD lastModel "undefined"
      let fld := Option.getD p.field "undefined"
      match s.isLinkedProp lm fld with
      | .error e => .error e
      | .ok false => .ok (some (ERROR_CANNOT_FIND_ON_PROP lm fld))
      | .ok true =>
        match getIn (s.getModelTemplate lm) fld with
        | some (.link a) =>
          if ¬ s.hasModel a.otherModel then .error (ERROR_UNKNOWN_MODEL a.otherModel "find")
          else findValidateGo s rest (some a.otherModel)
        | _ => .error "TypeError"

/-- `getIdsFromField`: an array field yields its elements, anything else a
one-element list (possibly `[undefined]`). -/
def getIdsFromField (inst : Inst) (field : String) : List (Option String) :=
  match inst.fields field with
  | some (.arr l) => l.map some
  | v => [asKey v]

/-- The value-resolution loop of `find`, carrying
`(wantsCollection, foundObject, foundObjects)` and breaking once a hop
resolves to nothing. -/
def findLoop (s : MemoryDatastore) (now : Int) :
    List QParam → Bool → String → Bool → Option Inst → List Inst →
    Except String (Bool × Option Inst × List Inst)
  | [], _, _, wc, fo, fos => .ok (wc, fo, fos)
  | p :: rest, first, lastModel, _, fo, fos =>
    let wc := p.qid.isNone
    let field := Option.getD p.field "undefined"
    let nextModel : Except String String :=
      if first then .ok (Option.getD p.model "undefined")
      else match getIn (s.getModelTemplate lastModel) field with
        | some (.link a) => .ok a.otherModel
        | _ => .error "TypeError"
    match nextModel with
    | .error e => .error e
    | .ok lm =>
      let allIds : List (Option String) :=
        match fo with
        | some obj => getIdsFromField obj field
        | none =>
          if fos.length > 0 then fos.foldr (fun obj acc => getIdsFromField obj field ++ acc) []
          else if wc then (Option.getD (getIn s.data lm) []).map (fun kv => some kv.1)
          else [p.qid]
      if wc then
        let fos' := allIds.filterMap (fun oid => s.getData now lm oid)
        if fos'.length = 0 then .ok (true, none, fos')
        else findLoop s now rest false lm true none fos'
      else
        let foundId : Option String := if allIds.contains p.qid then p.qid else none
        let fo' := s.getData now lm foundId
        match fo' with
        | none => .ok (false, none, [])
        | some _ => findLoop s now rest false lm false fo' []

/-- The result of a `find` call on this store: a local resolution, a
rejection, a synchronous throw, or a fall-through to the upstream store. -/
inductive FindOutcome where
  | single (o : Option Inst)
  | collection (l : List Inst)
  | rejected (msg : String)
  | thrown (msg : String)
  | wentUpstream

/-- `MemoryDatastore#find` up to the upstream boundary: validate, resolve
locally, and either answer or (on a full miss with an upstream configured)
forward the query upstream. -/
def MemoryDatastore.find (s : MemoryDatastore) (now : Int) (q : List QParam) : FindOutcome :=
  match findValidateGo s q none with
  | .error e => .thrown e
  | .ok (some reason) => .rejected reason
  | .ok none =>
    match findLoop s now q true "undefined" false none [] with
    | .error e => .thrown e
    | .ok (wc, fo, fos) =>
      if s.hasUpstream ∧ fo.isNone ∧ fos.length = 0 then .wentUpstream
      else if wc then .collection fos else .single fo

/-! ### Merging upstream results and `commit` -/

/-- An upstream `find`'s results: `undefined`, an array, or a single
object. -/
inductive UpResults where
  | undef
  | arr (l : List Inst)
  | single (i : Inst)

/-- The model-determination walk of `_setDataFromUpstreamQuery`. -/
def modelFromQuery (s : MemoryDatastore) :
    List QParam → Option String → Except String (Option String)
  | [], m => .ok m
  | p :: rest, m =>
    if jsTruthyStr p.model then modelFromQuery s rest p.model
    else
      match getIn (s.getModelTemplate (Option.getD m "undefined"))
          (Option.getD p.field "undefined") with
      | some (.link a) => modelFromQuery s rest (some a.otherModel)
      | _ => .error "TypeError"

/-- Store one upstream result object: the *same* object is stored in
`_data` and `_snapshot` (no clone), hence `shared` is raised, and its fetch
time is recorded in `_ttlCache`. -/
def mergeEntry (s : MemoryDatastore) (now : Int) (model : String) (r : Inst) :
    Except String MemoryDatastore :=
  match getIn s.data model with
  | none => .error "TypeError"
  | some im =>
    let s := { s with data := setIn s.data model (setIn im r.id r)
                      ttlCache := fun m k => if m = model ∧ k = r.id then some now else s.ttlCache m k
                      shared := fun m k => if m = model ∧ k = r.id then true else s.shared m k }
    match getIn s.snapshot model with
    | none => .ok s
    | some sm => .ok { s with snapshot := setIn s.snapshot model (setIn sm r.id r) }

def mergeList (s : MemoryDatastore) (now : Int) (model : String) :
    List Inst → Except String MemoryDatastore
  | [] => .ok s
  | r :: rest =>
    match mergeEntry s now model r with
    | .error e => .error e
    | .ok s' => mergeList s' now model rest

/-- `_setDataFromUpstreamQuery`: copy data returned from upstream into this
store (confirmed snapshot included) so it is not refetched. -/
def MemoryDatastore.setDataFromUpstreamQuery (s : MemoryDatastore) (now : Int)
    (q : List QParam) (results : UpResults) : Except String MemoryDatastore :=
  match results with
  | .undef => .ok s
  | .arr [] => .ok s
  | .arr l =>
    match modelFromQuery s q none with
    | .error e => .error e
    | .ok none => .error "TypeError"
    | .ok (some model) => mergeList s now model l
  | .single r =>
    match modelFromQuery s q none with
    | .error e => .error e
    | .ok none => .error "TypeError"
    | .ok (some model) => mergeEntry s now model r

/-- A reconciliation record `{type, oldId, data}` returned by the upstream
commit. -/
structure Recon where
  type : String
  oldId : Option String
  data : Inst

/-- The upstream store's reply to `commit(patches)`. -/
inductive UpstreamReply where
  | accept (results : Option (List Recon))
  | failure (err : String)

/-- One reconciliation step: alias a renamed id and store the confirmed
data under the current id. -/
def applyRecon (s : MemoryDatastore) (r : Recon) : MemoryDatastore :=
  let curId := r.data.id
  let s :=
    match r.oldId with
    | some lastId =>
      if lastId ≠ "" ∧ lastId ≠ curId then
        { s with meta := fun m k => if m = r.type ∧ k = lastId then some curId else s.meta m k
                 data := match getIn s.data r.type with
                   | some im => setIn s.data r.type (delIn im lastId)
                   | none => s.data }
      else s
    | none => s
  match getIn s.data r.type with
  | some im => { s with data := setIn s.data r.type (setIn im curId r.data) }
  | none => s

/-- `MemoryDatastore#commit`, parameterised by the upstream store's reply:
on success reconcile ids and confirm the working state as the new snapshot
(`_snapshot = clone(_data)`); on rejection discard the working state
(`_data = clone(_snapshot)`) and re-reject. -/
def MemoryDatastore.commit (s : MemoryDatastore) (reply : UpstreamReply) :
    MemoryDatastore × Outcome Unit :=
  if ¬ s.hasUpstream then (s, .reject ERROR_NO_UPSTREAM)
  else match reply with
  | .failure err =>
    ({ s with data := s.snapshot, shared := fun _ _ => false }, .reject err)
  | .accept results =>
    let s :=
      match results with
      | none => s
      | some rs => rs.foldl applyRecon s
    ({ s with snapshot := s.data, shared := fun _ _ => false }, .resolve ())

/-! ## `Elide._configureModels` (schema rooting check) -/

/-- The raw schema shapes handed to the Elide constructor. -/
structure EMeta where
  store : Option String
  isRootObject : Bool

structure ELink where
  type : Option String
  model : Option String
  inverse : Option String

structure EModel where
  meta : Option EMeta
  links : List (String × ELink)

def ERROR_BAD_STORE (modelName : String) : String :=
  "Elide model \"" ++ modelName ++ "\" must specify a valid store."

def ERROR_NO_LINK_TYPE (modelName : String) : String :=
  "Elide model \"" ++ modelName ++ "\" specifies a link without a type."

def ERROR_BAD_LINK_TYPE (linkType : String) : String :=
  "Invalid link type \"" ++ linkType ++ "\"."

def ERROR_NO_LINK_MODEL (modelName : String) : String :=
  "Elide model \"" ++ modelName ++ "\" specifies a link to an unknown model."

def ERROR_BAD_LINK_MODEL (modelName : String) : String :=
  "Elide model \"" ++ modelName ++ "\" specifies a link to an unknown model."

def ERROR_DANGLING_MODEL (modelName : String) : String :=
  "Elide model \"" ++ modelName ++ "\" cannot be rooted."

/-- The per-link validation inside `_configureModels`, collecting
`canRoot[modelName]` (the list of models rootable via this model). -/
def validateLinks (models : List (String × EModel)) (modelName : String) :
    List (String × ELink) → Except String (List String)
  | [] => .ok []
  | (_, link) :: rest =>
    if ¬ jsTruthyStr link.type then .error (ERROR_NO_LINK_TYPE modelName)
    else if Option.getD link.type "" ≠ "hasOne" ∧ Option.getD link.type "" ≠ "hasMany" then
      .error (ERROR_BAD_LINK_TYPE (Option.getD link.type ""))
    else if ¬ jsTruthyStr link.model then .error (ERROR_NO_LINK_MODEL modelName)
    else if (getIn models (Option.getD link.model "")).isNone then
      .error (ERROR_BAD_LINK_MODEL modelName)
    else
      match validateLinks models modelName rest with
      | .error e => .error e
      | .ok tail => .ok (Option.getD link.model "" :: tail)

/-- The metadata/link verification pass: checks every model's store and
links and builds `canRoot` plus the list of root-flagged models (the keys
of the initial `rootable` object, in model order). -/
def validateModels (models : List (String × EModel)) (storeNames : List String) :
    List (String × EModel) → Except String (List (String × List String) × List String)
  | [] => .ok ([], [])
  | (modelName, model) :: rest =>
    match model.meta with
    | none => .error (ERROR_BAD_STORE modelName)
    | some meta =>
      if ¬ jsTruthyStr meta.store then .error (ERROR_BAD_STORE modelName)
      else if ¬ storeNames.contains (Option.getD meta.store "") then
        .error (ERROR_BAD_STORE modelName)
      else
        match validateLinks models modelName model.links with
        | .error e => .error e
        | .ok children =>
          match validateModels models storeNames rest with
          | .error e => .error e
          | .ok (canRoot, roots) =>
            .ok ((modelName, children) :: canRoot,
                 (if meta.isRootObject then [modelName] else []) ++ roots)

mutual

/-- `rootChildren`: mark a model rootable and recurse into every child —
with **no** visited check, so the recursion depth is bounded only by the
JavaScript call stack, modelled by `fuel`.  `none` is a stack overflow. -/
def rootChildren (canRoot : List (String × List String)) :
    Nat → (String → Bool) → String → Option (String → Bool)
  | 0, _, _ => none
  | fuel + 1, rootable, name =>
    rootChildrenAll canRoot fuel (Option.getD (getIn canRoot name) [])
      (fun k => if k = name then true else rootable k)
termination_by fuel _ _ => (fuel, 0)

/-- `children.map(rootChildren)` at one recursion depth. -/
def rootChildrenAll (canRoot : List (String × List String)) :
    Nat → List String → (String → Bool) → Option (String → Bool)
  | _, [], rootable => some rootable
  | fuel, c :: cs, rootable =>
    match rootChildren canRoot fuel rootable c with
    | none => none
    | some rootable => rootChildrenAll canRoot fuel cs rootable
termination_by fuel cs _ => (fuel, cs.length + 1)

end

/-- `Object.keys(rootable).map(rootChildren)`: run the marking from every
root-flagged model (each top-level call starts with a fresh stack). -/
def markAllRoots (canRoot : List (String × List String)) (fuel : Nat) :
    List String → (String → Bool) → Option (String → Bool)
  | [], rootable => some rootable
  | m :: ms, rootable =>
    match rootChildren canRoot fuel rootable m with
    | none => none
    | some rootable => markAllRoots canRoot fuel ms rootable

/-- `Elide._configureModels` up to its rooting verdict.  The outer `none`
means the call never returns (the recursion exhausts any stack bound);
`some (.error e)` is a thrown configuration error; `some (.ok ())` is
successful construction of the model map. -/
def configureModels (models : List (String × EModel)) (storeNames : List String)
    (fuel : Nat) : Option (Except String Unit) :=
  match validateModels models storeNames models with
  | .error e => some (.error e)
  | .ok (canRoot, roots) =>
    match markAllRoots canRoot fuel roots (fun k => roots.contains k) with
    | none => none
    | some rootable =>
      match models.find? (fun p => ! rootable p.1) with
      | some p => some (.error (ERROR_DANGLING_MODEL p.1))
      | none => some (.ok ())

/-- The spec's notion: the declared link targets of a model. -/
def modelLinkTargets (models : List (String × EModel)) (m : String) : List String :=
  match getIn models m with
  | some em => em.links.filterMap (fun l => l.2.model)
  | none => []

/-- The spec's notion: `m` is flagged as a root model. -/
def isRootFlagged (models : List (String × EModel)) (m : String) : Prop :=
  ∃ em, getIn models m = some em ∧ ∃ meta, em.meta = some meta ∧ meta.isRootObject = true

/-- One hop along a declared link. -/
def LinkStep (models : List (String × EModel)) (a b : String) : Prop :=
  b ∈ modelLinkTargets models a

/-- The spec's reachability: transitively reachable (reflexive-transitive
closure over link targets) from at least one root-flagged model. -/
def ModelReachable (models : List (String × EModel)) (m : String) : Prop :=
  ∃ r, isRootFlagged models r ∧ Relation.ReflTransGen (LinkStep models) r m

/-! ## `JsonApiDatastore._rootModels` / `_rootChildModels` -/

structure JLink where
  model : String

structure JModel where
  isRootObject : Bool
  links : List (String × JLink)

abbrev JModels := List (String × JModel)

abbrev UrlCache := String → Option String

mutual

/-- `_rootChildModels`: depth-first URL-template assignment.  A model that
already has a template is skipped (`hasOwnProperty` guard), so the first
discovered route is kept and the recursion terminates; `fuel` only bounds
the recursion formally. -/
def rootChildModels (models : JModels) :
    Nat → UrlCache → String → UrlCache
  | 0, cache, _ => cache
  | fuel + 1, cache, modelName =>
    let linkNames := (Option.getD (getIn models modelName) ⟨false, []⟩).links
    let parentURI := splitBar (Option.getD (cache modelName) "")
    let parentUrl := Option.getD parentURI.head? ""
    let parentModels := joinSep "|" parentURI.tail
    rootChildLinks models fuel parentUrl parentModels linkNames cache
termination_by fuel _ _ => (fuel, 0)

/-- The `linkNames.forEach` body of `_rootChildModels`. -/
def rootChildLinks (models : JModels) :
    Nat → String → String → List (String × JLink) → UrlCache → UrlCache
  | _, _, _, [], cache => cache
  | fuel, parentUrl, parentModels, (linkName, link) :: rest, cache =>
    let thisModels := parentModels ++ "|" ++ link.model
    if (cache link.model).isSome then
      rootChildLinks models fuel parentUrl parentModels rest cache
    else
      let cache' : UrlCache := fun k =>
        if k = link.model
        then some (parentUrl ++ "/" ++ linkName ++ "/:" ++ link.model ++ "Id|" ++ thisModels)
        else cache k
      rootChildLinks models fuel parentUrl parentModels rest
        (rootChildModels models fuel cache' link.model)
termination_by fuel _ _ links _ => (fuel, links.length + 1)

end

/-- `_rootModels`: give every root-flagged model its base template, then
root the children of each root in declaration order. -/
def rootModels (models : JModels) (fuel : Nat) : UrlCache :=
  let cache0 : UrlCache := models.foldl (fun cache p =>
    if p.2.isRootObject then
      fun k => if k = p.1 then some ("/" ++ p.1 ++ "/:" ++ p.1 ++ "Id|" ++ p.1) else cache k
    else cache) (fun _ => none)
  (models.filter (fun p => p.2.isRootObject)).foldl
    (fun cache p => rootChildModels models fuel cache p.1) cache0

/-! ## Probes, well-formedness predicates, and concrete scenarios -/

/-- Read `_data[m][k][f]`: `none` when the instance is absent, otherwise the
field value. -/
def dataField (s : MemoryDatastore) (m k f : String) : Option (Option FVal) :=
  (getIn (Option.getD (getIn s.data m) []) k).map (fun i => i.fields f)

/-- Read `_snapshot[m][k][f]`. -/
def snapField (s : MemoryDatastore) (m k f : String) : Option (Option FVal) :=
  (getIn (Option.getD (getIn s.snapshot m) []) k).map (fun i => i.fields f)

/-- The field `f` of a single-instance `find` answer. -/
def findField (s : MemoryDatastore) (now : Int) (q : List QParam) (f : String) :
    Option (Option FVal) :=
  match s.find now q with
  | .single (some i) => some (i.fields f)
  | _ => none

/-- A state object with the given own properties (and no id). -/
def ustate (pairs : List (String × Option FVal)) : UState :=
  ⟨none, fun f => getIn pairs f⟩

/-- A state object with an id and the given own properties. -/
def ustateId (i : String) (pairs : List (String × Option FVal)) : UState :=
  ⟨some i, fun f => getIn pairs f⟩

/-- Key lists without duplicates (JavaScript objects cannot carry duplicate
keys; the association lists representing them are assumed duplicate-free). -/
def nodupKeysB {α : Type} : List (String × α) → Bool
  | [] => true
  | (k, _) :: rest => rest.all (fun p => p.1 != k) && nodupKeysB rest

/-- Every store entry is keyed by its own `id`. -/
def storeKeysWFB (s : MemoryDatastore) : Bool :=
  s.data.all (fun mi => nodupKeysB mi.2 && mi.2.all (fun ki => ki.2.id == ki.1))

/-- A stored link value is well typed for its annotation and all referenced
ids resolve in the store: owned to-many links hold arrays of resolving ids;
every other link kind holds `undefined` or a non-empty resolving id. -/
def linkFieldWFB (s : MemoryDatastore) (now : Int) (a : LinkAnn) (v : Option FVal) : Bool :=
  if a.type = .hasMany ∧ a.dir = .owns then
    match v with
    | some (.arr l) => l.all (fun i => (s.getData now a.otherModel (some i)).isSome)
    | _ => false
  else
    match v with
    | none => true
    | some (.str i) => i != "" && (s.getData now a.otherModel (some i)).isSome
    | some (.arr _) => false

/-- Referential integrity of the whole store: every instance's link fields
are well typed and resolve. -/
def storeIntegrityB (s : MemoryDatastore) (now : Int) : Bool :=
  s.data.all (fun mi =>
    mi.2.all (fun ki =>
      (s.getModelTemplate mi.1).all (fun pp =>
        match pp.2 with
        | .attr _ => true
        | .link a => linkFieldWFB s now a (ki.2.fields pp.1))))

def dirFlip : LinkDir → LinkDir
  | .owns => .ownedBy
  | .ownedBy => .owns

/-- Template sanity, as produced by the constructor's annotation pass: keys
are duplicate-free, every OWNED_BY annotation carries the inverse property
name, and every annotation with an inverse is paired with the matching
annotation on the target model. -/
def schemaPairedWFB (s : MemoryDatastore) : Bool :=
  nodupKeysB s.models &&
  s.models.all (fun mt =>
    nodupKeysB mt.2 &&
    mt.2.all (fun pp =>
      match pp.2 with
      | .attr _ => true
      | .link a =>
        (a.dir != .ownedBy || a.otherProp.isSome) &&
        (match a.otherProp with
         | none => true
         | some op =>
           getIn (s.getModelTemplate a.otherModel) op ==
             some (.link ⟨a.type, dirFlip a.dir, mt.1, some pp.1⟩))))

/-- The state's own link values are well typed for the template (owned
to-many links get arrays or falsy values; everything else strings or
`undefined`). -/
def stateLinkWFB (tmpl : Template) (st : UState) : Bool :=
  tmpl.all (fun pp =>
    match pp.2 with
    | .attr _ => true
    | .link a =>
      match st.fields pp.1 with
      | none => true
      | some v =>
        if a.type = .hasMany ∧ a.dir = .owns then jsFalsy v || (v matches some (.arr _))
        else (v matches none) || (v matches some (.str _)))

/-- The store carries no identifier aliases. -/
def noAliases (s : MemoryDatastore) : Prop := ∀ m k, s.meta m k = none

/-- The model's template declares no link properties at all (and no
attribute type string that the `_isLinkedProp` regex would mistake for
one). -/
def templateNoLinksB (t : Template) : Bool :=
  t.all (fun p => match p.2 with | .attr ty => ! searchLinked ty | .link _ => false)

/-- The construction of `Elide._configureModels` never returns, whatever
stack bound it is given. -/
def configDiverges (models : List (String × EModel)) (storeNames : List String) : Prop :=
  ∀ fuel, configureModels models storeNames fuel = none

/-! ### Concrete schemas -/

/-- `person --bike (hasOne, inverse owner)--> bicycle`. -/
def oneLinkModels : List (String × MModel) :=
  [("person", ⟨[("name", "string")], [("bike", ⟨"bicycle", .hasOne, some "owner"⟩)]⟩),
   ("bicycle", ⟨[("maker", "string")], []⟩)]

/-- `person --pets (hasMany, inverse owner)--> pet`. -/
def manyLinkModels : List (String × MModel) :=
  [("person", ⟨[("name", "string")], [("pets", ⟨"pet", .hasMany, some "owner"⟩)]⟩),
   ("pet", ⟨[("name", "string")], []⟩)]

/-- A link-free model. -/
def catModels : List (String × MModel) :=
  [("cat", ⟨[("color", "string")], []⟩)]

/-! ### C2 scenario: two `hasOne` creates against the same target -/

def c2s0 : MemoryDatastore := MemoryDatastore.init oneLinkModels none false
def c2s1 : MemoryDatastore :=
  (c2s0.create 0 "b1" "bicycle" (some (ustate [("maker", some (.str "Felt"))]))).1
def c2s2 : MemoryDatastore := (c2s1.create 0 "d1" "person" (some (ustate []))).1
def c2s3 : MemoryDatastore := (c2s2.create 0 "e1" "bicycle" (some (ustate []))).1
def c2createA := c2s3.create 0 "a1" "person" (some (ustate [("bike", some (.str "b1"))]))
def c2s4 : MemoryDatastore := c2createA.1
def c2createC := c2s4.create 0 "c1" "person" (some (ustate [("bike", some (.str "b1"))]))
def c2s5 : MemoryDatastore := c2createC.1

/-! ### C3 scenario: upstream merge, relation patch, failed commit -/

def c3t0 : MemoryDatastore := MemoryDatastore.init manyLinkModels none true
def c3merged : Inst :=
  ⟨"p1", fun f => if f = "name" then some (.str "R")
                  else if f = "pets" then some (.arr []) else none⟩
def c3q : List QParam := [⟨some "person", none, some "p1"⟩]
def c3t1 : MemoryDatastore :=
  match c3t0.setDataFromUpstreamQuery 100 c3q (.single c3merged) with
  | .ok s => s
  | .error _ => c3t0
def c3createPet := c3t1.create 100 "c1" "pet" (some (ustate [("owner", some (.str "p1"))]))
def c3t2 : MemoryDatastore := c3createPet.1
def c3commit := c3t2.commit (.failure "upstream rejected")
def c3t3 : MemoryDatastore := c3commit.1

/-! ### C6 scenario: a model reachable through two chains -/

def c6models : JModels :=
  [("r", ⟨true, [("c", ⟨"C"⟩), ("a", ⟨"A"⟩)]⟩),
   ("A", ⟨false, [("c2", ⟨"C"⟩)]⟩),
   ("C", ⟨false, []⟩)]

/-! ### C8 scenario: updating with unchanged values -/

def c8update1 := c2s4.update 0 "person" (some (ustateId "a1" [("bike", some (.str "b1"))]))
def c8once : MemoryDatastore := c8update1.1
def c8update2 := c8once.update 0 "person" (some (ustateId "a1" [("bike", some (.str "b1"))]))
def c8twice : MemoryDatastore := c8update2.1

/-! ### C1 scenarios -/

/-- Root `A` links to `B`, `B` links back to `A` (a reachable cycle), and
`C` is unreachable. -/
def c1cyclic : List (String × EModel) :=
  [("A", ⟨some ⟨some "s", true⟩, [("x", ⟨some "hasOne", some "B", none⟩)]⟩),
   ("B", ⟨some ⟨some "s", false⟩, [("y", ⟨some "hasOne", some "A", none⟩)]⟩),
   ("C", ⟨some ⟨some "s", false⟩, []⟩)]

/-- The acyclic variant: root `A` links to `B`; `C` is unreachable. -/
def c1acyclic : List (String × EModel) :=
  [("A", ⟨some ⟨some "s", true⟩, [("x", ⟨some "hasOne", some "B", none⟩)]⟩),
   ("B", ⟨some ⟨some "s", false⟩, []⟩),
   ("C", ⟨some ⟨some "s", false⟩, []⟩)]

/-- One traversal edge of `rootChildren`: `b` is among the `canRoot`
children of `a`. -/
def stepOf (canRoot : List (String × List String)) (a b : String) : Prop :=
  b ∈ Option.getD (getIn canRoot a) []

/-- The `canRoot` table the validation pass computes for the cyclic C1
schema. -/
def c1cycCR : List (String × List String) := [("A", ["B"]), ("B", ["A"]), ("C", [])]

/-! ### Session write-framing -/

/-- `s2` evolves from `s1` writing (at most) inside `P` on the objects that
already existed in `s1`: previously allocated objects keep their id and
every field outside `P`. -/
def SessFrameOn (P : Nat → String → Prop) (s1 s2 : Sess) : Prop :=
  s1.next ≤ s2.next ∧
  ∀ j, j < s1.next →
    (s2.heap j).id = (s1.heap j).id ∧
    ∀ f, ¬ P j f → (s2.heap j).fields f = (s1.heap j).fields f

/-- The value a linked property is checked against during `create`: falsy
owned to-many values are replaced by `[]` before `_ensureReferencesExist`
runs. -/
def createEffValue (b : LinkAnn) (v : Option FVal) : Option FVal :=
  if jsFalsy v ∧ b.type = .hasMany ∧ b.dir = .owns then some (.arr []) else v

/-- The effect of `_addMultiLeaf` on the root's id list. -/
def addLinkId (acc : List String) (v : String) : List String :=
  if acc.contains v then acc else acc ++ [v]

/-- The effect of `_removeMultiLeaf` on the root's id list. -/
def removeLinkId (acc : List String) (r : String) : List String :=
  if acc.contains r then acc.filter (fun e => e ≠ r) else acc

/-- No attribute of the template has a type string the `_isLinkedProp`
regex would mistake for a link declaration. -/
def templateAttrsCleanB (t : Template) : Bool :=
  t.all (fun p => match p.2 with | .attr ty => ! searchLinked ty | .link _ => true)

/-! ### C9 scenario: update person `a1` with only `name`, omitting `bike` -/

def c9st : UState := ustateId "a1" [("name", some (.str "Albert"))]
def c9run : MemoryDatastore × Outcome Inst := c2s4.update 0 "person" (some c9st)
def c9inst : Inst := match c9run.2 with | .resolve v => v | _ => ⟨"", emptyFields⟩
def c9e0 : Inst :=
  match c2s4.getData 0 "person" (some "a1") with | some v => v | none => ⟨"", emptyFields⟩

/-! ### C10 scenario: a ttl store with one upstream-merged entry -/

def c10s0 : MemoryDatastore := MemoryDatastore.init manyLinkModels (some 100) true
def c10s1 : MemoryDatastore :=
  match mergeEntry c10s0 50 "pet" ⟨"p9", emptyFields⟩ with
  | .ok s1 => s1
  | .error _ => c10s0

/-! ### C7 scenario: create a person with an empty state, then find it -/

def c7run : MemoryDatastore × Outcome Inst := c2s1.create 0 "x7" "person" (some (ustate []))
def c7e : Inst := match c7run.2 with | .resolve v => v | _ => ⟨"", emptyFields⟩

/-- Between two session states, the watcher list has only grown, and every
added watcher observes an object that `_getData` resolves in the backing
store (it was fetched from the store during the link pass). -/
def SessWatchGood (s : MemoryDatastore) (now : Int) (s1 s2 : Sess) : Prop :=
  ∃ Δ, s2.watchers = s1.watchers ++ Δ ∧
    ∀ w ∈ Δ, (s.getData now w.model (some w.objId)).isSome = true

/-- The contract of the linked-property loop over a template suffix `t`: it
returns without throwing, preserves the instance's id, never frees heap
slots, leaves fields whose every occurrence in `t` is skipped untouched,
restores (in update mode, when no early reject fired) every omitted linked
property to its incoming value, and flags the reject whenever some supplied
link value fails the reference check. -/
def GoSpecOut (s : MemoryDatastore) (now : Int) (model : String) (st : UState)
    (cp : Bool) (meth : String) (t : Template) (sess : Sess) : Prop :=
  ∃ sess2 b r,
    updateLinkPropsGo s now model 0 st cp meth t sess = .ok (sess2, b, r) ∧
    (sess2.read 0).id = (sess.read 0).id ∧
    sess.next ≤ sess2.next ∧
    (∀ g, (∀ pv, (g, pv) ∈ t → g = "meta" ∨ searchLinked (propValString pv) = false) →
      (sess2.read 0).fields g = (sess.read 0).fields g) ∧
    (b = false → cp = false → ∀ q bq, (q, PropVal.link bq) ∈ t → q ≠ "meta" →
      st.fields q = none → (sess2.read 0).fields q = (sess.read 0).fields q) ∧
    (b = false → cp = true → ∀ q bq, (q, PropVal.link bq) ∈ t → q ≠ "meta" →
      st.fields q = none → (sess2.read 0).fields q = emptyLinkVal bq.type bq.dir) ∧
    ((∃ q bq v, (q, PropVal.link bq) ∈ t ∧ q ≠ "meta" ∧ st.fields q = some v ∧
      (s.ensureReferencesExist now bq.otherModel (createEffValue bq v) meth).1 = true) →
      b = true)

/-! # Theorems -/

/-! ## C2: symmetric unlink on competing `one`-links -/

/-- **C2.**  In the `MemoryDatastore`, after creating `a1` with the
`one`-link `bike` (declared inverse `owner`) pointing at `b1`, and then
creating `c1` with the same link to `b1`: reading the store shows `b1`'s
inverse field equal to `c1`'s id and `a1`'s link field cleared
(`undefined`), while the unrelated instances `d1` (person) and `e1`
(bicycle) keep every one of their fields, and `c1` holds the link. -/
theorem c2_one_link_steal_rewires_inverse :
    c2createA.2.isResolve = true ∧ c2createC.2.isResolve = true ∧
    dataField c2s5 "bicycle" "b1" "owner" = some (some (.str "c1")) ∧
    dataField c2s5 "person" "a1" "bike" = some none ∧
    dataField c2s5 "person" "c1" "bike" = some (some (.str "b1")) ∧
    dataField c2s5 "bicycle" "b1" "maker" = dataField c2s4 "bicycle" "b1" "maker" ∧
    dataField c2s5 "person" "d1" "name" = dataField c2s4 "person" "d1" "name" ∧
    dataField c2s5 "person" "d1" "bike" = dataField c2s4 "person" "d1" "bike" ∧
    dataField c2s5 "bicycle" "e1" "maker" = dataField c2s4 "bicycle" "e1" "maker" ∧
    dataField c2s5 "bicycle" "e1" "owner" = dataField c2s4 "bicycle" "e1" "owner" ∧
    dataField c2s5 "person" "a1" "name" = dataField c2s4 "person" "a1" "name" := by
  decide

/-! ## C3: rollback after a rejected commit (code bug) -/

/-- **C3 (failing input).**  `_setDataFromUpstreamQuery` stores the same
object in `_data` and `_snapshot`; the relation patch produced by the
subsequent `create` mutates that shared object, so the "confirmed
snapshot" silently absorbs the unconfirmed edit.  After the upstream commit
rejects, the rollback `_data = clone(_snapshot)` therefore restores the
*attempted* value: `find` on the merged person shows `pets = ["c1"]`
although the last value confirmed from upstream was `pets = []` (and the
pet `"c1"` itself was rolled back away, leaving a dangling id). -/
theorem c3_rollback_keeps_attempted_value :
    snapField c3t1 "person" "p1" "pets" = some (some (.arr [])) ∧
    c3createPet.2.isResolve = true ∧
    (c3commit.2 matches .reject _) = true ∧
    findField c3t3 100 c3q "pets" = some (some (.arr ["c1"])) ∧
    findField c3t3 100 c3q "pets" ≠ some (some (.arr [])) ∧
    dataField c3t3 "pet" "c1" "owner" = none := by
  decide

/-! ## C6: path-template choice on multiply-reachable models -/

/-- **C6 (counterexample).**  In the schema where root `r` links to `C`
both directly (link `c`, declared first) and through `A` (links `a`, then
`c2` — the deeper and more recently discovered chain), the compiled
template for `C` is the one from the *first* discovered path `/r/:rId/c/…`,
not the deepest path `/r/:rId/a/:AId/c2/…` the claim predicts. -/
theorem c6_first_path_wins_counterexample :
    rootModels c6models 10 "C" = some "/r/:rId/c/:CId|r|C" ∧
    rootModels c6models 10 "A" = some "/r/:rId/a/:AId|r|A" ∧
    ("/r/:rId/c/:CId|r|C" : String) ≠ "/r/:rId/a/:AId/c2/:CId|r|A|C" := by
  refine ⟨?_, ?_, by decide⟩ <;>
    simp [rootModels, rootChildModels, rootChildLinks, c6models, getIn, splitBar,
      splitChar, joinSep]

/-! ### Shared lemmas on association-list maps -/

theorem getIn_cons {α : Type} (k' : String) (v' : α) (rest : List (String × α)) (k : String) :
    getIn ((k', v') :: rest) k = if k' = k then some v' else getIn rest k := by
  by_cases h : k' = k
  · simp [getIn, List.find?, h]
  · have hb : (k' == k) = false := beq_eq_false_iff_ne.mpr h
    simp [getIn, List.find?, hb, h]

theorem getIn_nil {α : Type} (k : String) : getIn ([] : List (String × α)) k = none := rfl

theorem mem_of_getIn_eq_some {α : Type} {m : List (String × α)} {k : String} {v : α}
    (h : getIn m k = some v) : (k, v) ∈ m := by
  induction m with
  | nil => simp [getIn] at h
  | cons p rest ih =>
    rw [show p = (p.1, p.2) from rfl, getIn_cons] at h
    by_cases hk : p.1 = k
    · simp [hk] at h
      subst hk h
      exact List.mem_cons_self _ _
    · simp [hk] at h
      exact List.mem_cons_of_mem _ (ih h)

theorem getIn_eq_some_of_mem {α : Type} {m : List (String × α)} {k : String} {v : α}
    (hnd : keysNodup m) (hm : (k, v) ∈ m) : getIn m k = some v := by
  induction m with
  | nil => simp at hm
  | cons p rest ih =>
    rcases List.mem_cons.mp hm with h | h
    · rw [← h, getIn_cons]
      simp
    · rw [show p = (p.1, p.2) from rfl, getIn_cons]
      have hk : p.1 ≠ k := by
        intro hkk
        have : k ∈ rest.map Prod.fst := List.mem_map.mpr ⟨(k, v), h, rfl⟩
        have hnd' := (List.nodup_cons.mp hnd).1
        rw [hkk] at hnd'
        exact hnd' this
      simp [hk]
      exact ih (List.nodup_cons.mp hnd).2 h

theorem getIn_isNone_iff {α : Type} {m : List (String × α)} {k : String} :
    getIn m k = none ↔ k ∉ m.map Prod.fst := by
  induction m with
  | nil => simp [getIn]
  | cons p rest ih =>
    rw [show p = (p.1, p.2) from rfl, getIn_cons]
    by_cases hk : p.1 = k
    · simp [hk]
    · have hk' : ¬ k = p.1 := fun hh => hk hh.symm
      simp only [if_neg hk, ih, List.map_cons, List.mem_cons]
      tauto

/-! ### C6, amended: templates are never overwritten -/

theorem rootChildLinks_mono (models : JModels) (fuel : Nat)
    (h : ∀ cache name m t, cache m = some t →
      rootChildModels models fuel cache name m = some t) :
    ∀ (links : List (String × JLink)) (pu pm : String) (cache : UrlCache) (m t : String),
      cache m = some t → rootChildLinks models fuel pu pm links cache m = some t := by
  intro links
  induction links with
  | nil => intro pu pm cache m t hm; simpa [rootChildLinks] using hm
  | cons lp rest ih =>
    intro pu pm cache m t hm
    rw [show lp = (lp.1, lp.2) from rfl, rootChildLinks]
    by_cases hc : (cache lp.2.model).isSome
    · simp only [hc, if_true]
      exact ih pu pm cache m t hm
    · simp only [hc, if_false]
      apply ih
      apply h
      have hmn : m ≠ lp.2.model := by
        intro hEq
        rw [← hEq, hm] at hc
        simp at hc
      simp [hmn]
      exact hm

/-- **C6 (amended).**  The template assigned to a model is the one from the
*first* reachability path discovered by the depth-first traversal (roots
first, links in declaration order): once a model has a URL template in the
cache, no later discovery — however deep or recent — ever replaces it.
(The counterexample `c6_first_path_wins_counterexample` shows the claim's
"deepest/most recently discovered path wins" reading is false.) -/
theorem c6_amended_first_discovered_template_kept (models : JModels) :
    ∀ (fuel : Nat) (cache : UrlCache) (name m t : String),
      cache m = some t → rootChildModels models fuel cache name m = some t := by
  intro fuel
  induction fuel with
  | zero => intro cache name m t hm; simpa [rootChildModels] using hm
  | succ fuel ih =>
    intro cache name m t hm
    rw [rootChildModels]
    exact rootChildLinks_mono models fuel (fun c n m' t' h' => ih c n m' t' h') _ _ _ cache m t hm

/-- Witness for `c6_amended_first_discovered_template_kept` at a concrete
cache and schema. -/
theorem c6_amended_witness :
    rootChildModels c6models 3 (fun k => if k = "C" then some "T0" else none) "r" "C" =
      some "T0" :=
  c6_amended_first_discovered_template_kept c6models 3
    (fun k => if k = "C" then some "T0" else none) "r" "C" "T0" (by simp)

/-! ## C1: the dangling-model check -/

theorem validateLinks_targets {models : List (String × EModel)} {n : String}
    {links : List (String × ELink)} {ch : List String}
    (h : validateLinks models n links = .ok ch) :
    ch = links.filterMap (fun l => l.2.model) := by
  induction links generalizing ch with
  | nil =>
    simp [validateLinks] at h
    simp [h.symm]
  | cons lp rest ih =>
    rw [show lp = (lp.1, lp.2) from rfl, validateLinks] at h
    by_cases h1 : jsTruthyStr lp.2.type
    · rw [if_neg (by simpa using h1)] at h
      by_cases h2 : Option.getD lp.2.type "" ≠ "hasOne" ∧ Option.getD lp.2.type "" ≠ "hasMany"
      · rw [if_pos h2] at h
        exact absurd h (by simp)
      · rw [if_neg h2] at h
        by_cases h3 : jsTruthyStr lp.2.model
        · rw [if_neg (by simpa using h3)] at h
          by_cases h4 : (getIn models (Option.getD lp.2.model "")).isNone
          · rw [if_pos h4] at h
            exact absurd h (by simp)
          · rw [if_neg h4] at h
            cases htail : validateLinks models n rest with
            | error e =>
              rw [htail] at h
              exact absurd h (by simp)
            | ok tail =>
              rw [htail] at h
              injection h with h'
              obtain ⟨lm, hlm⟩ : ∃ lm, lp.2.model = some lm := by
                rcases hmm : lp.2.model with _ | s
                · rw [hmm] at h3
                  simp [jsTruthyStr] at h3
                · exact ⟨s, rfl⟩
              subst h'
              simp [List.filterMap_cons, hlm, ih htail]
        · rw [if_pos (by simpa using h3)] at h
          exact absurd h (by simp)
    · rw [if_pos (by simpa using h1)] at h
      exact absurd h (by simp)

theorem validateModels_spec {models : List (String × EModel)} {sn : List String}
    {l : List (String × EModel)} {cr : List (String × List String)} {rt : List String}
    (h : validateModels models sn l = .ok (cr, rt)) :
    cr = l.map (fun p => (p.1, p.2.links.filterMap (fun x => x.2.model))) ∧
    rt = l.filterMap (fun p => match p.2.meta with
      | some meta => if meta.isRootObject then some p.1 else none
      | none => none) := by
  induction l generalizing cr rt with
  | nil =>
    simp [validateModels] at h
    simp [h.1.symm, h.2.symm]
  | cons p rest ih =>
    rw [show p = (p.1, p.2) from rfl, validateModels] at h
    cases hmeta : p.2.meta with
    | none =>
      rw [hmeta] at h
      exact absurd h (by simp)
    | some meta =>
      rw [hmeta] at h
      dsimp only at h
      by_cases h1 : jsTruthyStr meta.store
      · rw [if_neg (by simpa using h1)] at h
        by_cases h2 : sn.contains (Option.getD meta.store "")
        · rw [if_neg (by simpa using h2)] at h
          cases hvl : validateLinks models p.1 p.2.links with
          | error e =>
            rw [hvl] at h
            exact absurd h (by simp)
          | ok children =>
            rw [hvl] at h
            dsimp only at h
            cases hvm : validateModels models sn rest with
            | error e =>
              rw [hvm] at h
              exact absurd h (by simp)
            | ok pr =>
              obtain ⟨cr2, rt2⟩ := pr
              rw [hvm] at h
              dsimp only at h
              injection h with h'
              have hcr : cr = (p.1, children) :: cr2 := by
                have := congrArg Prod.fst h'
                simpa using this.symm
              have hrt : rt = (if meta.isRootObject then [p.1] else []) ++ rt2 := by
                have := congrArg Prod.snd h'
                simpa using this.symm
              obtain ⟨ihc, ihr⟩ := ih hvm
              constructor
              · rw [hcr, ihc, List.map_cons]
                rw [validateLinks_targets hvl]
              · rw [hrt, ihr, List.filterMap_cons, hmeta]
                cases hro : meta.isRootObject <;> simp [hro]
        · rw [if_pos (by simpa using h2)] at h
          exact absurd h (by simp)
      · rw [if_pos (by simpa using h1)] at h
        exact absurd h (by simp)

theorem getIn_map_snd {α β : Type} (g : String → α → β) (l : List (String × α)) (k : String) :
    getIn (l.map (fun p => (p.1, g p.1 p.2))) k = (getIn l k).map (g k) := by
  induction l with
  | nil => simp [getIn]
  | cons p rest ih =>
    rw [List.map_cons, getIn_cons, show p = (p.1, p.2) from rfl, getIn_cons]
    by_cases hk : p.1 = k
    · subst hk
      simp
    · simp [hk, ih]

theorem canRoot_targets {models : List (String × EModel)} {sn : List String}
    {cr : List (String × List String)} {rt : List String}
    (h : validateModels models sn models = .ok (cr, rt)) (n : String) :
    Option.getD (getIn cr n) [] = modelLinkTargets models n := by
  obtain ⟨hcr, -⟩ := validateModels_spec h
  subst hcr
  rw [getIn_map_snd (fun _ em => em.links.filterMap (fun x => x.2.model)) models n]
  cases hg : getIn models n <;> simp [modelLinkTargets, hg]

theorem roots_flagged {models : List (String × EModel)} {sn : List String}
    {cr : List (String × List String)} {rt : List String}
    (hnd : keysNodup models)
    (h : validateModels models sn models = .ok (cr, rt)) (n : String) :
    n ∈ rt ↔ isRootFlagged models n := by
  obtain ⟨-, hrt⟩ := validateModels_spec h
  subst hrt
  rw [List.mem_filterMap]
  constructor
  · rintro ⟨p, hp, hmatch⟩
    rcases hm : p.2.meta with _ | meta
    · rw [hm] at hmatch
      simp at hmatch
    · rw [hm] at hmatch
      dsimp only at hmatch
      by_cases hro : meta.isRootObject = true
      · rw [if_pos hro] at hmatch
        injection hmatch with hn
        subst hn
        refine ⟨p.2, ?_, meta, hm, hro⟩
        exact getIn_eq_some_of_mem hnd (by simpa using hp)
      · rw [if_neg hro] at hmatch
        simp at hmatch
  · rintro ⟨em, hget, meta, hmeta, hro⟩
    refine ⟨(n, em), mem_of_getIn_eq_some hget, ?_⟩
    rw [hmeta]
    simp [hro]

/-! ### Correctness of the rootability marking -/

theorem rootChildrenAll_mono {cr : List (String × List String)} {fuel : Nat}
    (hrc : ∀ r n r', rootChildren cr fuel r n = some r' →
      ∀ k, r k = true → r' k = true) :
    ∀ (cs : List String) (r r' : String → Bool),
      rootChildrenAll cr fuel cs r = some r' → ∀ k, r k = true → r' k = true := by
  intro cs
  induction cs with
  | nil =>
    intro r r' h k hk
    rw [rootChildrenAll] at h
    injection h with h'
    rw [← h']
    exact hk
  | cons c rest ih =>
    intro r r' h k hk
    rw [rootChildrenAll] at h
    cases hc : rootChildren cr fuel r c with
    | none => rw [hc] at h; exact absurd h (by simp)
    | some r1 =>
      rw [hc] at h
      exact ih r1 r' h k (hrc r c r1 hc k hk)

theorem rootChildren_mono {cr : List (String × List String)} :
    ∀ (fuel : Nat) (r : String → Bool) (n : String) (r' : String → Bool),
      rootChildren cr fuel r n = some r' → ∀ k, r k = true → r' k = true := by
  intro fuel
  induction fuel with
  | zero => intro r n r' h; rw [rootChildren] at h; exact absurd h (by simp)
  | succ fuel ih =>
    intro r n r' h k hk
    rw [rootChildren] at h
    refine rootChildrenAll_mono ih _ _ _ h k ?_
    by_cases hkn : k = n <;> simp [hkn, hk]

theorem rootChildrenAll_sound {cr : List (String × List String)} {fuel : Nat}
    (hrc : ∀ r n r', rootChildren cr fuel r n = some r' →
      ∀ k, r' k = true → r k = true ∨ Relation.ReflTransGen (stepOf cr) n k) :
    ∀ (cs : List String) (r r' : String → Bool),
      rootChildrenAll cr fuel cs r = some r' → ∀ k, r' k = true →
        r k = true ∨ ∃ c ∈ cs, Relation.ReflTransGen (stepOf cr) c k := by
  intro cs
  induction cs with
  | nil =>
    intro r r' h k hk
    rw [rootChildrenAll] at h
    injection h with h'
    rw [← h'] at hk
    exact Or.inl hk
  | cons c rest ih =>
    intro r r' h k hk
    rw [rootChildrenAll] at h
    cases hc : rootChildren cr fuel r c with
    | none => rw [hc] at h; exact absurd h (by simp)
    | some r1 =>
      rw [hc] at h
      rcases ih r1 r' h k hk with h1 | ⟨c', hc', hr⟩
      · rcases hrc r c r1 hc k h1 with h2 | h2
        · exact Or.inl h2
        · exact Or.inr ⟨c, List.mem_cons_self _ _, h2⟩
      · exact Or.inr ⟨c', List.mem_cons_of_mem _ hc', hr⟩

theorem rootChildren_sound {cr : List (String × List String)} :
    ∀ (fuel : Nat) (r : String → Bool) (n : String) (r' : String → Bool),
      rootChildren cr fuel r n = some r' → ∀ k, r' k = true →
        r k = true ∨ Relation.ReflTransGen (stepOf cr) n k := by
  intro fuel
  induction fuel with
  | zero => intro r n r' h; rw [rootChildren] at h; exact absurd h (by simp)
  | succ fuel ih =>
    intro r n r' h k hk
    rw [rootChildren] at h
    rcases rootChildrenAll_sound ih _ _ _ h k hk with h1 | ⟨c, hc, hr⟩
    · by_cases hkn : k = n
      · exact Or.inr (hkn ▸ Relation.ReflTransGen.refl)
      · rw [if_neg hkn] at h1
        exact Or.inl h1
    · refine Or.inr (Relation.ReflTransGen.head ?_ hr)
      exact hc

theorem rootChildrenAll_complete {cr : List (String × List String)} {fuel : Nat}
    (hrc : ∀ r n r', rootChildren cr fuel r n = some r' →
      ∀ k, Relation.ReflTransGen (stepOf cr) n k → r' k = true) :
    ∀ (cs : List String) (r r' : String → Bool),
      rootChildrenAll cr fuel cs r = some r' →
      ∀ c ∈ cs, ∀ k, Relation.ReflTransGen (stepOf cr) c k → r' k = true := by
  intro cs
  induction cs with
  | nil => intro r r' _ c hc; simp at hc
  | cons c0 rest ih =>
    intro r r' h c hc k hk
    rw [rootChildrenAll] at h
    cases hc0 : rootChildren cr fuel r c0 with
    | none => rw [hc0] at h; exact absurd h (by simp)
    | some r1 =>
      rw [hc0] at h
      rcases List.mem_cons.mp hc with hEq | hmem
      · subst hEq
        exact rootChildrenAll_mono (fun a b c' h' => rootChildren_mono fuel a b c' h')
          rest r1 r' h k (hrc r c r1 hc0 k hk)
      · exact ih r1 r' h c hmem k hk

theorem rootChildren_complete {cr : List (String × List String)} :
    ∀ (fuel : Nat) (r : String → Bool) (n : String) (r' : String → Bool),
      rootChildren cr fuel r n = some r' →
      ∀ k, Relation.ReflTransGen (stepOf cr) n k → r' k = true := by
  intro fuel
  induction fuel with
  | zero => intro r n r' h; rw [rootChildren] at h; exact absurd h (by simp)
  | succ fuel ih =>
    intro r n r' h k hk
    rw [rootChildren] at h
    rcases Relation.ReflTransGen.cases_head hk with hEq | ⟨b, hstep, hrest⟩
    · subst hEq
      refine rootChildrenAll_mono (fun a b c h' => rootChildren_mono fuel a b c h')
        _ _ _ h n ?_
      simp
    · exact rootChildrenAll_complete ih _ _ _ h b hstep k hrest

theorem markAllRoots_mono {cr : List (String × List String)} {fuel : Nat} :
    ∀ (ms : List String) (r r' : String → Bool),
      markAllRoots cr fuel ms r = some r' → ∀ k, r k = true → r' k = true := by
  intro ms
  induction ms with
  | nil =>
    intro r r' h k hk
    rw [markAllRoots] at h
    injection h with h'
    rw [← h']
    exact hk
  | cons m rest ih =>
    intro r r' h k hk
    rw [markAllRoots] at h
    cases hm : rootChildren cr fuel r m with
    | none => rw [hm] at h; exact absurd h (by simp)
    | some r1 =>
      rw [hm] at h
      exact ih r1 r' h k (rootChildren_mono fuel r m r1 hm k hk)

theorem markAllRoots_sound {cr : List (String × List String)} {fuel : Nat} :
    ∀ (ms : List String) (r r' : String → Bool),
      markAllRoots cr fuel ms r = some r' → ∀ k, r' k = true →
        r k = true ∨ ∃ m ∈ ms, Relation.ReflTransGen (stepOf cr) m k := by
  intro ms
  induction ms with
  | nil =>
    intro r r' h k hk
    rw [markAllRoots] at h
    injection h with h'
    rw [← h'] at hk
    exact Or.inl hk
  | cons m rest ih =>
    intro r r' h k hk
    rw [markAllRoots] at h
    cases hm : rootChildren cr fuel r m with
    | none => rw [hm] at h; exact absurd h (by simp)
    | some r1 =>
      rw [hm] at h
      rcases ih r1 r' h k hk with h1 | ⟨m', hm', hr⟩
      · rcases rootChildren_sound fuel r m r1 hm k h1 with h2 | h2
        · exact Or.inl h2
        · exact Or.inr ⟨m, List.mem_cons_self _ _, h2⟩
      · exact Or.inr ⟨m', List.mem_cons_of_mem _ hm', hr⟩

theorem markAllRoots_complete {cr : List (String × List String)} {fuel : Nat} :
    ∀ (ms : List String) (r r' : String → Bool),
      markAllRoots cr fuel ms r = some r' →
      ∀ m ∈ ms, ∀ k, Relation.ReflTransGen (stepOf cr) m k → r' k = true := by
  intro ms
  induction ms with
  | nil => intro r r' _ m hm; simp at hm
  | cons m0 rest ih =>
    intro r r' h m hm k hk
    rw [markAllRoots] at h
    cases hm0 : rootChildren cr fuel r m0 with
    | none => rw [hm0] at h; exact absurd h (by simp)
    | some r1 =>
      rw [hm0] at h
      rcases List.mem_cons.mp hm with hEq | hmem
      · subst hEq
        exact markAllRoots_mono rest r1 r' h k
          (rootChildren_complete fuel r m r1 hm0 k hk)
      · exact ih r1 r' h m hmem k hk

theorem stepOf_iff_linkStep {models : List (String × EModel)} {sn : List String}
    {cr : List (String × List String)} {rt : List String}
    (hv : validateModels models sn models = .ok (cr, rt)) (a b : String) :
    stepOf cr a b ↔ LinkStep models a b := by
  unfold stepOf LinkStep
  rw [canRoot_targets hv a]

theorem rtg_stepOf_iff {models : List (String × EModel)} {sn : List String}
    {cr : List (String × List String)} {rt : List String}
    (hv : validateModels models sn models = .ok (cr, rt)) (a b : String) :
    Relation.ReflTransGen (stepOf cr) a b ↔
      Relation.ReflTransGen (LinkStep models) a b := by
  constructor
  · exact Relation.ReflTransGen.mono (fun x y h => (stepOf_iff_linkStep hv x y).mp h)
  · exact Relation.ReflTransGen.mono (fun x y h => (stepOf_iff_linkStep hv x y).mpr h)

/-- **C1 (amended).**  For a schema passing the per-model validation and a
terminating run of the rooting traversal, construction succeeds iff every
declared model is transitively reachable (via declared link targets) from a
root-flagged model; otherwise it throws exactly the dangling-model error,
and the model it names is a declared, unreachable one.  (By
`c1_counterexample_cycle_diverges`, the traversal does *not* terminate on
schemas with a link cycle reachable from a root, where the claim's "if and
only if" fails.) -/
theorem c1_amended_dangling_iff_unreachable
    (models : List (String × EModel)) (storeNames : List String) (fuel : Nat)
    (cr : List (String × List String)) (rt : List String) (res : Except String Unit)
    (hnd : keysNodup models)
    (hv : validateModels models storeNames models = .ok (cr, rt))
    (hres : configureModels models storeNames fuel = some res) :
    ((res = .ok ()) ↔ ∀ m, (getIn models m).isSome → ModelReachable models m) ∧
    (res ≠ .ok () → ∃ m, res = .error (ERROR_DANGLING_MODEL m) ∧
      (getIn models m).isSome ∧ ¬ ModelReachable models m) := by
  rw [configureModels, hv] at hres
  dsimp only at hres
  cases hmark : markAllRoots cr fuel rt (fun k => rt.contains k) with
  | none => rw [hmark] at hres; exact absurd hres (by simp)
  | some rootable =>
    rw [hmark] at hres
    dsimp only at hres
    have hchar : ∀ k, rootable k = true ↔ ModelReachable models k := by
      intro k
      constructor
      · intro hk
        rcases markAllRoots_sound rt _ rootable hmark k hk with hinit | ⟨m, hm, hr⟩
        · have hkrt : k ∈ rt := by simpa using hinit
          exact ⟨k, (roots_flagged hnd hv k).mp hkrt, Relation.ReflTransGen.refl⟩
        · exact ⟨m, (roots_flagged hnd hv m).mp hm, (rtg_stepOf_iff hv m k).mp hr⟩
      · rintro ⟨r0, hflag, hrtg⟩
        exact markAllRoots_complete rt _ rootable hmark r0
          ((roots_flagged hnd hv r0).mpr hflag) k ((rtg_stepOf_iff hv r0 k).mpr hrtg)
    cases hfind : models.find? (fun p => ! rootable p.1) with
    | none =>
      rw [hfind] at hres
      injection hres with hres'
      subst hres'
      constructor
      · constructor
        · intro _ m hm
          rcases Option.isSome_iff_exists.mp hm with ⟨em, hem⟩
          have hmem := mem_of_getIn_eq_some hem
          have := List.find?_eq_none.mp hfind (m, em) hmem
          simp at this
          exact (hchar m).mp this
        · intro _
          rfl
      · intro hne
        exact absurd rfl hne
    | some p =>
      rw [hfind] at hres
      injection hres with hres'
      subst hres'
      have hpfalse : rootable p.1 = false := by
        have := List.find?_some hfind
        simpa using this
      have hpmem : p ∈ models := List.mem_of_find?_eq_some hfind
      have hpnr : ¬ ModelReachable models p.1 := by
        intro hr
        rw [← hchar p.1] at hr
        rw [hpfalse] at hr
        exact absurd hr (by simp)
      have hpsome : (getIn models p.1).isSome := by
        rw [getIn_eq_some_of_mem hnd (by simpa using hpmem)]
        rfl
      constructor
      · constructor
        · intro hok
          exact absurd hok (by simp)
        · intro hall
          exact absurd (hall p.1 hpsome) hpnr
      · intro _
        exact ⟨p.1, rfl, hpsome, hpnr⟩

theorem c1cyc_marking_diverges :
    ∀ fuel : Nat, (∀ r, rootChildren c1cycCR fuel r "A" = none) ∧
      (∀ r, rootChildren c1cycCR fuel r "B" = none) := by
  intro fuel
  induction fuel with
  | zero => exact ⟨fun r => by rw [rootChildren], fun r => by rw [rootChildren]⟩
  | succ fuel ih =>
    constructor
    · intro r
      rw [rootChildren]
      rw [show Option.getD (getIn c1cycCR "A") [] = ["B"] from rfl]
      rw [rootChildrenAll, ih.2]
    · intro r
      rw [rootChildren]
      rw [show Option.getD (getIn c1cycCR "B") [] = ["A"] from rfl]
      rw [rootChildrenAll, ih.1]

theorem c1cyclic_C_unreachable : ¬ ModelReachable c1cyclic "C" := by
  rintro ⟨r0, ⟨em, hget, meta, hmeta, hflag⟩, hrtg⟩
  have hmem := mem_of_getIn_eq_some hget
  have hr0 : r0 = "A" := by
    rcases List.mem_cons.mp hmem with h | h
    · exact congrArg Prod.fst h
    rcases List.mem_cons.mp h with h' | h'
    · exfalso
      have : em = c1cyclic[1].2 := congrArg Prod.snd h'
      rw [this] at hmeta
      injection hmeta with hm
      rw [← hm] at hflag
      exact absurd hflag (by decide)
    rcases List.mem_cons.mp h' with h'' | h''
    · exfalso
      have : em = c1cyclic[2].2 := congrArg Prod.snd h''
      rw [this] at hmeta
      injection hmeta with hm
      rw [← hm] at hflag
      exact absurd hflag (by decide)
    · simp at h''
  subst hr0
  have haux : ∀ x, Relation.ReflTransGen (LinkStep c1cyclic) "A" x →
      x = "A" ∨ x = "B" := by
    intro x hx
    induction hx with
    | refl => exact Or.inl rfl
    | tail h1 h2 ih =>
      rcases ih with h | h
      · rw [h] at h2
        unfold LinkStep at h2
        rw [show modelLinkTargets c1cyclic "A" = ["B"] from rfl] at h2
        exact Or.inr (List.mem_singleton.mp h2)
      · rw [h] at h2
        unfold LinkStep at h2
        rw [show modelLinkTargets c1cyclic "B" = ["A"] from rfl] at h2
        exact Or.inl (List.mem_singleton.mp h2)
  rcases haux "C" hrtg with h | h <;> exact absurd h (by decide)

/-- **C1 (counterexample).**  On the schema `c1cyclic` — root `A` linking
to `B`, `B` linking back to `A`, and a third model `C` with no incoming
links — some model (`C`) is not transitively reachable from any root, yet
the constructor never throws the dangling-model error: the rooting
recursion `rootChildren` has no visited check, so it re-enters the `A`–`B`
cycle forever and `configureModels` never returns, whatever stack bound it
is given.  The claim's "construction throws a dangling-model error if and
only if some model is not reachable" is therefore false at this input. -/
theorem c1_counterexample_cycle_diverges :
    configDiverges c1cyclic ["s"] ∧
    (getIn c1cyclic "C").isSome = true ∧
    ¬ ModelReachable c1cyclic "C" := by
  refine ⟨?_, rfl, c1cyclic_C_unreachable⟩
  intro fuel
  rw [configureModels]
  rw [show validateModels c1cyclic ["s"] c1cyclic = .ok (c1cycCR, ["A"]) from rfl]
  dsimp only
  rw [markAllRoots, (c1cyc_marking_diverges fuel).1]

theorem c1acyclic_run :
    configureModels c1acyclic ["s"] 50 = some (.error (ERROR_DANGLING_MODEL "C")) := by
  rw [configureModels]
  rw [show validateModels c1acyclic ["s"] c1acyclic =
    .ok ([("A", ["B"]), ("B", []), ("C", [])], ["A"]) from rfl]
  dsimp only
  rw [markAllRoots]
  rw [show (50 : Nat) = 49 + 1 from rfl, rootChildren]
  rw [show Option.getD (getIn [("A", ["B"]), ("B", []), ("C", [])] "A") [] = ["B"] from rfl]
  rw [rootChildrenAll]
  rw [show (49 : Nat) = 48 + 1 from rfl, rootChildren]
  rw [show Option.getD (getIn [("A", ["B"]), ("B", []), ("C", [])] "B") [] =
    ([] : List String) from rfl]
  simp only [rootChildrenAll]
  rw [markAllRoots]
  rfl

/-- Witness for `c1_amended_dangling_iff_unreachable` on the acyclic schema
`c1acyclic`, whose construction terminates and throws the dangling error
for `C`. -/
theorem c1_amended_witness :
    ((Except.error (ERROR_DANGLING_MODEL "C") : Except String Unit) = .ok ()) ↔
      (∀ m, (getIn c1acyclic m).isSome → ModelReachable c1acyclic m) :=
  (c1_amended_dangling_iff_unreachable c1acyclic ["s"] 50
    [("A", ["B"]), ("B", []), ("C", [])] ["A"]
    (.error (ERROR_DANGLING_MODEL "C")) (by unfold keysNodup; decide) rfl c1acyclic_run).1

/-! ## C8: repeating an update with identical values -/

/-- **C8 (counterexample).**  After C2's first four creates (`a1` holds the
`one`-link `bike = b1`, inverse `owner = a1`), updating `a1` with the very
values it already has (`{id: a1, bike: b1}`) resolves but *erases* the
inverse `b1.owner` (the unlink pass runs on a stale clone, the relink diff
cancels out), and repeating the same update resolves and *restores* it:
the store after two identical updates differs from the store after one,
refuting idempotence. -/
theorem c8_repeat_update_differs :
    c8update1.2.isResolve = true ∧ c8update2.2.isResolve = true ∧
    dataField c8once "bicycle" "b1" "owner" = some none ∧
    dataField c8twice "bicycle" "b1" "owner" = some (some (.str "a1")) ∧
    dataField c8twice "bicycle" "b1" "owner" ≠ dataField c8once "bicycle" "b1" "owner" := by
  decide

/-! ### Extensionality and further association-list lemmas -/

theorem instExt {a b : Inst} (h1 : a.id = b.id) (h2 : ∀ f, a.fields f = b.fields f) :
    a = b := by
  cases a
  cases b
  cases h1
  have hf := funext h2
  cases hf
  rfl

theorem storeExt {a b : MemoryDatastore}
    (h1 : a.models = b.models) (h2 : a.data = b.data) (h3 : a.snapshot = b.snapshot)
    (h4 : a.meta = b.meta) (h5 : a.ttlCache = b.ttlCache) (h6 : a.shared = b.shared)
    (h7 : a.ttl = b.ttl) (h8 : a.hasUpstream = b.hasUpstream) : a = b := by
  cases a
  cases b
  cases h1
  cases h2
  cases h3
  cases h4
  cases h5
  cases h6
  cases h7
  cases h8
  rfl

theorem getIn_setIn_self {α : Type} (m : List (String × α)) (k : String) (v : α) :
    getIn (setIn m k v) k = some v := by
  induction m with
  | nil => rw [setIn, getIn_cons, if_pos rfl]
  | cons p rest ih =>
    obtain ⟨pk, pv⟩ := p
    simp only [setIn]
    by_cases h : pk = k
    · rw [if_pos h, getIn_cons, if_pos rfl]
    · rw [if_neg h, getIn_cons, if_neg h]
      exact ih

theorem getIn_setIn_ne {α : Type} (m : List (String × α)) (k k' : String) (v : α)
    (h : k' ≠ k) : getIn (setIn m k v) k' = getIn m k' := by
  induction m with
  | nil => rw [setIn, getIn_cons, if_neg (Ne.symm h), getIn_nil]
  | cons p rest ih =>
    obtain ⟨pk, pv⟩ := p
    simp only [setIn]
    by_cases hp : pk = k
    · rw [if_pos hp, getIn_cons, getIn_cons, if_neg (Ne.symm h), hp, if_neg (Ne.symm h)]
    · rw [if_neg hp, getIn_cons, getIn_cons]
      by_cases hpk : pk = k'
      · rw [if_pos hpk, if_pos hpk]
      · rw [if_neg hpk, if_neg hpk, ih]

theorem setIn_setIn {α : Type} (m : List (String × α)) (k : String) (v w : α) :
    setIn (setIn m k v) k w = setIn m k w := by
  induction m with
  | nil => simp [setIn]
  | cons p rest ih =>
    obtain ⟨pk, pv⟩ := p
    by_cases h : pk = k
    · subst h
      simp [setIn]
    · simp only [setIn]
      rw [if_neg h]
      simp only [setIn, if_neg h]
      rw [ih]

/-! ### The simple-property pass -/

theorem setF_fields (i : Inst) (f : String) (v : Option FVal) (g : String) :
    (i.setF f v).fields g = if g = f then v else i.fields g := rfl

theorem setF_self {i : Inst} {f : String} {v : Option FVal} (h : i.fields f = v) :
    i.setF f v = i := by
  refine instExt rfl ?_
  intro g
  rw [setF_fields]
  by_cases hg : g = f
  · rw [if_pos hg, hg]
    exact h.symm
  · rw [if_neg hg]

theorem simplePropStep_skip (st : UState) (pp : String × PropVal)
    (h : pp.1 = "meta" ∨ searchLinked (propValString pp.2) = true) (i : Inst) :
    simplePropStep st i pp = i := by
  unfold simplePropStep
  rw [if_pos h]

theorem simplePropStep_keep (st : UState) (pp : String × PropVal)
    (h : ¬ (pp.1 = "meta" ∨ searchLinked (propValString pp.2) = true)) (i : Inst)
    (h2 : ((i.fields pp.1).isSome && (st.fields pp.1).isNone) = true) :
    simplePropStep st i pp = i := by
  unfold simplePropStep
  rw [if_neg h, if_pos h2]

theorem simplePropStep_assign (st : UState) (pp : String × PropVal)
    (h : ¬ (pp.1 = "meta" ∨ searchLinked (propValString pp.2) = true)) (i : Inst)
    (h2 : ¬ ((i.fields pp.1).isSome && (st.fields pp.1).isNone) = true) :
    simplePropStep st i pp = i.setF pp.1 (st.val pp.1) := by
  unfold simplePropStep
  rw [if_neg h, if_neg h2]

theorem simplePropStep_fields_ne (st : UState) (i : Inst) (pp : String × PropVal)
    (g : String) (h : g ≠ pp.1) :
    (simplePropStep st i pp).fields g = i.fields g := by
  unfold simplePropStep
  repeat' split
  · rfl
  · rfl
  · rw [setF_fields, if_neg h]

theorem nodupKeysB_head {α : Type} {k : String} {v : α} {rest : List (String × α)}
    (h : nodupKeysB ((k, v) :: rest) = true) :
    k ∉ rest.map Prod.fst ∧ nodupKeysB rest = true := by
  simp only [nodupKeysB, Bool.and_eq_true, List.all_eq_true] at h
  refine ⟨?_, h.2⟩
  intro hk
  rcases List.mem_map.mp hk with ⟨p, hp, hpk⟩
  have hne := h.1 p hp
  simp [hpk] at hne

theorem foldSimple_fields_of_not_mem (st : UState) (g : String) (t : Template) :
    ∀ i : Inst, g ∉ t.map Prod.fst →
      (t.foldl (simplePropStep st) i).fields g = i.fields g := by
  induction t with
  | nil => intro i _; rfl
  | cons p rest ih =>
    intro i hg
    simp only [List.map_cons, List.mem_cons] at hg
    push_neg at hg
    rw [List.foldl_cons, ih (simplePropStep st i p) hg.2,
        simplePropStep_fields_ne st i p g hg.1]

/-- Running the simple-property pass a second time with the same state
changes nothing (the pass only assigns each duplicate-free template key the
state's value or keeps the present one, both stable under repetition). -/
theorem foldSimple_idem (st : UState) (t : Template) :
    nodupKeysB t = true → ∀ i : Inst,
      t.foldl (simplePropStep st) (t.foldl (simplePropStep st) i) =
        t.foldl (simplePropStep st) i := by
  induction t with
  | nil => intro _ i; rfl
  | cons p rest ih =>
    intro hnd i
    obtain ⟨pk, pv⟩ := p
    obtain ⟨hmem, hnd2⟩ := nodupKeysB_head hnd
    simp only [List.foldl_cons]
    by_cases h1 : (pk, pv).1 = "meta" ∨ searchLinked (propValString (pk, pv).2) = true
    · rw [simplePropStep_skip st (pk, pv) h1]
      exact ih hnd2 _
    · by_cases h2 : (((rest.foldl (simplePropStep st) (simplePropStep st i (pk, pv))).fields
          (pk, pv).1).isSome && (st.fields (pk, pv).1).isNone) = true
      · rw [simplePropStep_keep st (pk, pv) h1 _ h2]
        exact ih hnd2 _
      · rw [simplePropStep_assign st (pk, pv) h1 _ h2]
        have hfe : (rest.foldl (simplePropStep st) (simplePropStep st i (pk, pv))).fields pk
            = (simplePropStep st i (pk, pv)).fields pk :=
          foldSimple_fields_of_not_mem st pk rest _ hmem
        by_cases h3 : ((i.fields pk).isSome && (st.fields pk).isNone) = true
        · rw [simplePropStep_keep st (pk, pv) h1 i h3] at hfe h2
          rw [hfe] at h2
          exact absurd h3 h2
        · rw [simplePropStep_assign st (pk, pv) h1 i h3] at hfe ⊢
          rw [setF_fields, if_pos rfl] at hfe
          rw [setF_self hfe]
          exact ih hnd2 _

/-! ### `update` on a model without link properties -/

theorem updateLinkPropsGo_no_links (s : MemoryDatastore) (now : Int) (model : String)
    (slot : Nat) (st : UState) (cp : Bool) (meth : String) :
    ∀ t : Template, templateNoLinksB t = true → ∀ sess : Sess,
      updateLinkPropsGo s now model slot st cp meth t sess = .ok (sess, false, none) := by
  intro t
  induction t with
  | nil => intro _ sess; rfl
  | cons p rest ih =>
    intro ht sess
    obtain ⟨pk, pv⟩ := p
    simp only [templateNoLinksB, List.all_cons, Bool.and_eq_true] at ht
    cases pv with
    | attr ty =>
      have hsl : searchLinked ty = false := by
        have h1 := ht.1
        simp only [Bool.not_eq_true'] at h1
        exact h1
      have hns : ¬ (searchLinked (propValString (PropVal.attr ty)) = true) := by
        simp [propValString, hsl]
      simp only [updateLinkPropsGo]
      rw [if_pos (Or.inr hns)]
      exact ih ht.2 sess
    | link a => exact absurd ht.1 (by simp)

theorem updateLinkProperties_no_links (s : MemoryDatastore) (now : Int) (model : String)
    (slot : Nat) (st : UState) (cp : Bool) (meth : String) (sess : Sess)
    (hl : templateNoLinksB (s.getModelTemplate model) = true) :
    s.updateLinkProperties now model slot st cp meth sess
      = .ok (sess.watchModel (some slot) model, false, none) := by
  unfold MemoryDatastore.updateLinkProperties
  exact updateLinkPropsGo_no_links s now model slot st cp meth
    (s.getModelTemplate model) hl _

theorem diffFields_self (flds : List String) (i : Inst) : diffFields flds i i = [] := by
  simp only [diffFields, List.filterMap_eq_nil_iff]
  intro f _
  by_cases hf : f = "id" <;> simp [hf]

theorem getPatches_trivial (s : MemoryDatastore) (model : String) (x : Inst) :
    getPatches s (Sess.watchModel ⟨fun _ => x, 1, []⟩ (some 0) model) = [] := by
  simp [getPatches, Sess.watchModel, Sess.read, diffFields_self]

theorem setData_models (s : MemoryDatastore) (model : String) (u : Inst) :
    (s.setData model u).models = s.models := by
  unfold MemoryDatastore.setData
  cases getIn s.data model <;> rfl

theorem setData_meta (s : MemoryDatastore) (model : String) (u : Inst) :
    (s.setData model u).meta = s.meta := by
  unfold MemoryDatastore.setData
  cases getIn s.data model <;> rfl

theorem setData_ttlCache (s : MemoryDatastore) (model : String) (u : Inst) :
    (s.setData model u).ttlCache = s.ttlCache := by
  unfold MemoryDatastore.setData
  cases getIn s.data model <;> rfl

theorem setData_ttl (s : MemoryDatastore) (model : String) (u : Inst) :
    (s.setData model u).ttl = s.ttl := by
  unfold MemoryDatastore.setData
  cases getIn s.data model <;> rfl

theorem setData_hasModel (s : MemoryDatastore) (model : String) (u : Inst) (m : String) :
    (s.setData model u).hasModel m = s.hasModel m := by
  unfold MemoryDatastore.hasModel
  rw [setData_models]

theorem setData_getModelTemplate (s : MemoryDatastore) (model : String) (u : Inst)
    (m : String) : (s.setData model u).getModelTemplate m = s.getModelTemplate m := by
  unfold MemoryDatastore.getModelTemplate
  rw [setData_models]

theorem setData_of_no_map (s : MemoryDatastore) (model : String) (u : Inst)
    (hdm : getIn s.data model = none) : s.setData model u = s := by
  unfold MemoryDatastore.setData
  rw [hdm]

theorem setData_of_map (s : MemoryDatastore) (model : String) (u : Inst) (im : IdMap)
    (hdm : getIn s.data model = some im) :
    s.setData model u
      = { s with data := setIn s.data model (setIn im u.id u)
                 shared := fun m k => if m = model ∧ k = u.id then false else s.shared m k } := by
  unfold MemoryDatastore.setData
  rw [hdm]

/-- Writing the same instance through `_setData` twice is the same as
writing it once. -/
theorem setData_idem (s : MemoryDatastore) (model : String) (u : Inst) :
    (s.setData model u).setData model u = s.setData model u := by
  cases hdm : getIn s.data model with
  | none =>
    rw [setData_of_no_map s model u hdm, setData_of_no_map s model u hdm]
  | some im =>
    rw [setData_of_map s model u im hdm]
    rw [setData_of_map _ model u (setIn im u.id u) (by dsimp only; exact getIn_setIn_self _ _ _)]
    refine storeExt rfl ?_ rfl rfl rfl ?_ rfl rfl
    · dsimp only
      rw [setIn_setIn im u.id u u,
          setIn_setIn s.data model (setIn im u.id u) (setIn im u.id u)]
    · dsimp only
      funext m k
      by_cases h : m = model ∧ k = u.id
      · rw [if_pos h, if_pos h]
      · rw [if_neg h, if_neg h]

/-- Looking an instance up again after `_setData`: the lookup still
resolves, to the freshly written instance when the keys collide and to the
old entry otherwise. -/
theorem getData_after_setData (s : MemoryDatastore) (now : Int) (model : String)
    (oid : Option String) (u : Inst) {e : Inst}
    (hget : s.getData now model oid = some e) :
    ∃ e2, (s.setData model u).getData now model oid = some e2 ∧ (e2 = u ∨ e2 = e) := by
  cases oid with
  | none => simp [MemoryDatastore.getData] at hget
  | some id0 =>
    cases hdm : getIn s.data model with
    | none =>
      refine ⟨e, ?_, Or.inr rfl⟩
      rw [setData_of_no_map s model u hdm]
      exact hget
    | some im =>
      rw [setData_of_map s model u im hdm]
      simp only [MemoryDatastore.getData] at hget ⊢
      rw [hdm] at hget
      split at hget
      · exact absurd hget (by simp)
      · rename_i hexp
        rw [if_neg hexp]
        rw [getIn_setIn_self s.data model (setIn im u.id u)]
        by_cases hu : jsOr (s.meta model id0) id0 = u.id
        · refine ⟨u, ?_, Or.inl rfl⟩
          dsimp only [Option.getD]
          rw [hu, getIn_setIn_self]
        · refine ⟨e, ?_, Or.inr rfl⟩
          dsimp only [Option.getD]
          rw [getIn_setIn_ne im u.id _ u hu]
          exact hget

/-- On a model without link properties, a resolving `update` is exactly
"run the simple-property pass on the fetched clone, store the result",
and the stored value is what the promise resolves with. -/
theorem update_no_links_eq (s : MemoryDatastore) (now : Int) (model : String) (st : UState)
    (hl : templateNoLinksB (s.getModelTemplate model) = true)
    (hm : s.hasModel model = true) (hid : jsTruthyId st.id = true)
    {e : Inst} (hget : s.getData now model st.id = some e) :
    s.update now model (some st)
      = (s.setData model (s.updateSimpleProps model e st),
         .resolve (s.updateSimpleProps model e st)) := by
  unfold MemoryDatastore.update
  rw [if_neg (fun h => h hm)]
  dsimp only
  rw [if_neg (fun h => h hid), hget]
  dsimp only
  rw [updateLinkProperties_no_links s now model 0 st false "update"
        ⟨fun _ => s.updateSimpleProps model e st, 1, []⟩ hl]
  dsimp only
  rw [if_neg (by simp : ¬ (false = true))]
  rw [getPatches_trivial]
  rfl

/-- **C8 (amended).**  `update` *is* idempotent on every model whose
template declares no link properties: with the schema's template keys
duplicate-free, running the same `update` twice in succession (same state,
same clock) leaves the store — all instances of all models, snapshots,
aliases, timestamps — exactly as after running it once.  (On models *with*
link properties idempotence fails; see the counterexample.) -/
theorem c8_amended_update_idempotent_without_links
    (s : MemoryDatastore) (now : Int) (model : String) (st : UState)
    (hl : templateNoLinksB (s.getModelTemplate model) = true)
    (hnd : nodupKeysB (s.getModelTemplate model) = true) :
    ((s.update now model (some st)).1.update now model (some st)).1
      = (s.update now model (some st)).1 := by
  by_cases hm : s.hasModel model = true
  · by_cases hid : jsTruthyId st.id = true
    · cases hget : s.getData now model st.id with
      | none =>
        have h0 : s.update now model (some st)
            = (s, .reject (ERROR_CANNOT_UPDATE_MISSING_RECORD model "update")) := by
          unfold MemoryDatastore.update
          rw [if_neg (fun h => h hm)]
          dsimp only
          rw [if_neg (fun h => h hid), hget]
        rw [h0]
        show (s.update now model (some st)).1 = s
        rw [h0]
      | some e =>
        have h0 := update_no_links_eq s now model st hl hm hid hget
        rw [h0]
        show ((s.setData model (s.updateSimpleProps model e st)).update now model
            (some st)).1 = s.setData model (s.updateSimpleProps model e st)
        obtain ⟨e2, hget2, he2⟩ :=
          getData_after_setData s now model st.id (s.updateSimpleProps model e st) hget
        have ht : (s.setData model (s.updateSimpleProps model e st)).getModelTemplate model
            = s.getModelTemplate model := setData_getModelTemplate s model _ model
        have hu2 : (s.setData model (s.updateSimpleProps model e st)).updateSimpleProps
            model e2 st = s.updateSimpleProps model e st := by
          rcases he2 with h | h
          · rw [h]
            unfold MemoryDatastore.updateSimpleProps
            rw [setData_getModelTemplate]
            exact foldSimple_idem st _ hnd e
          · rw [h]
            unfold MemoryDatastore.updateSimpleProps
            rw [setData_getModelTemplate]
        have h1 := update_no_links_eq (s.setData model (s.updateSimpleProps model e st))
            now model st (by rw [ht]; exact hl) (by rw [setData_hasModel]; exact hm)
            hid hget2
        rw [h1]
        show (s.setData model (s.updateSimpleProps model e st)).setData model
            ((s.setData model (s.updateSimpleProps model e st)).updateSimpleProps model e2 st)
          = s.setData model (s.updateSimpleProps model e st)
        rw [hu2]
        exact setData_idem s model _
    · have h0 : s.update now model (some st) = (s, .reject ERROR_CANNOT_UPDATE_WITHOUT_ID) := by
        unfold MemoryDatastore.update
        rw [if_neg (fun h => h hm)]
        dsimp only
        rw [if_pos hid]
      rw [h0]
      show (s.update now model (some st)).1 = s
      rw [h0]
  · have h0 : s.update now model (some st)
        = (s, .thrown (ERROR_UNKNOWN_MODEL model "update")) := by
      unfold MemoryDatastore.update
      rw [if_pos hm]
    rw [h0]
    show (s.update now model (some st)).1 = s
    rw [h0]

/-- Witness for the amended C8 theorem: updating a link-free `cat` twice
with the same state is a no-op the second time. -/
theorem c8_amended_witness :
    templateNoLinksB ((MemoryDatastore.init catModels none false).getModelTemplate "cat")
        = true ∧
    nodupKeysB ((MemoryDatastore.init catModels none false).getModelTemplate "cat") = true ∧
    (((MemoryDatastore.init catModels none false).update 5 "cat"
        (some (ustateId "k1" [("color", some (.str "black"))]))).1.update 5 "cat"
        (some (ustateId "k1" [("color", some (.str "black"))]))).1
      = ((MemoryDatastore.init catModels none false).update 5 "cat"
        (some (ustateId "k1" [("color", some (.str "black"))]))).1 :=
  ⟨by decide, by decide,
   c8_amended_update_idempotent_without_links (MemoryDatastore.init catModels none false)
     5 "cat" (ustateId "k1" [("color", some (.str "black"))]) (by decide) (by decide)⟩

/-! ## Session evolution lemmas -/

theorem Sess.next_setF (s : Sess) (i : Nat) (f : String) (v : Option FVal) :
    (s.setF i f v).next = s.next := rfl

theorem Sess.next_watch (s : Sess) (o : Option Nat) (m : String) :
    (s.watchModel o m).next = s.next := by
  cases o <;> rfl

theorem Sess.next_alloc (s : Sess) (x : Inst) : (s.alloc x).2.next = s.next + 1 := rfl

theorem Sess.read_setF_ne {s : Sess} {i j : Nat} (f : String) (v : Option FVal)
    (h : j ≠ i) : (s.setF i f v).read j = s.read j := by
  show (if j = i then (s.heap i).setF f v else s.heap j) = s.heap j
  rw [if_neg h]

theorem Sess.read_setF_eq (s : Sess) (i : Nat) (f : String) (v : Option FVal) :
    (s.setF i f v).read i = (s.read i).setF f v := by
  show (if i = i then (s.heap i).setF f v else s.heap i) = (s.heap i).setF f v
  rw [if_pos rfl]

theorem Sess.read_watch (s : Sess) (o : Option Nat) (m : String) (j : Nat) :
    (s.watchModel o m).read j = s.read j := by
  cases o <;> rfl

theorem Sess.read_alloc_old {s : Sess} (x : Inst) {j : Nat} (h : j ≠ s.next) :
    (s.alloc x).2.read j = s.read j := by
  show (if j = s.next then x else s.heap j) = s.heap j
  rw [if_neg h]

theorem Sess.read_alloc_new (s : Sess) (x : Inst) : (s.alloc x).2.read s.next = x := by
  show (if s.next = s.next then x else s.heap s.next) = x
  rw [if_pos rfl]

theorem getDataS_some {s : MemoryDatastore} {now : Int} {m : String} {k : Option String}
    {ei : Inst} (sess : Sess) (h : s.getData now m k = some ei) :
    getDataS s now m k sess = (some sess.next, (sess.alloc ei).2) := by
  unfold getDataS
  rw [h]
  rfl

theorem getDataS_none {s : MemoryDatastore} {now : Int} {m : String} {k : Option String}
    (sess : Sess) (h : s.getData now m k = none) :
    getDataS s now m k sess = (none, sess) := by
  unfold getDataS
  rw [h]

/-! ## Frame lemmas: the base session operations -/

theorem sessFrame_refl (P : Nat → String → Prop) (s : Sess) : SessFrameOn P s s :=
  ⟨le_refl _, fun _ _ => ⟨rfl, fun _ _ => rfl⟩⟩

theorem sessFrame_mono {P Q : Nat → String → Prop} {s1 s2 : Sess}
    (h : SessFrameOn P s1 s2) (hpq : ∀ j f, P j f → Q j f) : SessFrameOn Q s1 s2 :=
  ⟨h.1, fun j hj => ⟨(h.2 j hj).1, fun f hf => (h.2 j hj).2 f (fun hp => hf (hpq j f hp))⟩⟩

theorem sessFrame_trans {P Q R : Nat → String → Prop} {s1 s2 s3 : Sess}
    (h1 : SessFrameOn P s1 s2) (h2 : SessFrameOn Q s2 s3)
    (hR : ∀ j f, P j f ∨ Q j f → R j f) : SessFrameOn R s1 s3 := by
  refine ⟨le_trans h1.1 h2.1, fun j hj => ?_⟩
  have hj2 : j < s2.next := lt_of_lt_of_le hj h1.1
  refine ⟨((h2.2 j hj2).1).trans (h1.2 j hj).1, fun f hf => ?_⟩
  have hq : ¬ Q j f := fun hq => hf (hR j f (Or.inr hq))
  have hp : ¬ P j f := fun hp => hf (hR j f (Or.inl hp))
  exact ((h2.2 j hj2).2 f hq).trans ((h1.2 j hj).2 f hp)

theorem sessFrame_setF (s : Sess) (i : Nat) (f : String) (v : Option FVal) :
    SessFrameOn (fun j g => j = i ∧ g = f) s (s.setF i f v) := by
  refine ⟨le_refl _, fun j _ => ?_⟩
  constructor
  · show (if j = i then (s.heap i).setF f v else s.heap j).id = _
    by_cases hji : j = i
    · rw [if_pos hji, hji]
      rfl
    · rw [if_neg hji]
  · intro g hg
    show (if j = i then (s.heap i).setF f v else s.heap j).fields g = _
    by_cases hji : j = i
    · rw [if_pos hji, setF_fields]
      have hgf : g ≠ f := fun h => hg ⟨hji, h⟩
      rw [if_neg hgf, hji]
    · rw [if_neg hji]

theorem sessFrame_writeFOpt {s : Sess} {obj : Option Nat} {f : String} {v : Option FVal}
    {s2 : Sess} (h : writeFOpt s obj f v = .ok s2) :
    SessFrameOn (fun j g => obj = some j ∧ g = f) s s2 := by
  cases obj with
  | none => exact absurd h (by simp [writeFOpt])
  | some i =>
    simp only [writeFOpt, Except.ok.injEq] at h
    subst h
    refine sessFrame_mono (sessFrame_setF s i f v) ?_
    intro j g hj
    exact ⟨by rw [hj.1], hj.2⟩

theorem sessFrame_watch (s : Sess) (o : Option Nat) (m : String) :
    SessFrameOn (fun _ _ => False) s (s.watchModel o m) := by
  cases o with
  | none => exact sessFrame_refl _ _
  | some i => exact ⟨le_refl _, fun _ _ => ⟨rfl, fun _ _ => rfl⟩⟩

theorem sessFrame_alloc (s : Sess) (x : Inst) :
    SessFrameOn (fun _ _ => False) s (s.alloc x).2 := by
  refine ⟨Nat.le_succ _, fun j hj => ?_⟩
  have hne : j ≠ s.next := Nat.ne_of_lt hj
  constructor
  · show (if j = s.next then x else s.heap j).id = _
    rw [if_neg hne]
  · intro f _
    show (if j = s.next then x else s.heap j).fields f = _
    rw [if_neg hne]

theorem sessFrame_getDataS (sd : MemoryDatastore) (now : Int) (m : String)
    (key : Option String) (s : Sess) :
    SessFrameOn (fun _ _ => False) s (getDataS sd now m key s).2 := by
  unfold getDataS
  cases sd.getData now m key with
  | none => exact sessFrame_refl _ _
  | some inst => exact sessFrame_alloc s inst

theorem getDataS_fst (sd : MemoryDatastore) (now : Int) (m : String)
    (key : Option String) (s : Sess) :
    (getDataS sd now m key s).1 = none ∨ (getDataS sd now m key s).1 = some s.next := by
  unfold getDataS
  cases sd.getData now m key with
  | none => exact Or.inl rfl
  | some inst => exact Or.inr rfl

theorem sessFrame_widen (Q : Nat → String → Prop) {P : Nat → String → Prop} {s1 s2 : Sess}
    (h : SessFrameOn P s1 s2) (hpq : ∀ j f, P j f → Q j f) : SessFrameOn Q s1 s2 :=
  sessFrame_mono h hpq

theorem sessFrame_comp0 {s1 s2 s3 : Sess} {Q : Nat → String → Prop}
    (h1 : SessFrameOn (fun _ _ => False) s1 s2) (h2 : SessFrameOn Q s2 s3) :
    SessFrameOn Q s1 s3 :=
  sessFrame_trans h1 h2 (fun _ _ h => h.elim False.elim id)

theorem sessFrame_comp0r {s1 s2 s3 : Sess} {Q : Nat → String → Prop}
    (h1 : SessFrameOn Q s1 s2) (h2 : SessFrameOn (fun _ _ => False) s2 s3) :
    SessFrameOn Q s1 s3 :=
  sessFrame_trans h1 h2 (fun _ _ h => h.elim id False.elim)

/-! ## Frame lemmas: the link-rewiring helpers -/

theorem removeSingleLeaf_frame {rootProp : String} {ri : Option Nat} {lp : Option String}
    {li : Option Nat} {s s2 : Sess}
    (h : removeSingleLeaf rootProp ri lp li s = .ok s2) :
    SessFrameOn (fun j g => (ri = some j ∧ g = rootProp) ∨ (li = some j ∧ lp = some g)) s s2 := by
  unfold removeSingleLeaf at h
  cases lp with
  | none =>
    refine sessFrame_mono (sessFrame_writeFOpt h) ?_
    intro j g hj
    exact Or.inl hj
  | some lp0 =>
    dsimp only at h
    cases hw : writeFOpt s li lp0 none with
    | error e =>
      rw [hw] at h
      exact absurd h (by simp)
    | ok s1 =>
      rw [hw] at h
      dsimp only at h
      refine sessFrame_trans (sessFrame_writeFOpt hw) (sessFrame_writeFOpt h) ?_
      intro j g hj
      rcases hj with hj | hj
      · exact Or.inr ⟨hj.1, by rw [hj.2]⟩
      · exact Or.inl hj

theorem removeSingleRoot_frame {rootProp : String} {ri : Option Nat} {lp : String}
    {li : Option Nat} {s s2 : Sess}
    (h : removeSingleRoot rootProp ri lp li s = .ok s2) :
    SessFrameOn (fun j g => (ri = some j ∧ g = rootProp) ∨ (li = some j ∧ g = lp)) s s2 := by
  unfold removeSingleRoot at h
  cases hw : writeFOpt s ri rootProp none with
  | error e =>
    rw [hw] at h
    exact absurd h (by simp)
  | ok s1 =>
    rw [hw] at h
    dsimp only at h
    refine sessFrame_trans (sessFrame_writeFOpt hw) (sessFrame_writeFOpt h) ?_
    intro j g hj
    rcases hj with hj | hj
    · exact Or.inl hj
    · exact Or.inr hj

theorem removeMultiLeaf_frame {rootProp : String} {ri : Option Nat} {lp : Option String}
    {li0 : Option Nat} {s s2 : Sess}
    (h : removeMultiLeaf rootProp ri lp li0 s = .ok s2) :
    SessFrameOn (fun j g => (ri = some j ∧ g = rootProp) ∨ (li0 = some j ∧ lp = some g)) s s2 := by
  unfold removeMultiLeaf at h
  cases ri with
  | none =>
    simp only [Except.ok.injEq] at h
    subst h
    exact sessFrame_refl _ _
  | some ri1 =>
    dsimp only at h
    cases hf : (s.read ri1).fields rootProp with
    | none =>
      rw [hf] at h
      exact absurd h (by simp)
    | some fv =>
      cases fv with
      | str z =>
        rw [hf] at h
        exact absurd h (by simp)
      | arr l =>
        rw [hf] at h
        dsimp only at h
        cases li0 with
        | none => exact absurd h (by simp)
        | some li =>
          dsimp only at h
          have FA : SessFrameOn (fun j g => j = ri1 ∧ g = rootProp) s
              (if l.contains (s.read li).id then
                s.setF ri1 rootProp (some (.arr (l.filter (fun e => e ≠ (s.read li).id))))
              else s) := by
            split
            · exact sessFrame_setF s ri1 rootProp _
            · exact sessFrame_refl _ _
          cases lp with
          | none =>
            simp only [Except.ok.injEq] at h
            subst h
            exact sessFrame_mono FA (fun j g hj => Or.inl ⟨by rw [hj.1], hj.2⟩)
          | some lp0 =>
            simp only [Except.ok.injEq] at h
            subst h
            refine sessFrame_trans FA (sessFrame_setF _ li lp0 none) ?_
            intro j g hj
            rcases hj with hj | hj
            · exact Or.inl ⟨by rw [hj.1], hj.2⟩
            · exact Or.inr ⟨by rw [hj.1], by rw [hj.2]⟩

theorem removeMultiRoot_frame {rootProp : String} {ri : Option Nat} {lp : Option String}
    {li0 : Option Nat} {s s2 : Sess}
    (h : removeMultiRoot rootProp ri lp li0 s = .ok s2) :
    SessFrameOn (fun j g => (ri = some j ∧ g = rootProp) ∨ (li0 = some j ∧ lp = some g)) s s2 := by
  unfold removeMultiRoot at h
  cases ri with
  | none =>
    dsimp only at h
    cases lp with
    | none =>
      simp only [Except.ok.injEq] at h
      subst h
      exact sessFrame_refl _ _
    | some lp0 =>
      dsimp only at h
      cases li0 with
      | none => exact absurd h (by simp)
      | some li =>
        simp only [Except.ok.injEq] at h
        subst h
        exact sessFrame_mono (sessFrame_setF s li lp0 none)
          (fun j g hj => Or.inr ⟨by rw [hj.1], by rw [hj.2]⟩)
  | some ri1 =>
    dsimp only at h
    cases hf : (s.read ri1).fields rootProp with
    | none =>
      rw [hf] at h
      exact absurd h (by simp)
    | some fv =>
      cases fv with
      | str z =>
        rw [hf] at h
        exact absurd h (by simp)
      | arr l =>
        rw [hf] at h
        dsimp only at h
        cases li0 with
        | none => exact absurd h (by simp)
        | some li =>
          dsimp only at h
          cases lp with
          | none =>
            simp only [Except.ok.injEq] at h
            subst h
            exact sessFrame_mono (sessFrame_setF s ri1 rootProp _)
              (fun j g hj => Or.inl ⟨by rw [hj.1], hj.2⟩)
          | some lp0 =>
            simp only [Except.ok.injEq] at h
            subst h
            refine sessFrame_trans (sessFrame_setF s ri1 rootProp _)
              (sessFrame_setF _ li lp0 none) ?_
            intro j g hj
            rcases hj with hj | hj
            · exact Or.inl ⟨by rw [hj.1], hj.2⟩
            · exact Or.inr ⟨by rw [hj.1], by rw [hj.2]⟩

theorem addSingleLeaf_frame {s : MemoryDatastore} {now : Int}
    {rootModel rootProp : String} {ri0 : Option Nat} {leafModel : String}
    {lp : Option String} {li0 : Option Nat} {sess s2 : Sess}
    (h : addSingleLeaf s now rootModel rootProp ri0 leafModel lp li0 sess = .ok s2) :
    SessFrameOn (fun j g => (ri0 = some j ∧ g = rootProp) ∨ (li0 = some j ∧ lp = some g)
      ∨ sess.next ≤ j) sess s2 := by
  unfold addSingleLeaf at h
  cases ri0 with
  | none => exact absurd h (by simp)
  | some ri =>
    dsimp only at h
    cases hstep : (if (sess.read ri).fields rootProp ≠ none then
        removeSingleLeaf rootProp (some ri) lp
          (getDataS s now leafModel (asKey ((sess.read ri).fields rootProp)) sess).1
          ((getDataS s now leafModel (asKey ((sess.read ri).fields rootProp)) sess).2.watchModel
            (getDataS s now leafModel (asKey ((sess.read ri).fields rootProp)) sess).1 leafModel)
      else .ok sess) with
    | error e =>
      rw [hstep] at h
      exact absurd h (by simp)
    | ok sessA =>
      rw [hstep] at h
      dsimp only at h
      have FA : SessFrameOn (fun j g => (j = ri ∧ g = rootProp) ∨ sess.next ≤ j) sess sessA := by
        split at hstep
        · have F0 : SessFrameOn (fun _ _ => False) sess
              ((getDataS s now leafModel (asKey ((sess.read ri).fields rootProp)) sess).2.watchModel
                (getDataS s now leafModel (asKey ((sess.read ri).fields rootProp)) sess).1
                leafModel) :=
            sessFrame_comp0
              (sessFrame_getDataS s now leafModel (asKey ((sess.read ri).fields rootProp)) sess)
              (sessFrame_watch _ _ _)
          refine sessFrame_comp0 F0 (sessFrame_mono (removeSingleLeaf_frame hstep) ?_)
          intro j g hj
          rcases hj with ⟨hs, hg⟩ | ⟨hs, hg⟩
          · injection hs with hs2
            exact Or.inl ⟨hs2.symm, hg⟩
          · rcases getDataS_fst s now leafModel (asKey ((sess.read ri).fields rootProp)) sess
              with hq1 | hq1
            · rw [hq1] at hs
              exact absurd hs (by simp)
            · rw [hq1] at hs
              injection hs with hs2
              exact Or.inr (hs2 ▸ le_refl _)
        · injection hstep with h2
          subst h2
          exact sessFrame_refl _ _
      have hnA : sess.next ≤ sessA.next := FA.1
      cases li0 with
      | none =>
        simp only [Except.ok.injEq] at h
        subst h
        refine sessFrame_trans FA (sessFrame_setF sessA ri rootProp none) ?_
        intro j g hj
        rcases hj with hj | hj
        · rcases hj with ⟨hs, hg⟩ | hs
          · exact Or.inl ⟨by rw [hs], hg⟩
          · exact Or.inr (Or.inr hs)
        · exact Or.inl ⟨by rw [hj.1], hj.2⟩
      | some li =>
        dsimp only at h
        cases lp with
        | none =>
          simp only [Except.ok.injEq] at h
          subst h
          refine sessFrame_trans FA (sessFrame_setF sessA ri rootProp _) ?_
          intro j g hj
          rcases hj with hj | hj
          · rcases hj with ⟨hs, hg⟩ | hs
            · exact Or.inl ⟨by rw [hs], hg⟩
            · exact Or.inr (Or.inr hs)
          · exact Or.inl ⟨by rw [hj.1], hj.2⟩
        | some lp0 =>
          dsimp only at h
          cases hstep2 : (if ¬ jsFalsy (((sessA.setF ri rootProp
                (some (.str (sessA.read li).id))).read li).fields lp0) then
              removeSingleRoot rootProp
                (getDataS s now rootModel
                  (asKey (((sessA.setF ri rootProp
                    (some (.str (sessA.read li).id))).read li).fields lp0))
                  (sessA.setF ri rootProp (some (.str (sessA.read li).id)))).1
                lp0 (some li)
                ((getDataS s now rootModel
                  (asKey (((sessA.setF ri rootProp
                    (some (.str (sessA.read li).id))).read li).fields lp0))
                  (sessA.setF ri rootProp (some (.str (sessA.read li).id)))).2.watchModel
                  (getDataS s now rootModel
                    (asKey (((sessA.setF ri rootProp
                      (some (.str (sessA.read li).id))).read li).fields lp0))
                    (sessA.setF ri rootProp (some (.str (sessA.read li).id)))).1 rootModel)
            else .ok (sessA.setF ri rootProp (some (.str (sessA.read li).id)))) with
          | error e =>
            rw [hstep2] at h
            exact absurd h (by simp)
          | ok sessC =>
            rw [hstep2] at h
            dsimp only at h
            have FB : SessFrameOn
                (fun j g => (j = ri ∧ g = rootProp) ∨ (j = li ∧ g = lp0) ∨ sess.next ≤ j)
                sessA sessC := by
              split at hstep2
              · have F0 : SessFrameOn (fun j g => j = ri ∧ g = rootProp) sessA
                    ((getDataS s now rootModel
                      (asKey (((sessA.setF ri rootProp
                        (some (.str (sessA.read li).id))).read li).fields lp0))
                      (sessA.setF ri rootProp (some (.str (sessA.read li).id)))).2.watchModel
                      (getDataS s now rootModel
                        (asKey (((sessA.setF ri rootProp
                          (some (.str (sessA.read li).id))).read li).fields lp0))
                        (sessA.setF ri rootProp (some (.str (sessA.read li).id)))).1
                      rootModel) :=
                  sessFrame_comp0r (sessFrame_setF sessA ri rootProp _)
                    (sessFrame_comp0 (sessFrame_getDataS _ _ _ _ _) (sessFrame_watch _ _ _))
                refine sessFrame_trans F0 (sessFrame_widen
                  (fun j g => (j = ri ∧ g = rootProp) ∨ (j = li ∧ g = lp0) ∨ sess.next ≤ j)
                  (removeSingleRoot_frame hstep2) ?_) ?_
                · intro j g hj
                  rcases hj with ⟨hs, hg⟩ | ⟨hs, hg⟩
                  · rcases getDataS_fst s now rootModel
                        (asKey (((sessA.setF ri rootProp
                          (some (.str (sessA.read li).id))).read li).fields lp0))
                        (sessA.setF ri rootProp (some (.str (sessA.read li).id)))
                      with hq1 | hq1
                    · rw [hq1] at hs
                      exact absurd hs (by simp)
                    · rw [hq1] at hs
                      injection hs with hs2
                      exact Or.inr (Or.inr (le_trans hnA (hs2 ▸ le_refl _)))
                  · injection hs with hs2
                    exact Or.inr (Or.inl ⟨hs2.symm, hg⟩)
                · intro j g hj
                  rcases hj with hj | hj
                  · exact Or.inl hj
                  · exact hj
              · injection hstep2 with h2
                subst h2
                exact sessFrame_mono (sessFrame_setF sessA ri rootProp _)
                  (fun j g hj => Or.inl hj)
            simp only [Except.ok.injEq] at h
            subst h
            refine sessFrame_trans FA (sessFrame_trans FB (sessFrame_setF sessC li lp0 _)
              (fun j g hj => hj)) ?_
            intro j g hj
            rcases hj with hj | hj
            · rcases hj with ⟨hs, hg⟩ | hs
              · exact Or.inl ⟨by rw [hs], hg⟩
              · exact Or.inr (Or.inr hs)
            · rcases hj with hj | hj
              · rcases hj with ⟨hs, hg⟩ | hj
                · exact Or.inl ⟨by rw [hs], hg⟩
                · rcases hj with ⟨hs, hg⟩ | hs
                  · exact Or.inr (Or.inl ⟨by rw [hs], by rw [hg]⟩)
                  · exact Or.inr (Or.inr hs)
              · exact Or.inr (Or.inl ⟨by rw [hj.1], by rw [hj.2]⟩)

theorem addSingleRoot_frame {s : MemoryDatastore} {now : Int}
    {rootModel rootProp : String} {ri0 : Option Nat} {leafModel : String}
    {lp : String} {li : Nat} {sess s2 : Sess}
    (h : addSingleRoot s now rootModel rootProp ri0 leafModel lp li sess = .ok s2) :
    SessFrameOn (fun j g => (ri0 = some j ∧ g = rootProp) ∨ (j = li ∧ g = lp)
      ∨ sess.next ≤ j) sess s2 := by
  unfold addSingleRoot at h
  dsimp only at h
  cases hstep : (if (sess.read li).fields lp ≠ none then
      removeSingleRoot rootProp
        (getDataS s now rootModel (asKey ((sess.read li).fields lp)) sess).1
        lp (some li)
        ((getDataS s now rootModel (asKey ((sess.read li).fields lp)) sess).2.watchModel
          (getDataS s now rootModel (asKey ((sess.read li).fields lp)) sess).1 rootModel)
    else .ok sess) with
  | error e =>
    rw [hstep] at h
    exact absurd h (by simp)
  | ok sessA =>
    rw [hstep] at h
    dsimp only at h
    have FA : SessFrameOn (fun j g => (j = li ∧ g = lp) ∨ sess.next ≤ j) sess sessA := by
      split at hstep
      · have F0 : SessFrameOn (fun _ _ => False) sess
            ((getDataS s now rootModel (asKey ((sess.read li).fields lp)) sess).2.watchModel
              (getDataS s now rootModel (asKey ((sess.read li).fields lp)) sess).1 rootModel) :=
          sessFrame_comp0
            (sessFrame_getDataS s now rootModel (asKey ((sess.read li).fields lp)) sess)
            (sessFrame_watch _ _ _)
        refine sessFrame_comp0 F0 (sessFrame_mono (removeSingleRoot_frame hstep) ?_)
        intro j g hj
        rcases hj with ⟨hs, hg⟩ | ⟨hs, hg⟩
        · rcases getDataS_fst s now rootModel (asKey ((sess.read li).fields lp)) sess
            with hq1 | hq1
          · rw [hq1] at hs
            exact absurd hs (by simp)
          · rw [hq1] at hs
            injection hs with hs2
            exact Or.inr (hs2 ▸ le_refl _)
        · injection hs with hs2
          exact Or.inl ⟨hs2.symm, hg⟩
      · injection hstep with h2
        subst h2
        exact sessFrame_refl _ _
    have hnA : sess.next ≤ sessA.next := FA.1
    cases ri0 with
    | none =>
      simp only [Except.ok.injEq] at h
      subst h
      refine sessFrame_trans FA (sessFrame_setF sessA li lp none) ?_
      intro j g hj
      rcases hj with hj | hj
      · rcases hj with ⟨hs, hg⟩ | hs
        · exact Or.inr (Or.inl ⟨hs, hg⟩)
        · exact Or.inr (Or.inr hs)
      · exact Or.inr (Or.inl hj)
    | some ri =>
      dsimp only at h
      cases hstep2 : (if ((sessA.setF li lp
            (some (.str (sessA.read ri).id))).read ri).fields rootProp ≠ none then
          removeSingleLeaf rootProp (some ri) (some lp)
            (getDataS s now leafModel
              (asKey (((sessA.setF li lp
                (some (.str (sessA.read ri).id))).read ri).fields rootProp))
              (sessA.setF li lp (some (.str (sessA.read ri).id)))).1
            ((getDataS s now leafModel
              (asKey (((sessA.setF li lp
                (some (.str (sessA.read ri).id))).read ri).fields rootProp))
              (sessA.setF li lp (some (.str (sessA.read ri).id)))).2.watchModel
              (getDataS s now leafModel
                (asKey (((sessA.setF li lp
                  (some (.str (sessA.read ri).id))).read ri).fields rootProp))
                (sessA.setF li lp (some (.str (sessA.read ri).id)))).1 leafModel)
        else .ok (sessA.setF li lp (some (.str (sessA.read ri).id)))) with
      | error e =>
        rw [hstep2] at h
        exact absurd h (by simp)
      | ok sessC =>
        rw [hstep2] at h
        dsimp only at h
        have FB : SessFrameOn
            (fun j g => (j = ri ∧ g = rootProp) ∨ (j = li ∧ g = lp) ∨ sess.next ≤ j)
            sessA sessC := by
          split at hstep2
          · have F0 : SessFrameOn (fun j g => j = li ∧ g = lp) sessA
                ((getDataS s now leafModel
                  (asKey (((sessA.setF li lp
                    (some (.str (sessA.read ri).id))).read ri).fields rootProp))
                  (sessA.setF li lp (some (.str (sessA.read ri).id)))).2.watchModel
                  (getDataS s now leafModel
                    (asKey (((sessA.setF li lp
                      (some (.str (sessA.read ri).id))).read ri).fields rootProp))
                    (sessA.setF li lp (some (.str (sessA.read ri).id)))).1 leafModel) :=
              sessFrame_comp0r (sessFrame_setF sessA li lp _)
                (sessFrame_comp0 (sessFrame_getDataS _ _ _ _ _) (sessFrame_watch _ _ _))
            refine sessFrame_trans F0 (sessFrame_widen
              (fun j g => (j = ri ∧ g = rootProp) ∨ (j = li ∧ g = lp) ∨ sess.next ≤ j)
              (removeSingleLeaf_frame hstep2) ?_) ?_
            · intro j g hj
              rcases hj with ⟨hs, hg⟩ | ⟨hs, hg⟩
              · injection hs with hs2
                exact Or.inl ⟨hs2.symm, hg⟩
              · rcases getDataS_fst s now leafModel
                    (asKey (((sessA.setF li lp
                      (some (.str (sessA.read ri).id))).read ri).fields rootProp))
                    (sessA.setF li lp (some (.str (sessA.read ri).id)))
                  with hq1 | hq1
                · rw [hq1] at hs
                  exact absurd hs (by simp)
                · rw [hq1] at hs
                  injection hs with hs2
                  injection hg with hg2
                  exact Or.inr (Or.inr (le_trans hnA (hs2 ▸ le_refl _)))
            · intro j g hj
              rcases hj with hj | hj
              · exact Or.inr (Or.inl hj)
              · exact hj
          · injection hstep2 with h2
            subst h2
            exact sessFrame_mono (sessFrame_setF sessA li lp _)
              (fun j g hj => Or.inr (Or.inl hj))
        simp only [Except.ok.injEq] at h
        subst h
        refine sessFrame_trans FA (sessFrame_trans FB (sessFrame_setF sessC ri rootProp _)
          (fun j g hj => hj)) ?_
        intro j g hj
        rcases hj with hj | hj
        · rcases hj with ⟨hs, hg⟩ | hs
          · exact Or.inr (Or.inl ⟨hs, hg⟩)
          · exact Or.inr (Or.inr hs)
        · rcases hj with hj | hj
          · rcases hj with ⟨hs, hg⟩ | hj
            · exact Or.inl ⟨by rw [hs], hg⟩
            · rcases hj with ⟨hs, hg⟩ | hs
              · exact Or.inr (Or.inl ⟨hs, hg⟩)
              · exact Or.inr (Or.inr hs)
          · exact Or.inl ⟨by rw [hj.1], hj.2⟩

theorem multiLeafTail_frame {s : MemoryDatastore} {now : Int}
    {rootModel rootProp lp0 : String} {ri li : Nat} {sessB s2 : Sess}
    (h : (match (if (sessB.read li).fields lp0 ≠ some (.str (sessB.read ri).id) then
            removeMultiRoot rootProp
              (getDataS s now rootModel (asKey ((sessB.read li).fields lp0)) sessB).1
              (some lp0) (some li)
              ((getDataS s now rootModel (asKey ((sessB.read li).fields lp0)) sessB).2.watchModel
                (getDataS s now rootModel (asKey ((sessB.read li).fields lp0)) sessB).1 rootModel)
          else Except.ok sessB : Except String Sess) with
        | Except.error e => Except.error e
        | Except.ok sess => Except.ok (sess.setF li lp0 (some (.str (sess.read ri).id))))
        = Except.ok s2) :
    SessFrameOn (fun j g => (j = ri ∧ g = rootProp) ∨ (j = li ∧ g = lp0) ∨ sessB.next ≤ j)
      sessB s2 := by
  cases hstep : (if (sessB.read li).fields lp0 ≠ some (.str (sessB.read ri).id) then
      removeMultiRoot rootProp
        (getDataS s now rootModel (asKey ((sessB.read li).fields lp0)) sessB).1
        (some lp0) (some li)
        ((getDataS s now rootModel (asKey ((sessB.read li).fields lp0)) sessB).2.watchModel
          (getDataS s now rootModel (asKey ((sessB.read li).fields lp0)) sessB).1 rootModel)
    else .ok sessB) with
  | error e =>
    rw [hstep] at h
    exact absurd h (by simp)
  | ok sessC =>
    rw [hstep] at h
    dsimp only at h
    have FC : SessFrameOn
        (fun j g => (j = ri ∧ g = rootProp) ∨ (j = li ∧ g = lp0) ∨ sessB.next ≤ j)
        sessB sessC := by
      split at hstep
      · have F0 : SessFrameOn (fun _ _ => False) sessB
            ((getDataS s now rootModel (asKey ((sessB.read li).fields lp0)) sessB).2.watchModel
              (getDataS s now rootModel (asKey ((sessB.read li).fields lp0)) sessB).1
              rootModel) :=
          sessFrame_comp0 (sessFrame_getDataS _ _ _ _ _) (sessFrame_watch _ _ _)
        refine sessFrame_comp0 F0 (sessFrame_mono (removeMultiRoot_frame hstep) ?_)
        intro j g hj
        rcases hj with ⟨hs, hg⟩ | ⟨hs, hg⟩
        · rcases getDataS_fst s now rootModel (asKey ((sessB.read li).fields lp0)) sessB
            with hq1 | hq1
          · rw [hq1] at hs
            exact absurd hs (by simp)
          · rw [hq1] at hs
            injection hs with hs2
            exact Or.inr (Or.inr (hs2 ▸ le_refl _))
        · injection hs with hs2
          injection hg with hg2
          exact Or.inr (Or.inl ⟨hs2.symm, hg2.symm⟩)
      · injection hstep with h2
        subst h2
        exact sessFrame_refl _ _
    simp only [Except.ok.injEq] at h
    subst h
    refine sessFrame_trans FC (sessFrame_setF sessC li lp0 _) ?_
    intro j g hj
    rcases hj with hj | hj
    · exact hj
    · exact Or.inr (Or.inl ⟨by rw [hj.1], hj.2⟩)

theorem multiRootTail_frame {s : MemoryDatastore} {now : Int}
    {rootModel rootProp lp : String} {ri li : Nat} {sessB s2 : Sess}
    (h : (match (if (sessB.read li).fields lp ≠ some (.str (sessB.read ri).id) then
            removeMultiLeaf rootProp
              (getDataS s now rootModel (asKey ((sessB.read li).fields lp)) sessB).1
              (some lp) (some li)
              ((getDataS s now rootModel (asKey ((sessB.read li).fields lp)) sessB).2.watchModel
                (getDataS s now rootModel (asKey ((sessB.read li).fields lp)) sessB).1 rootModel)
          else Except.ok sessB : Except String Sess) with
        | Except.error e => Except.error e
        | Except.ok sess => Except.ok (sess.setF li lp (some (.str (sess.read ri).id))))
        = Except.ok s2) :
    SessFrameOn (fun j g => (j = ri ∧ g = rootProp) ∨ (j = li ∧ g = lp) ∨ sessB.next ≤ j)
      sessB s2 := by
  cases hstep : (if (sessB.read li).fields lp ≠ some (.str (sessB.read ri).id) then
      removeMultiLeaf rootProp
        (getDataS s now rootModel (asKey ((sessB.read li).fields lp)) sessB).1
        (some lp) (some li)
        ((getDataS s now rootModel (asKey ((sessB.read li).fields lp)) sessB).2.watchModel
          (getDataS s now rootModel (asKey ((sessB.read li).fields lp)) sessB).1 rootModel)
    else .ok sessB) with
  | error e =>
    rw [hstep] at h
    exact absurd h (by simp)
  | ok sessC =>
    rw [hstep] at h
    dsimp only at h
    have FC : SessFrameOn
        (fun j g => (j = ri ∧ g = rootProp) ∨ (j = li ∧ g = lp) ∨ sessB.next ≤ j)
        sessB sessC := by
      split at hstep
      · have F0 : SessFrameOn (fun _ _ => False) sessB
            ((getDataS s now rootModel (asKey ((sessB.read li).fields lp)) sessB).2.watchModel
              (getDataS s now rootModel (asKey ((sessB.read li).fields lp)) sessB).1
              rootModel) :=
          sessFrame_comp0 (sessFrame_getDataS _ _ _ _ _) (sessFrame_watch _ _ _)
        refine sessFrame_comp0 F0 (sessFrame_mono (removeMultiLeaf_frame hstep) ?_)
        intro j g hj
        rcases hj with ⟨hs, hg⟩ | ⟨hs, hg⟩
        · rcases getDataS_fst s now rootModel (asKey ((sessB.read li).fields lp)) sessB
            with hq1 | hq1
          · rw [hq1] at hs
            exact absurd hs (by simp)
          · rw [hq1] at hs
            injection hs with hs2
            exact Or.inr (Or.inr (hs2 ▸ le_refl _))
        · injection hs with hs2
          injection hg with hg2
          exact Or.inr (Or.inl ⟨hs2.symm, hg2.symm⟩)
      · injection hstep with h2
        subst h2
        exact sessFrame_refl _ _
    simp only [Except.ok.injEq] at h
    subst h
    refine sessFrame_trans FC (sessFrame_setF sessC li lp _) ?_
    intro j g hj
    rcases hj with hj | hj
    · exact hj
    · exact Or.inr (Or.inl ⟨by rw [hj.1], hj.2⟩)

theorem addMultiLeaf_frame {s : MemoryDatastore} {now : Int}
    {rootModel rootProp : String} {ri : Nat} {leafModel : String}
    {lp : Option String} {li0 : Option Nat} {sess s2 : Sess}
    (h : addMultiLeaf s now rootModel rootProp ri leafModel lp li0 sess = .ok s2) :
    SessFrameOn (fun j g => (j = ri ∧ g = rootProp) ∨ (li0 = some j ∧ lp = some g)
      ∨ sess.next ≤ j) sess s2 := by
  unfold addMultiLeaf at h
  cases hf : (sess.read ri).fields rootProp with
  | none =>
    rw [hf] at h
    exact absurd h (by simp)
  | some fv =>
    cases fv with
    | str z =>
      rw [hf] at h
      exact absurd h (by simp)
    | arr curList =>
      rw [hf] at h
      dsimp only at h
      cases li0 with
      | none => exact absurd h (by simp)
      | some li =>
        dsimp only at h
        by_cases hcon : curList.contains (sess.read li).id = true
        · rw [if_pos hcon] at h
          cases lp with
          | none =>
            simp only [Except.ok.injEq] at h
            subst h
            exact sessFrame_refl _ _
          | some lp0 =>
            dsimp only at h
            refine sessFrame_mono (multiLeafTail_frame h) ?_
            intro j g hj
            rcases hj with hj | hj
            · exact Or.inl hj
            · rcases hj with hj | hj
              · exact Or.inr (Or.inl ⟨by rw [hj.1], by rw [hj.2]⟩)
              · exact Or.inr (Or.inr hj)
        · rw [if_neg hcon] at h
          cases lp with
          | none =>
            simp only [Except.ok.injEq] at h
            subst h
            exact sessFrame_mono (sessFrame_setF sess ri rootProp _)
              (fun j g hj => Or.inl hj)
          | some lp0 =>
            dsimp only at h
            refine sessFrame_trans (sessFrame_setF sess ri rootProp
              (some (.arr (curList ++ [(sess.read li).id]))))
              (multiLeafTail_frame h) ?_
            intro j g hj
            rcases hj with hj | hj
            · exact Or.inl hj
            · rcases hj with hj | hj
              · exact Or.inl hj
              · rcases hj with hj | hj
                · exact Or.inr (Or.inl ⟨by rw [hj.1], by rw [hj.2]⟩)
                · exact Or.inr (Or.inr hj)

theorem addMultiRoot_frame {s : MemoryDatastore} {now : Int}
    {rootModel rootProp : String} {ri0 : Option Nat} {leafModel : String}
    {lp : String} {li : Nat} {sess s2 : Sess}
    (h : addMultiRoot s now rootModel rootProp ri0 leafModel lp li sess = .ok s2) :
    SessFrameOn (fun j g => (ri0 = some j ∧ g = rootProp) ∨ (j = li ∧ g = lp)
      ∨ sess.next ≤ j) sess s2 := by
  unfold addMultiRoot at h
  cases ri0 with
  | none =>
    simp only [Except.ok.injEq] at h
    subst h
    exact sessFrame_mono (sessFrame_setF sess li lp none)
      (fun j g hj => Or.inr (Or.inl hj))
  | some ri =>
    dsimp only at h
    cases hf : (sess.read ri).fields rootProp with
    | none =>
      rw [hf] at h
      exact absurd h (by simp)
    | some fv =>
      cases fv with
      | str z =>
        rw [hf] at h
        exact absurd h (by simp)
      | arr l =>
        rw [hf] at h
        dsimp only at h
        by_cases hcon : l.contains (sess.read li).id = true
        · rw [if_pos hcon] at h
          refine sessFrame_mono (multiRootTail_frame h) ?_
          intro j g hj
          rcases hj with hj | hj
          · exact Or.inl ⟨by rw [hj.1], hj.2⟩
          · rcases hj with hj | hj
            · exact Or.inr (Or.inl hj)
            · exact Or.inr (Or.inr hj)
        · rw [if_neg hcon] at h
          refine sessFrame_trans (sessFrame_setF sess ri rootProp
            (some (.arr (l ++ [(sess.read li).id]))))
            (multiRootTail_frame h) ?_
          intro j g hj
          rcases hj with hj | hj
          · exact Or.inl ⟨by rw [hj.1], hj.2⟩
          · rcases hj with hj | hj
            · exact Or.inl ⟨by rw [hj.1], hj.2⟩
            · rcases hj with hj | hj
              · exact Or.inr (Or.inl hj)
              · exact Or.inr (Or.inr hj)

theorem linkRemoveLoop_frame {s : MemoryDatastore} {now : Int} {otherModel : String}
    {otherProp : Option String} {prop : String} {instSlot : Nat} :
    ∀ (l : List String) (sess s2 : Sess),
      linkRemoveLoop s now otherModel otherProp prop instSlot l sess = .ok s2 →
      SessFrameOn (fun j g => (j = instSlot ∧ g = prop) ∨ sess.next ≤ j) sess s2 := by
  intro l
  induction l with
  | nil =>
    intro sess s2 h
    simp only [linkRemoveLoop, Except.ok.injEq] at h
    subst h
    exact sessFrame_refl _ _
  | cons rid rest ih =>
    intro sess s2 h
    simp only [linkRemoveLoop] at h
    cases hrm : removeMultiLeaf prop (some instSlot) otherProp
        (getDataS s now otherModel (some rid) sess).1
        ((getDataS s now otherModel (some rid) sess).2.watchModel
          (getDataS s now otherModel (some rid) sess).1 otherModel) with
    | error e =>
      rw [hrm] at h
      exact absurd h (by simp)
    | ok sessA =>
      rw [hrm] at h
      dsimp only at h
      have F0 : SessFrameOn (fun _ _ => False) sess
          ((getDataS s now otherModel (some rid) sess).2.watchModel
            (getDataS s now otherModel (some rid) sess).1 otherModel) :=
        sessFrame_comp0 (sessFrame_getDataS _ _ _ _ _) (sessFrame_watch _ _ _)
      have FA : SessFrameOn (fun j g => (j = instSlot ∧ g = prop) ∨ sess.next ≤ j)
          sess sessA := by
        refine sessFrame_comp0 F0 (sessFrame_mono (removeMultiLeaf_frame hrm) ?_)
        intro j g hj
        rcases hj with ⟨hs, hg⟩ | ⟨hs, hg⟩
        · injection hs with hs2
          exact Or.inl ⟨hs2.symm, hg⟩
        · rcases getDataS_fst s now otherModel (some rid) sess with hq1 | hq1
          · rw [hq1] at hs
            exact absurd hs (by simp)
          · rw [hq1] at hs
            injection hs with hs2
            exact Or.inr (hs2 ▸ le_refl _)
      refine sessFrame_trans FA (ih _ _ h) ?_
      intro j g hj
      rcases hj with hj | hj
      · exact hj
      · rcases hj with hj | hj
        · exact Or.inl hj
        · exact Or.inr (le_trans FA.1 hj)

theorem linkAddLoop_frame {s : MemoryDatastore} {now : Int} {model otherModel : String}
    {otherProp : Option String} {prop : String} {instSlot : Nat} :
    ∀ (l : List String) (sess s2 : Sess),
      linkAddLoop s now model otherModel otherProp prop instSlot l sess = .ok s2 →
      SessFrameOn (fun j g => (j = instSlot ∧ g = prop) ∨ sess.next ≤ j) sess s2 := by
  intro l
  induction l with
  | nil =>
    intro sess s2 h
    simp only [linkAddLoop, Except.ok.injEq] at h
    subst h
    exact sessFrame_refl _ _
  | cons vid rest ih =>
    intro sess s2 h
    simp only [linkAddLoop] at h
    cases hrm : addMultiLeaf s now model prop instSlot otherModel otherProp
        (getDataS s now otherModel (some vid) sess).1
        ((getDataS s now otherModel (some vid) sess).2.watchModel
          (getDataS s now otherModel (some vid) sess).1 otherModel) with
    | error e =>
      rw [hrm] at h
      exact absurd h (by simp)
    | ok sessA =>
      rw [hrm] at h
      dsimp only at h
      have F0 : SessFrameOn (fun _ _ => False) sess
          ((getDataS s now otherModel (some vid) sess).2.watchModel
            (getDataS s now otherModel (some vid) sess).1 otherModel) :=
        sessFrame_comp0 (sessFrame_getDataS _ _ _ _ _) (sessFrame_watch _ _ _)
      have hW : sess.next ≤ ((getDataS s now otherModel (some vid) sess).2.watchModel
          (getDataS s now otherModel (some vid) sess).1 otherModel).next := by
        rw [Sess.next_watch]
        exact (sessFrame_getDataS s now otherModel (some vid) sess).1
      have FA : SessFrameOn (fun j g => (j = instSlot ∧ g = prop) ∨ sess.next ≤ j)
          sess sessA := by
        refine sessFrame_comp0 F0 (sessFrame_mono (addMultiLeaf_frame hrm) ?_)
        intro j g hj
        rcases hj with hj | hj
        · exact Or.inl hj
        · rcases hj with ⟨hs, hg⟩ | hs
          · rcases getDataS_fst s now otherModel (some vid) sess with hq1 | hq1
            · rw [hq1] at hs
              exact absurd hs (by simp)
            · rw [hq1] at hs
              injection hs with hs2
              exact Or.inr (hs2 ▸ le_refl _)
          · exact Or.inr (le_trans hW hs)
      refine sessFrame_trans FA (ih _ _ h) ?_
      intro j g hj
      rcases hj with hj | hj
      · exact hj
      · rcases hj with hj | hj
        · exact Or.inl hj
        · exact Or.inr (le_trans FA.1 hj)

theorem processLinkProp_frame {s : MemoryDatastore} {now : Int} {model : String}
    {instSlot : Nat} {prop : String} {a : LinkAnn} {value : Option FVal} {sess s2 : Sess}
    (h : processLinkProp s now model instSlot prop a value sess = .ok s2) :
    SessFrameOn (fun j g => (j = instSlot ∧ g = prop) ∨ sess.next ≤ j) sess s2 := by
  obtain ⟨ty, dir, om, op⟩ := a
  unfold processLinkProp at h
  have F0 : ∀ k : Option String, SessFrameOn (fun _ _ => False) sess
      ((getDataS s now om k sess).2.watchModel (getDataS s now om k sess).1 om) :=
    fun k => sessFrame_comp0 (sessFrame_getDataS _ _ _ _ _) (sessFrame_watch _ _ _)
  have hW : ∀ k : Option String, sess.next ≤ ((getDataS s now om k sess).2.watchModel
      (getDataS s now om k sess).1 om).next := by
    intro k
    rw [Sess.next_watch]
    exact (sessFrame_getDataS s now om k sess).1
  cases ty with
  | hasOne =>
    cases dir with
    | owns =>
      dsimp only at h
      refine sessFrame_comp0 (F0 (asKey value))
        (sessFrame_mono (addSingleLeaf_frame h) ?_)
      intro j g hj
      rcases hj with ⟨hs, hg⟩ | hj
      · injection hs with hs2
        exact Or.inl ⟨hs2.symm, hg⟩
      · rcases hj with ⟨hs, hg⟩ | hs
        · rcases getDataS_fst s now om (asKey value) sess with hq1 | hq1
          · rw [hq1] at hs
            exact absurd hs (by simp)
          · rw [hq1] at hs
            injection hs with hs2
            exact Or.inr (hs2 ▸ le_refl _)
        · exact Or.inr (le_trans (hW (asKey value)) hs)
    | ownedBy =>
      dsimp only at h
      refine sessFrame_comp0 (F0 (asKey value))
        (sessFrame_mono (addSingleRoot_frame h) ?_)
      intro j g hj
      rcases hj with ⟨hs, hg⟩ | hj
      · rcases getDataS_fst s now om (asKey value) sess with hq1 | hq1
        · rw [hq1] at hs
          exact absurd hs (by simp)
        · rw [hq1] at hs
          injection hs with hs2
          exact Or.inr (hs2 ▸ le_refl _)
      · rcases hj with hj | hs
        · exact Or.inl hj
        · exact Or.inr (le_trans (hW (asKey value)) hs)
  | hasMany =>
    cases dir with
    | owns =>
      dsimp only at h
      cases hf : (sess.read instSlot).fields prop with
      | none =>
        rw [hf] at h
        exact absurd h (by simp)
      | some fv =>
        cases fv with
        | str z =>
          rw [hf] at h
          exact absurd h (by simp)
        | arr cur =>
          rw [hf] at h
          dsimp only at h
          cases value with
          | none => exact absurd h (by simp)
          | some fv2 =>
            cases fv2 with
            | str z2 => exact absurd h (by simp)
            | arr valArr =>
              dsimp only at h
              cases hrl : linkRemoveLoop s now om op prop instSlot
                  (cur.filter (fun e => ¬ valArr.contains e)) sess with
              | error e =>
                rw [hrl] at h
                exact absurd h (by simp)
              | ok sessA =>
                rw [hrl] at h
                dsimp only at h
                have FA := linkRemoveLoop_frame _ _ _ hrl
                refine sessFrame_trans FA (linkAddLoop_frame _ _ _ h) ?_
                intro j g hj
                rcases hj with hj | hj
                · exact hj
                · rcases hj with hj | hj
                  · exact Or.inl hj
                  · exact Or.inr (le_trans FA.1 hj)
    | ownedBy =>
      dsimp only at h
      refine sessFrame_comp0 (F0 (asKey value))
        (sessFrame_mono (addMultiRoot_frame h) ?_)
      intro j g hj
      rcases hj with ⟨hs, hg⟩ | hj
      · rcases getDataS_fst s now om (asKey value) sess with hq1 | hq1
        · rw [hq1] at hs
          exact absurd hs (by simp)
        · rw [hq1] at hs
          injection hs with hs2
          exact Or.inr (hs2 ▸ le_refl _)
      · rcases hj with hj | hs
        · exact Or.inl hj
        · exact Or.inr (le_trans (hW (asKey value)) hs)

theorem updateLinkPropsGo_frame {s : MemoryDatastore} {now : Int} {model : String}
    {instSlot : Nat} {st : UState} {cp : Bool} {meth : String} :
    ∀ (t : Template) (sess s2 : Sess) (b : Bool) (r : Option String),
      updateLinkPropsGo s now model instSlot st cp meth t sess = .ok (s2, b, r) →
      SessFrameOn (fun j g => (j = instSlot ∧ g ∈ t.map Prod.fst) ∨ sess.next ≤ j) sess s2 := by
  intro t
  induction t with
  | nil =>
    intro sess s2 b r h
    simp only [updateLinkPropsGo, Except.ok.injEq, Prod.mk.injEq] at h
    rw [← h.1]
    exact sessFrame_refl _ _
  | cons p rest ih =>
    intro sess s2 b r h
    obtain ⟨pk, pv⟩ := p
    simp only [updateLinkPropsGo] at h
    by_cases hskip : pk = "meta" ∨ ¬ searchLinked (propValString pv) = true
    · rw [if_pos hskip] at h
      refine sessFrame_mono (ih _ _ _ _ h) ?_
      intro j g hj
      rcases hj with ⟨hs, hg⟩ | hs
      · exact Or.inl ⟨hs, by simp only [List.map_cons, List.mem_cons]; exact Or.inr hg⟩
      · exact Or.inr hs
    · rw [if_neg hskip] at h
      cases hga : getLinkAnn pv with
      | none =>
        rw [hga] at h
        exact absurd h (by simp)
      | some a =>
        rw [hga] at h
        dsimp only at h
        have FI : SessFrameOn (fun j g => j = instSlot ∧ g = pk) sess
            (if cp then sess.setF instSlot pk (emptyLinkVal a.type a.dir) else sess) := by
          split
          · exact sessFrame_setF sess instSlot pk _
          · exact sessFrame_refl _ _
        have hnI : sess.next ≤ (if cp then sess.setF instSlot pk (emptyLinkVal a.type a.dir)
            else sess).next := FI.1
        cases hens : s.ensureReferencesExist now a.otherModel
            (if jsFalsy (match st.fields pk with
                | some v => v
                | none => (sess.read instSlot).fields pk) ∧ a.type = .hasMany ∧ a.dir = .owns
             then some (.arr [])
             else (match st.fields pk with
                | some v => v
                | none => (sess.read instSlot).fields pk)) meth with
        | mk b0 r0 =>
          rw [hens] at h
          cases b0 with
          | true =>
            dsimp only at h
            simp only [Except.ok.injEq, Prod.mk.injEq] at h
            rw [← h.1]
            exact sessFrame_mono FI (fun j g hj => Or.inl ⟨hj.1, by
              simp only [List.map_cons, List.mem_cons]
              exact Or.inl hj.2⟩)
          | false =>
            dsimp only at h
            cases hpl : processLinkProp s now model instSlot pk a
                (if jsFalsy (match st.fields pk with
                    | some v => v
                    | none => (sess.read instSlot).fields pk) ∧ a.type = .hasMany ∧ a.dir = .owns
                 then some (.arr [])
                 else (match st.fields pk with
                    | some v => v
                    | none => (sess.read instSlot).fields pk))
                (if cp then sess.setF instSlot pk (emptyLinkVal a.type a.dir) else sess) with
            | error e =>
              rw [hpl] at h
              exact absurd h (by simp)
            | ok sessP =>
              rw [hpl] at h
              dsimp only at h
              have FP := processLinkProp_frame hpl
              have FPR : SessFrameOn
                  (fun j g => (j = instSlot ∧ g ∈ List.map Prod.fst ((pk, pv) :: rest))
                    ∨ sess.next ≤ j)
                  (if cp = true then sess.setF instSlot pk (emptyLinkVal a.type a.dir)
                   else sess) s2 := by
                refine sessFrame_trans FP (ih _ _ _ _ h) ?_
                intro j g hj
                rcases hj with hj | hj
                · rcases hj with ⟨hs, hg⟩ | hs
                  · exact Or.inl ⟨hs, by
                      simp only [List.map_cons, List.mem_cons]
                      exact Or.inl hg⟩
                  · exact Or.inr (le_trans hnI hs)
                · rcases hj with ⟨hs, hg⟩ | hs
                  · exact Or.inl ⟨hs, by
                      simp only [List.map_cons, List.mem_cons]
                      exact Or.inr hg⟩
                  · exact Or.inr (le_trans hnI (le_trans FP.1 hs))
              refine sessFrame_trans FI FPR ?_
              intro j g hj
              rcases hj with hj | hj
              · exact Or.inl ⟨hj.1, by
                  simp only [List.map_cons, List.mem_cons]
                  exact Or.inl hj.2⟩
              · exact hj

theorem updateLinkProperties_frame {s : MemoryDatastore} {now : Int} {model : String}
    {instSlot : Nat} {st : UState} {cp : Bool} {meth : String} {sess s2 : Sess}
    {b : Bool} {r : Option String}
    (h : s.updateLinkProperties now model instSlot st cp meth sess = .ok (s2, b, r)) :
    SessFrameOn (fun j g => (j = instSlot ∧ g ∈ (s.getModelTemplate model).map Prod.fst)
      ∨ sess.next ≤ j) sess s2 := by
  unfold MemoryDatastore.updateLinkProperties at h
  have F := updateLinkPropsGo_frame _ _ _ _ _ h
  refine sessFrame_comp0 (sessFrame_watch sess (some instSlot) model) (sessFrame_mono F ?_)
  intro j g hj
  rcases hj with hj | hj
  · exact Or.inl hj
  · rw [Sess.next_watch] at hj
    exact Or.inr hj

/-! ## Well-formedness unpacking -/

/-- What `_getData` success yields in a well-formed store: the instance is
keyed by its own id and all of its link fields are typed and resolving. -/
theorem getData_wf {s : MemoryDatastore} {now : Int} {m k : String} {e : Inst}
    (hk : storeKeysWFB s = true) (hi : storeIntegrityB s now = true)
    (hna : noAliases s) (h : s.getData now m (some k) = some e) :
    e.id = k ∧ ∀ p aa, getIn (s.getModelTemplate m) p = some (.link aa) →
      linkFieldWFB s now aa (e.fields p) = true := by
  simp only [MemoryDatastore.getData] at h
  rw [hna m k] at h
  simp only [jsOr] at h
  split at h
  · exact absurd h (by simp)
  · cases hdm : getIn s.data m with
    | none =>
      rw [hdm] at h
      simp [getIn] at h
    | some im =>
      rw [hdm] at h
      simp only [Option.getD] at h
      have hmem : (k, e) ∈ im := mem_of_getIn_eq_some h
      have hdmem : (m, im) ∈ s.data := mem_of_getIn_eq_some hdm
      constructor
      · simp only [storeKeysWFB, List.all_eq_true, Bool.and_eq_true] at hk
        have h1 := (hk (m, im) hdmem).2 (k, e) hmem
        exact eq_of_beq h1
      · intro p aa hpa
        have hpmem : (p, PropVal.link aa) ∈ s.getModelTemplate m := mem_of_getIn_eq_some hpa
        simp only [storeIntegrityB, List.all_eq_true] at hi
        have h2 := hi (m, im) hdmem (k, e) hmem (p, PropVal.link aa) hpmem
        exact h2

/-- What the constructor's pairing invariant says about one annotated
link. -/
theorem schemaPaired_inverse {s : MemoryDatastore} {model prop : String} {a : LinkAnn}
    (hsp : schemaPairedWFB s = true)
    (h : getIn (s.getModelTemplate model) prop = some (.link a)) :
    (a.dir = .ownedBy → a.otherProp.isSome = true) ∧
    ∀ op, a.otherProp = some op →
      getIn (s.getModelTemplate a.otherModel) op
        = some (.link ⟨a.type, dirFlip a.dir, model, some prop⟩) := by
  cases hm : getIn s.models model with
  | none =>
    rw [MemoryDatastore.getModelTemplate, hm] at h
    simp [getIn] at h
  | some tmpl =>
    have htm : s.getModelTemplate model = tmpl := by
      rw [MemoryDatastore.getModelTemplate, hm]
      rfl
    rw [htm] at h
    have hmem : (prop, PropVal.link a) ∈ tmpl := mem_of_getIn_eq_some h
    have hdmem : (model, tmpl) ∈ s.models := mem_of_getIn_eq_some hm
    simp only [schemaPairedWFB, Bool.and_eq_true, List.all_eq_true] at hsp
    have h2 := (hsp.2 (model, tmpl) hdmem).2 (prop, PropVal.link a) hmem
    simp only [Bool.and_eq_true] at h2
    constructor
    · intro hdir
      have h3 := h2.1
      rw [hdir] at h3
      simpa using h3
    · intro op hop
      have h4 := h2.2
      rw [hop] at h4
      dsimp only at h4
      exact eq_of_beq h4

theorem setF_id (i : Inst) (f : String) (v : Option FVal) : (i.setF f v).id = i.id := rfl

theorem getData_none_arg (s : MemoryDatastore) (now : Int) (m : String) :
    s.getData now m none = none := rfl

theorem linkFieldWFB_single {s : MemoryDatastore} {now : Int} {a : LinkAnn} {v : Option FVal}
    (hno : ¬ (a.type = .hasMany ∧ a.dir = .owns))
    (h : linkFieldWFB s now a v = true) :
    v = none ∨ ∃ r, v = some (.str r) ∧ r ≠ "" ∧
      (s.getData now a.otherModel (some r)).isSome = true := by
  unfold linkFieldWFB at h
  rw [if_neg hno] at h
  cases v with
  | none => exact Or.inl rfl
  | some fv =>
    cases fv with
    | str r =>
      simp only [Bool.and_eq_true] at h
      refine Or.inr ⟨r, rfl, ?_, h.2⟩
      simpa using h.1
    | arr l => exact absurd h (by simp)

theorem linkFieldWFB_many {s : MemoryDatastore} {now : Int} {a : LinkAnn} {v : Option FVal}
    (hyes : a.type = .hasMany ∧ a.dir = .owns)
    (h : linkFieldWFB s now a v = true) :
    ∃ l, v = some (.arr l) ∧ ∀ i ∈ l, (s.getData now a.otherModel (some i)).isSome = true := by
  unfold linkFieldWFB at h
  rw [if_pos hyes] at h
  cases v with
  | none => exact absurd h (by simp)
  | some fv =>
    cases fv with
    | str r => exact absurd h (by simp)
    | arr l =>
      refine ⟨l, rfl, ?_⟩
      simpa [List.all_eq_true] using h

/-- `emptyLinkVal` always satisfies the stored-link typing discipline. -/
theorem linkFieldWFB_empty (s : MemoryDatastore) (now : Int) (a : LinkAnn) :
    linkFieldWFB s now a (emptyLinkVal a.type a.dir) = true := by
  unfold linkFieldWFB emptyLinkVal
  by_cases hma : a.type = .hasMany ∧ a.dir = .owns
  · rw [if_pos hma, if_pos hma]
    simp
  · rw [if_neg hma, if_neg hma]

/-- The id under which `_getData` resolved is the instance's own id. -/
theorem getData_id {s : MemoryDatastore} {now : Int} {m k : String} {e : Inst}
    (hk : storeKeysWFB s = true) (hna : noAliases s)
    (h : s.getData now m (some k) = some e) : e.id = k := by
  simp only [MemoryDatastore.getData] at h
  rw [hna m k] at h
  simp only [jsOr] at h
  split at h
  · exact absurd h (by simp)
  · cases hdm : getIn s.data m with
    | none =>
      rw [hdm] at h
      simp [getIn] at h
    | some im =>
      rw [hdm] at h
      simp only [Option.getD] at h
      have hmem : (k, e) ∈ im := mem_of_getIn_eq_some h
      have hdmem : (m, im) ∈ s.data := mem_of_getIn_eq_some hdm
      simp only [storeKeysWFB, List.all_eq_true, Bool.and_eq_true] at hk
      exact eq_of_beq ((hk (m, im) hdmem).2 (k, e) hmem)

/-- The removal loop of the owned to-many rewiring: with every id
resolving and the instance's field an id array, it succeeds and leaves the
field equal to the folded removals. -/
theorem linkRemoveLoop_spec {s : MemoryDatastore} {now : Int} {om : String}
    {op : Option String} {prop : String}
    (hk : storeKeysWFB s = true) (hna : noAliases s) :
    ∀ (l : List String) (sess : Sess) (cur : List String),
      0 < sess.next →
      (∀ i ∈ l, (s.getData now om (some i)).isSome = true) →
      (sess.read 0).fields prop = some (.arr cur) →
      ∃ sess2, linkRemoveLoop s now om op prop 0 l sess = .ok sess2 ∧
        (sess2.read 0).fields prop = some (.arr (l.foldl removeLinkId cur)) ∧
        (sess2.read 0).id = (sess.read 0).id ∧
        sess.next ≤ sess2.next := by
  intro l
  induction l with
  | nil =>
    intro sess cur hn hres hcur
    exact ⟨sess, rfl, hcur, rfl, le_refl _⟩
  | cons rid rest ih =>
    intro sess cur hn hres hcur
    obtain ⟨ei, hgd⟩ : ∃ ei, s.getData now om (some rid) = some ei :=
      Option.isSome_iff_exists.mp (hres rid (List.mem_cons_self _ _))
    have heid : ei.id = rid := getData_id hk hna hgd
    simp only [linkRemoveLoop]
    rw [getDataS_some sess hgd]
    dsimp only
    have hz : (0 : Nat) ≠ sess.next := Nat.ne_of_lt hn
    have hrd0 : (((sess.alloc ei).2).watchModel (some sess.next) om).read 0 = sess.read 0 := by
      rw [Sess.read_watch, Sess.read_alloc_old ei hz]
    have hrdn : (((sess.alloc ei).2).watchModel (some sess.next) om).read sess.next = ei := by
      rw [Sess.read_watch, Sess.read_alloc_new]
    have hnext2 : (((sess.alloc ei).2).watchModel (some sess.next) om).next = sess.next + 1 := by
      rw [Sess.next_watch, Sess.next_alloc]
    have hfold : removeLinkId cur rid =
        (if cur.contains rid then cur.filter (fun e => e ≠ rid) else cur) := rfl
    cases op with
    | none =>
      have hrm : removeMultiLeaf prop (some 0) none (some sess.next)
          (((sess.alloc ei).2).watchModel (some sess.next) om)
          = .ok (if cur.contains rid then
              (((sess.alloc ei).2).watchModel (some sess.next) om).setF 0 prop
                (some (.arr (cur.filter (fun e => e ≠ rid))))
            else (((sess.alloc ei).2).watchModel (some sess.next) om)) := by
        unfold removeMultiLeaf
        dsimp only
        rw [hrd0, hcur]
        dsimp only
        rw [hrdn, heid]
      rw [hrm]
      dsimp only
      have hX1 : ((if cur.contains rid then
            (((sess.alloc ei).2).watchModel (some sess.next) om).setF 0 prop
              (some (.arr (cur.filter (fun e => e ≠ rid))))
          else (((sess.alloc ei).2).watchModel (some sess.next) om)).read 0).fields prop
          = some (.arr (removeLinkId cur rid)) := by
        rw [hfold]
        by_cases hc : cur.contains rid = true
        · rw [if_pos hc, if_pos hc, Sess.read_setF_eq, setF_fields, if_pos rfl]
        · rw [if_neg hc, if_neg hc, hrd0, hcur]
      have hX2 : ((if cur.contains rid then
            (((sess.alloc ei).2).watchModel (some sess.next) om).setF 0 prop
              (some (.arr (cur.filter (fun e => e ≠ rid))))
          else (((sess.alloc ei).2).watchModel (some sess.next) om)).read 0).id
          = (sess.read 0).id := by
        by_cases hc : cur.contains rid = true
        · rw [if_pos hc, Sess.read_setF_eq, setF_id, hrd0]
        · rw [if_neg hc, hrd0]
      have hX3 : (if cur.contains rid then
            (((sess.alloc ei).2).watchModel (some sess.next) om).setF 0 prop
              (some (.arr (cur.filter (fun e => e ≠ rid))))
          else (((sess.alloc ei).2).watchModel (some sess.next) om)).next
          = sess.next + 1 := by
        by_cases hc : cur.contains rid = true
        · rw [if_pos hc, Sess.next_setF, hnext2]
        · rw [if_neg hc, hnext2]
      obtain ⟨sess2, hloop, hval, hid2, hle⟩ := ih _ (removeLinkId cur rid)
        (by rw [hX3]; exact Nat.lt_of_lt_of_le hn (Nat.le_succ _))
        (fun i hi => hres i (List.mem_cons_of_mem _ hi)) hX1
      refine ⟨sess2, hloop, hval, ?_, ?_⟩
      · rw [hid2, hX2]
      · rw [hX3] at hle
        exact le_trans (Nat.le_succ _) hle
    | some lp =>
      have hrm : removeMultiLeaf prop (some 0) (some lp) (some sess.next)
          (((sess.alloc ei).2).watchModel (some sess.next) om)
          = .ok ((if cur.contains rid then
              (((sess.alloc ei).2).watchModel (some sess.next) om).setF 0 prop
                (some (.arr (cur.filter (fun e => e ≠ rid))))
            else (((sess.alloc ei).2).watchModel (some sess.next) om)).setF
              sess.next lp none) := by
        unfold removeMultiLeaf
        dsimp only
        rw [hrd0, hcur]
        dsimp only
        rw [hrdn, heid]
      rw [hrm]
      dsimp only
      have hX1 : (((if cur.contains rid then
            (((sess.alloc ei).2).watchModel (some sess.next) om).setF 0 prop
              (some (.arr (cur.filter (fun e => e ≠ rid))))
          else (((sess.alloc ei).2).watchModel (some sess.next) om)).setF
            sess.next lp none).read 0).fields prop
          = some (.arr (removeLinkId cur rid)) := by
        rw [Sess.read_setF_ne lp none hz, hfold]
        by_cases hc : cur.contains rid = true
        · rw [if_pos hc, if_pos hc, Sess.read_setF_eq, setF_fields, if_pos rfl]
        · rw [if_neg hc, if_neg hc, hrd0, hcur]
      have hX2 : (((if cur.contains rid then
            (((sess.alloc ei).2).watchModel (some sess.next) om).setF 0 prop
              (some (.arr (cur.filter (fun e => e ≠ rid))))
          else (((sess.alloc ei).2).watchModel (some sess.next) om)).setF
            sess.next lp none).read 0).id
          = (sess.read 0).id := by
        rw [Sess.read_setF_ne lp none hz]
        by_cases hc : cur.contains rid = true
        · rw [if_pos hc, Sess.read_setF_eq, setF_id, hrd0]
        · rw [if_neg hc, hrd0]
      have hX3 : ((if cur.contains rid then
            (((sess.alloc ei).2).watchModel (some sess.next) om).setF 0 prop
              (some (.arr (cur.filter (fun e => e ≠ rid))))
          else (((sess.alloc ei).2).watchModel (some sess.next) om)).setF
            sess.next lp none).next
          = sess.next + 1 := by
        rw [Sess.next_setF]
        by_cases hc : cur.contains rid = true
        · rw [if_pos hc, Sess.next_setF, hnext2]
        · rw [if_neg hc, hnext2]
      obtain ⟨sess2, hloop, hval, hid2, hle⟩ := ih _ (removeLinkId cur rid)
        (by rw [hX3]; exact Nat.lt_of_lt_of_le hn (Nat.le_succ _))
        (fun i hi => hres i (List.mem_cons_of_mem _ hi)) hX1
      refine ⟨sess2, hloop, hval, ?_, ?_⟩
      · rw [hid2, hX2]
      · rw [hX3] at hle
        exact le_trans (Nat.le_succ _) hle

/-- `_addMultiLeaf` on a well-formed store, rooted at the instance slot:
succeeds and appends the leaf's id to the root's list when absent. -/
theorem addMultiLeaf_spec {s : MemoryDatastore} {now : Int} {model om : String}
    {op : Option String} {prop : String} {sessB : Sess} {n : Nat} {cur : List String}
    {ei : Inst}
    (hk : storeKeysWFB s = true) (hi : storeIntegrityB s now = true) (hna : noAliases s)
    (hlinka : getIn (s.getModelTemplate model) prop = some (.link ⟨.hasMany, .owns, om, op⟩))
    (hn0 : 0 < sessB.next) (hnn : n ≠ 0) (hnlt : n < sessB.next)
    (hcur : (sessB.read 0).fields prop = some (.arr cur))
    (hein : sessB.read n = ei)
    (hty : ∀ lp, op = some lp →
      linkFieldWFB s now ⟨.hasMany, .ownedBy, model, some prop⟩ (ei.fields lp) = true) :
    ∃ sessC, addMultiLeaf s now model prop 0 om op (some n) sessB = .ok sessC ∧
      (sessC.read 0).fields prop = some (.arr (addLinkId cur ei.id)) ∧
      (sessC.read 0).id = (sessB.read 0).id ∧
      sessB.next ≤ sessC.next := by
  unfold addMultiLeaf
  rw [hcur]
  dsimp only
  rw [hein]
  have hz : (0 : Nat) ≠ n := fun hh => hnn hh.symm
  have hX0 : ((if cur.contains ei.id then sessB
        else sessB.setF 0 prop (some (.arr (cur ++ [ei.id])))).read 0).fields prop
      = some (.arr (addLinkId cur ei.id)) := by
    unfold addLinkId
    by_cases hc : cur.contains ei.id = true
    · rw [if_pos hc, if_pos hc, hcur]
    · rw [if_neg hc, if_neg hc, Sess.read_setF_eq, setF_fields, if_pos rfl]
  have hXid : ((if cur.contains ei.id then sessB
        else sessB.setF 0 prop (some (.arr (cur ++ [ei.id])))).read 0).id
      = (sessB.read 0).id := by
    by_cases hc : cur.contains ei.id = true
    · rw [if_pos hc]
    · rw [if_neg hc, Sess.read_setF_eq, setF_id]
  have hXn : (if cur.contains ei.id then sessB
        else sessB.setF 0 prop (some (.arr (cur ++ [ei.id])))).read n = ei := by
    by_cases hc : cur.contains ei.id = true
    · rw [if_pos hc, hein]
    · rw [if_neg hc, Sess.read_setF_ne prop _ hnn, hein]
  have hXnext : (if cur.contains ei.id then sessB
        else sessB.setF 0 prop (some (.arr (cur ++ [ei.id])))).next = sessB.next := by
    by_cases hc : cur.contains ei.id = true
    · rw [if_pos hc]
    · rw [if_neg hc, Sess.next_setF]
  generalize hgen : (if cur.contains ei.id then sessB
      else sessB.setF 0 prop (some (.arr (cur ++ [ei.id])))) = sessX
  rw [hgen] at hX0 hXid hXn hXnext
  cases op with
  | none => exact ⟨sessX, rfl, hX0, hXid, le_of_eq hXnext.symm⟩
  | some lp =>
    dsimp only
    rw [hXn]
    have hlv := linkFieldWFB_single (a := ⟨.hasMany, .ownedBy, model, some prop⟩)
      (by simp) (hty lp rfl)
    dsimp only at hlv
    by_cases hcond : ei.fields lp ≠ some (.str ((sessX.read 0).id))
    · rw [if_pos hcond]
      rcases hlv with hlv | ⟨r, hlv, hrne, hrres⟩
      · rw [hlv]
        rw [show asKey (none : Option FVal) = none from rfl]
        rw [getDataS_none sessX (getData_none_arg s now model)]
        dsimp only
        rw [show Sess.watchModel sessX none model = sessX from rfl]
        have hrmr : removeMultiRoot prop none (some lp) (some n) sessX
            = .ok (sessX.setF n lp none) := by
          unfold removeMultiRoot
          rfl
        rw [hrmr]
        dsimp only
        refine ⟨_, rfl, ?_, ?_, ?_⟩
        · rw [Sess.read_setF_ne lp _ hz, Sess.read_setF_ne lp none hz, hX0]
        · rw [Sess.read_setF_ne lp _ hz, Sess.read_setF_ne lp none hz, hXid]
        · rw [Sess.next_setF, Sess.next_setF, hXnext]
      · obtain ⟨er, hger⟩ : ∃ er, s.getData now model (some r) = some er :=
          Option.isSome_iff_exists.mp hrres
        obtain ⟨l2, hl2, _⟩ := linkFieldWFB_many (a := ⟨.hasMany, .owns, om, some lp⟩)
          (by simp) ((getData_wf hk hi hna hger).2 prop _ hlinka)
        rw [hlv]
        rw [show asKey (some (.str r)) = some r from rfl]
        rw [getDataS_some sessX hger]
        dsimp only
        have hzX : (0 : Nat) ≠ sessX.next := by
          rw [hXnext]
          exact Nat.ne_of_lt hn0
        have hnX : n ≠ sessX.next := by
          rw [hXnext]
          exact Nat.ne_of_lt hnlt
        have hrdE0 : (((sessX.alloc er).2).watchModel (some sessX.next) model).read 0
            = sessX.read 0 := by
          rw [Sess.read_watch, Sess.read_alloc_old er hzX]
        have hrdEn : (((sessX.alloc er).2).watchModel (some sessX.next) model).read n
            = ei := by
          rw [Sess.read_watch, Sess.read_alloc_old er hnX, hXn]
        have hrdEr : (((sessX.alloc er).2).watchModel (some sessX.next) model).read sessX.next
            = er := by
          rw [Sess.read_watch, Sess.read_alloc_new]
        have hrmr : removeMultiRoot prop (some sessX.next) (some lp) (some n)
            (((sessX.alloc er).2).watchModel (some sessX.next) model)
            = .ok (((((sessX.alloc er).2).watchModel (some sessX.next) model).setF
                sessX.next prop
                (some (.arr (l2.filter (fun e => e ≠
                  ((((sessX.alloc er).2).watchModel (some sessX.next) model).read n).id))))).setF
                n lp none) := by
          unfold removeMultiRoot
          dsimp only
          rw [hrdEr, hl2]
        rw [hrmr]
        dsimp only
        refine ⟨_, rfl, ?_, ?_, ?_⟩
        · rw [Sess.read_setF_ne lp _ hz, Sess.read_setF_ne lp none hz,
            Sess.read_setF_ne prop _ hzX, hrdE0, hX0]
        · rw [Sess.read_setF_ne lp _ hz, Sess.read_setF_ne lp none hz,
            Sess.read_setF_ne prop _ hzX, hrdE0, hXid]
        · rw [Sess.next_setF, Sess.next_setF, Sess.next_setF, Sess.next_watch,
            Sess.next_alloc, hXnext]
          exact Nat.le_succ _
    · rw [if_neg hcond]
      dsimp only
      refine ⟨_, rfl, ?_, ?_, ?_⟩
      · rw [Sess.read_setF_ne lp _ hz, hX0]
      · rw [Sess.read_setF_ne lp _ hz, hXid]
      · rw [Sess.next_setF, hXnext]

/-- The addition loop of the owned to-many rewiring: on a well-formed store
it succeeds and leaves the instance's list equal to the folded insertions. -/
theorem linkAddLoop_spec {s : MemoryDatastore} {now : Int} {model om : String}
    {op : Option String} {prop : String}
    (hk : storeKeysWFB s = true) (hi : storeIntegrityB s now = true) (hna : noAliases s)
    (hlinka : getIn (s.getModelTemplate model) prop = some (.link ⟨.hasMany, .owns, om, op⟩))
    (hinv : ∀ lp, op = some lp →
      getIn (s.getModelTemplate om) lp
        = some (.link ⟨.hasMany, .ownedBy, model, some prop⟩)) :
    ∀ (l : List String) (sess : Sess) (cur : List String),
      0 < sess.next →
      (∀ i ∈ l, (s.getData now om (some i)).isSome = true) →
      (sess.read 0).fields prop = some (.arr cur) →
      ∃ sess2, linkAddLoop s now model om op prop 0 l sess = .ok sess2 ∧
        (sess2.read 0).fields prop = some (.arr (l.foldl addLinkId cur)) ∧
        (sess2.read 0).id = (sess.read 0).id ∧
        sess.next ≤ sess2.next := by
  intro l
  induction l with
  | nil =>
    intro sess cur hn hres hcur
    exact ⟨sess, rfl, hcur, rfl, le_refl _⟩
  | cons vid rest ih =>
    intro sess cur hn hres hcur
    obtain ⟨ei, hgd⟩ : ∃ ei, s.getData now om (some vid) = some ei :=
      Option.isSome_iff_exists.mp (hres vid (List.mem_cons_self _ _))
    have heid : ei.id = vid := getData_id hk hna hgd
    simp only [linkAddLoop]
    rw [getDataS_some sess hgd]
    dsimp only
    have hz : (0 : Nat) ≠ sess.next := Nat.ne_of_lt hn
    have hnB : (((sess.alloc ei).2).watchModel (some sess.next) om).next = sess.next + 1 := by
      rw [Sess.next_watch, Sess.next_alloc]
    have hcurB : ((((sess.alloc ei).2).watchModel (some sess.next) om).read 0).fields prop
        = some (.arr cur) := by
      rw [Sess.read_watch, Sess.read_alloc_old ei hz, hcur]
    have heinB : (((sess.alloc ei).2).watchModel (some sess.next) om).read sess.next = ei := by
      rw [Sess.read_watch, Sess.read_alloc_new]
    have hidB : ((((sess.alloc ei).2).watchModel (some sess.next) om).read 0).id
        = (sess.read 0).id := by
      rw [Sess.read_watch, Sess.read_alloc_old ei hz]
    obtain ⟨sessC, hok, hC0, hCid, hCle⟩ := addMultiLeaf_spec hk hi hna hlinka
      (by rw [hnB]; exact Nat.succ_pos _)
      (fun hh => hz hh.symm)
      (by rw [hnB]; exact Nat.lt_succ_self _)
      hcurB heinB
      (fun lp hlp => (getData_wf hk hi hna hgd).2 lp _ (hinv lp hlp))
    rw [hok]
    dsimp only
    obtain ⟨sess2, hloop, hval, hid2, hle⟩ := ih sessC (addLinkId cur ei.id)
      (Nat.lt_of_lt_of_le (by rw [hnB]; exact Nat.succ_pos _) hCle)
      (fun i hi2 => hres i (List.mem_cons_of_mem _ hi2)) hC0
    refine ⟨sess2, hloop, ?_, ?_, ?_⟩
    · rw [hval, heid]
      rfl
    · rw [hid2, hCid, hidB]
    · rw [hnB] at hCle
      exact le_trans (Nat.le_succ _) (le_trans hCle hle)

/-- `_addSingleLeaf` with no leaf to link: unlinks any current value and
clears the root's property. -/
theorem addSingleLeaf_spec_none {s : MemoryDatastore} {now : Int} {model om : String}
    {op : Option String} {prop : String} {sessB : Sess}
    (hn0 : 0 < sessB.next)
    (hcurT : (sessB.read 0).fields prop = none ∨ ∃ c,
      (sessB.read 0).fields prop = some (.str c) ∧
      (s.getData now om (some c)).isSome = true) :
    ∃ sessC, addSingleLeaf s now model prop (some 0) om op none sessB = .ok sessC ∧
      (sessC.read 0).fields prop = none ∧
      (sessC.read 0).id = (sessB.read 0).id ∧
      sessB.next ≤ sessC.next := by
  unfold addSingleLeaf
  dsimp only
  rcases hcurT with hc | ⟨c, hc, hcres⟩
  · rw [hc, if_neg (by simp)]
    dsimp only
    refine ⟨_, rfl, ?_, ?_, ?_⟩
    · rw [Sess.read_setF_eq, setF_fields, if_pos rfl]
    · rw [Sess.read_setF_eq, setF_id]
    · rw [Sess.next_setF]
  · obtain ⟨ec, hgec⟩ : ∃ ec, s.getData now om (some c) = some ec :=
      Option.isSome_iff_exists.mp hcres
    rw [hc, if_pos (by simp), show asKey (some (.str c)) = some c from rfl,
      getDataS_some sessB hgec]
    dsimp only
    have hz : (0 : Nat) ≠ sessB.next := Nat.ne_of_lt hn0
    cases op with
    | none =>
      have hrsl : removeSingleLeaf prop (some 0) none (some sessB.next)
          (((sessB.alloc ec).2).watchModel (some sessB.next) om)
          = .ok ((((sessB.alloc ec).2).watchModel (some sessB.next) om).setF 0 prop none) := by
        unfold removeSingleLeaf writeFOpt
        rfl
      rw [hrsl]
      dsimp only
      refine ⟨_, rfl, ?_, ?_, ?_⟩
      · rw [Sess.read_setF_eq, setF_fields, if_pos rfl]
      · rw [Sess.read_setF_eq, setF_id, Sess.read_setF_eq, setF_id,
          Sess.read_watch, Sess.read_alloc_old ec hz]
      · rw [Sess.next_setF, Sess.next_setF, Sess.next_watch, Sess.next_alloc]
        exact Nat.le_succ _
    | some lp =>
      have hrsl : removeSingleLeaf prop (some 0) (some lp) (some sessB.next)
          (((sessB.alloc ec).2).watchModel (some sessB.next) om)
          = .ok (((((sessB.alloc ec).2).watchModel (some sessB.next) om).setF
              sessB.next lp none).setF 0 prop none) := by
        unfold removeSingleLeaf writeFOpt
        rfl
      rw [hrsl]
      dsimp only
      refine ⟨_, rfl, ?_, ?_, ?_⟩
      · rw [Sess.read_setF_eq, setF_fields, if_pos rfl]
      · rw [Sess.read_setF_eq, setF_id, Sess.read_setF_eq, setF_id,
          Sess.read_setF_ne lp none hz, Sess.read_watch, Sess.read_alloc_old ec hz]
      · rw [Sess.next_setF, Sess.next_setF, Sess.next_setF, Sess.next_watch,
          Sess.next_alloc]
        exact Nat.le_succ _

/-- `_addSingleLeaf` with a fetched leaf: unlinks any current value, points
the root at the leaf, and rewires the leaf's inverse. -/
theorem addSingleLeaf_spec_some {s : MemoryDatastore} {now : Int} {model om : String}
    {op : Option String} {prop : String} {sessB : Sess} {n : Nat} {ei : Inst}
    (hn0 : 0 < sessB.next) (hnn : n ≠ 0) (hnlt : n < sessB.next)
    (hein : sessB.read n = ei)
    (hcurT : (sessB.read 0).fields prop = none ∨ ∃ c,
      (sessB.read 0).fields prop = some (.str c) ∧
      (s.getData now om (some c)).isSome = true)
    (htyl : ∀ lp, op = some lp →
      linkFieldWFB s now ⟨.hasOne, .ownedBy, model, some prop⟩ (ei.fields lp) = true) :
    ∃ sessC, addSingleLeaf s now model prop (some 0) om op (some n) sessB = .ok sessC ∧
      (sessC.read 0).fields prop = some (.str ei.id) ∧
      (sessC.read 0).id = (sessB.read 0).id ∧
      sessB.next ≤ sessC.next := by
  unfold addSingleLeaf
  dsimp only
  have hz : (0 : Nat) ≠ sessB.next := Nat.ne_of_lt hn0
  have hzn : (0 : Nat) ≠ n := fun hh => hnn hh.symm
  have hnz : n ≠ sessB.next := Nat.ne_of_lt hnlt
  -- resolve step1 into ⟨sessY, facts⟩, then continue uniformly
  have hstep : ∃ sessY,
      (if (sessB.read 0).fields prop ≠ none then
        removeSingleLeaf prop (some 0) op
          (getDataS s now om (asKey ((sessB.read 0).fields prop)) sessB).1
          ((getDataS s now om (asKey ((sessB.read 0).fields prop)) sessB).2.watchModel
            (getDataS s now om (asKey ((sessB.read 0).fields prop)) sessB).1 om)
      else .ok sessB) = .ok sessY ∧
      sessY.read n = ei ∧ (sessY.read 0).id = (sessB.read 0).id ∧
      sessB.next ≤ sessY.next := by
    rcases hcurT with hc | ⟨c, hc, hcres⟩
    · rw [hc, if_neg (by simp)]
      exact ⟨sessB, rfl, hein, rfl, le_refl _⟩
    · obtain ⟨ec, hgec⟩ : ∃ ec, s.getData now om (some c) = some ec :=
        Option.isSome_iff_exists.mp hcres
      rw [hc, if_pos (by simp), show asKey (some (.str c)) = some c from rfl,
        getDataS_some sessB hgec]
      dsimp only
      cases op with
      | none =>
        refine ⟨_, by unfold removeSingleLeaf writeFOpt; rfl, ?_, ?_, ?_⟩
        · rw [Sess.read_setF_ne prop none hnn, Sess.read_watch,
            Sess.read_alloc_old ec hnz, hein]
        · rw [Sess.read_setF_eq, setF_id, Sess.read_watch, Sess.read_alloc_old ec hz]
        · rw [Sess.next_setF, Sess.next_watch, Sess.next_alloc]
          exact Nat.le_succ _
      | some lp =>
        refine ⟨_, by unfold removeSingleLeaf writeFOpt; rfl, ?_, ?_, ?_⟩
        · rw [Sess.read_setF_ne prop none hnn, Sess.read_setF_ne lp none hnz,
            Sess.read_watch, Sess.read_alloc_old ec hnz, hein]
        · rw [Sess.read_setF_eq, setF_id, Sess.read_setF_ne lp none hz,
            Sess.read_watch, Sess.read_alloc_old ec hz]
        · rw [Sess.next_setF, Sess.next_setF, Sess.next_watch, Sess.next_alloc]
          exact Nat.le_succ _
  obtain ⟨sessY, hY, heinY, hidY, hleY⟩ := hstep
  rw [hY]
  dsimp only
  rw [heinY]
  -- sessZ := sessY.setF 0 prop (str ei.id)
  have hZ0 : ((sessY.setF 0 prop (some (.str ei.id))).read 0).fields prop
      = some (.str ei.id) := by
    rw [Sess.read_setF_eq, setF_fields, if_pos rfl]
  have hZid : ((sessY.setF 0 prop (some (.str ei.id))).read 0).id = (sessB.read 0).id := by
    rw [Sess.read_setF_eq, setF_id, hidY]
  have hZn : (sessY.setF 0 prop (some (.str ei.id))).read n = ei := by
    rw [Sess.read_setF_ne prop _ hnn, heinY]
  have hZnext : (sessY.setF 0 prop (some (.str ei.id))).next = sessY.next := by
    rw [Sess.next_setF]
  cases op with
  | none => exact ⟨_, rfl, hZ0, hZid, le_trans hleY (le_of_eq hZnext.symm)⟩
  | some lp =>
    dsimp only
    rw [hZn]
    have hlv := linkFieldWFB_single (a := ⟨.hasOne, .ownedBy, model, some prop⟩)
      (by simp) (htyl lp rfl)
    dsimp only at hlv
    rcases hlv with hlv | ⟨r, hlv, hrne, hrres⟩
    · rw [hlv, if_neg (by simp [jsFalsy])]
      dsimp only
      refine ⟨_, rfl, ?_, ?_, ?_⟩
      · rw [Sess.read_setF_ne lp _ hzn, hZ0]
      · rw [Sess.read_setF_ne lp _ hzn, hZid]
      · rw [Sess.next_setF, hZnext]
        exact hleY
    · obtain ⟨er, hger⟩ : ∃ er, s.getData now model (some r) = some er :=
        Option.isSome_iff_exists.mp (hrres )
      rw [hlv, if_pos (by simp [jsFalsy, hrne]),
        show asKey (some (.str r)) = some r from rfl,
        getDataS_some (sessY.setF 0 prop (some (.str ei.id))) hger]
      dsimp only
      have hzZ : (0 : Nat) ≠ (sessY.setF 0 prop (some (.str ei.id))).next := by
        rw [hZnext]
        exact Nat.ne_of_lt (Nat.lt_of_lt_of_le hn0 hleY)
      have hnzZ : n ≠ (sessY.setF 0 prop (some (.str ei.id))).next := by
        rw [hZnext]
        exact Nat.ne_of_lt (Nat.lt_of_lt_of_le hnlt hleY)
      have hrsr : removeSingleRoot prop
          (some (sessY.setF 0 prop (some (.str ei.id))).next) lp (some n)
          ((((sessY.setF 0 prop (some (.str ei.id))).alloc er).2).watchModel
            (some (sessY.setF 0 prop (some (.str ei.id))).next) model)
          = .ok ((((((sessY.setF 0 prop (some (.str ei.id))).alloc er).2).watchModel
              (some (sessY.setF 0 prop (some (.str ei.id))).next) model).setF
              (sessY.setF 0 prop (some (.str ei.id))).next prop none).setF n lp none) := by
        unfold removeSingleRoot writeFOpt
        rfl
      rw [hrsr]
      dsimp only
      refine ⟨_, rfl, ?_, ?_, ?_⟩
      · rw [Sess.read_setF_ne lp _ hzn, Sess.read_setF_ne lp none hzn,
          Sess.read_setF_ne prop none hzZ, Sess.read_watch,
          Sess.read_alloc_old er hzZ, hZ0]
      · rw [Sess.read_setF_ne lp _ hzn, Sess.read_setF_ne lp none hzn,
          Sess.read_setF_ne prop none hzZ, Sess.read_watch,
          Sess.read_alloc_old er hzZ, hZid]
      · rw [Sess.next_setF, Sess.next_setF, Sess.next_setF, Sess.next_watch,
          Sess.next_alloc, hZnext]
        exact le_trans hleY (Nat.le_succ _)

/-- `_addSingleRoot` with no root to link: unlinks any current value and
clears the instance's property. -/
theorem addSingleRoot_spec_none {s : MemoryDatastore} {now : Int} {om model : String}
    {op2 prop : String} {sessB : Sess}
    (hn0 : 0 < sessB.next)
    (hcurT : (sessB.read 0).fields prop = none ∨ ∃ c,
      (sessB.read 0).fields prop = some (.str c) ∧
      (s.getData now om (some c)).isSome = true) :
    ∃ sessC, addSingleRoot s now om op2 none model prop 0 sessB = .ok sessC ∧
      (sessC.read 0).fields prop = none ∧
      (sessC.read 0).id = (sessB.read 0).id ∧
      sessB.next ≤ sessC.next := by
  unfold addSingleRoot
  dsimp only
  have hz : (0 : Nat) ≠ sessB.next := Nat.ne_of_lt hn0
  rcases hcurT with hc | ⟨c, hc, hcres⟩
  · rw [hc, if_neg (by simp)]
    dsimp only
    refine ⟨_, rfl, ?_, ?_, ?_⟩
    · rw [Sess.read_setF_eq, setF_fields, if_pos rfl]
    · rw [Sess.read_setF_eq, setF_id]
    · rw [Sess.next_setF]
  · obtain ⟨ec, hgec⟩ : ∃ ec, s.getData now om (some c) = some ec :=
      Option.isSome_iff_exists.mp hcres
    rw [hc, if_pos (by simp), show asKey (some (.str c)) = some c from rfl,
      getDataS_some sessB hgec]
    dsimp only
    have hrsr : removeSingleRoot op2 (some sessB.next) prop (some 0)
        (((sessB.alloc ec).2).watchModel (some sessB.next) om)
        = .ok (((((sessB.alloc ec).2).watchModel (some sessB.next) om).setF
            sessB.next op2 none).setF 0 prop none) := by
      unfold removeSingleRoot writeFOpt
      rfl
    rw [hrsr]
    dsimp only
    refine ⟨_, rfl, ?_, ?_, ?_⟩
    · rw [Sess.read_setF_eq, setF_fields, if_pos rfl]
    · rw [Sess.read_setF_eq, setF_id, Sess.read_setF_eq, setF_id,
        Sess.read_setF_ne op2 none hz, Sess.read_watch, Sess.read_alloc_old ec hz]
    · rw [Sess.next_setF, Sess.next_setF, Sess.next_setF, Sess.next_watch, Sess.next_alloc]
      exact Nat.le_succ _

/-- `_addSingleRoot` with a fetched root: unlinks the instance's current
root, points the instance at the new root, and rewires the root's own
link. -/
theorem addSingleRoot_spec_some {s : MemoryDatastore} {now : Int} {om model : String}
    {op2 prop : String} {sessB : Sess} {n : Nat} {ei : Inst}
    (hn0 : 0 < sessB.next) (hnn : n ≠ 0) (hnlt : n < sessB.next)
    (hein : sessB.read n = ei)
    (hcurT : (sessB.read 0).fields prop = none ∨ ∃ c,
      (sessB.read 0).fields prop = some (.str c) ∧
      (s.getData now om (some c)).isSome = true)
    (htyr : linkFieldWFB s now ⟨.hasOne, .owns, model, some prop⟩ (ei.fields op2) = true) :
    ∃ sessC, addSingleRoot s now om op2 (some n) model prop 0 sessB = .ok sessC ∧
      (sessC.read 0).fields prop = some (.str ei.id) ∧
      (sessC.read 0).id = (sessB.read 0).id ∧
      sessB.next ≤ sessC.next := by
  unfold addSingleRoot
  dsimp only
  have hz : (0 : Nat) ≠ sessB.next := Nat.ne_of_lt hn0
  have hzn : (0 : Nat) ≠ n := fun hh => hnn hh.symm
  have hnz : n ≠ sessB.next := Nat.ne_of_lt hnlt
  have hstep : ∃ sessY,
      (if (sessB.read 0).fields prop ≠ none then
        removeSingleRoot op2
          (getDataS s now om (asKey ((sessB.read 0).fields prop)) sessB).1
          prop (some 0)
          ((getDataS s now om (asKey ((sessB.read 0).fields prop)) sessB).2.watchModel
            (getDataS s now om (asKey ((sessB.read 0).fields prop)) sessB).1 om)
      else .ok sessB) = .ok sessY ∧
      sessY.read n = ei ∧ (sessY.read 0).id = (sessB.read 0).id ∧
      sessB.next ≤ sessY.next := by
    rcases hcurT with hc | ⟨c, hc, hcres⟩
    · rw [hc, if_neg (by simp)]
      exact ⟨sessB, rfl, hein, rfl, le_refl _⟩
    · obtain ⟨ec, hgec⟩ : ∃ ec, s.getData now om (some c) = some ec :=
        Option.isSome_iff_exists.mp hcres
      rw [hc, if_pos (by simp), show asKey (some (.str c)) = some c from rfl,
        getDataS_some sessB hgec]
      dsimp only
      refine ⟨_, by unfold removeSingleRoot writeFOpt; rfl, ?_, ?_, ?_⟩
      · rw [Sess.read_setF_ne prop none hnn, Sess.read_setF_ne op2 none hnz,
          Sess.read_watch, Sess.read_alloc_old ec hnz, hein]
      · rw [Sess.read_setF_eq, setF_id, Sess.read_setF_ne op2 none hz,
          Sess.read_watch, Sess.read_alloc_old ec hz]
      · rw [Sess.next_setF, Sess.next_setF, Sess.next_watch, Sess.next_alloc]
        exact Nat.le_succ _
  obtain ⟨sessY, hY, heinY, hidY, hleY⟩ := hstep
  rw [hY]
  dsimp only
  rw [heinY]
  have hZ0 : ((sessY.setF 0 prop (some (.str ei.id))).read 0).fields prop
      = some (.str ei.id) := by
    rw [Sess.read_setF_eq, setF_fields, if_pos rfl]
  have hZid : ((sessY.setF 0 prop (some (.str ei.id))).read 0).id = (sessB.read 0).id := by
    rw [Sess.read_setF_eq, setF_id, hidY]
  have hZn : (sessY.setF 0 prop (some (.str ei.id))).read n = ei := by
    rw [Sess.read_setF_ne prop _ hnn, heinY]
  have hZnext : (sessY.setF 0 prop (some (.str ei.id))).next = sessY.next := by
    rw [Sess.next_setF]
  rw [hZn]
  have hcur2 := linkFieldWFB_single (a := ⟨.hasOne, .owns, model, some prop⟩)
    (by simp) htyr
  dsimp only at hcur2
  rcases hcur2 with hcv | ⟨x, hcv, hxne, hxres⟩
  · rw [hcv, if_neg (by simp)]
    dsimp only
    refine ⟨_, rfl, ?_, ?_, ?_⟩
    · rw [Sess.read_setF_ne op2 _ hzn, hZ0]
    · rw [Sess.read_setF_ne op2 _ hzn, hZid]
    · rw [Sess.next_setF, hZnext]
      exact hleY
  · obtain ⟨ex, hgex⟩ : ∃ ex, s.getData now model (some x) = some ex :=
      Option.isSome_iff_exists.mp hxres
    rw [hcv, if_pos (by simp), show asKey (some (.str x)) = some x from rfl,
      getDataS_some (sessY.setF 0 prop (some (.str ei.id))) hgex]
    dsimp only
    have hzZ : (0 : Nat) ≠ (sessY.setF 0 prop (some (.str ei.id))).next := by
      rw [hZnext]
      exact Nat.ne_of_lt (Nat.lt_of_lt_of_le hn0 hleY)
    have hnzZ : n ≠ (sessY.setF 0 prop (some (.str ei.id))).next := by
      rw [hZnext]
      exact Nat.ne_of_lt (Nat.lt_of_lt_of_le hnlt hleY)
    have hrsl : removeSingleLeaf op2 (some n) (some prop)
        (some (sessY.setF 0 prop (some (.str ei.id))).next)
        ((((sessY.setF 0 prop (some (.str ei.id))).alloc ex).2).watchModel
          (some (sessY.setF 0 prop (some (.str ei.id))).next) model)
        = .ok ((((((sessY.setF 0 prop (some (.str ei.id))).alloc ex).2).watchModel
            (some (sessY.setF 0 prop (some (.str ei.id))).next) model).setF
            (sessY.setF 0 prop (some (.str ei.id))).next prop none).setF n op2 none) := by
      unfold removeSingleLeaf writeFOpt
      rfl
    rw [hrsl]
    dsimp only
    rw [show ((((((sessY.setF 0 prop (some (.str ei.id))).alloc ex).2).watchModel
        (some (sessY.setF 0 prop (some (.str ei.id))).next) model).setF
        (sessY.setF 0 prop (some (.str ei.id))).next prop none).setF n op2 none).read 0
        = (sessY.setF 0 prop (some (.str ei.id))).read 0 from by
      rw [Sess.read_setF_ne op2 none hzn, Sess.read_setF_ne prop none hzZ,
        Sess.read_watch, Sess.read_alloc_old ex hzZ]]
    refine ⟨_, rfl, ?_, ?_, ?_⟩
    · rw [Sess.read_setF_ne op2 _ hzn, Sess.read_setF_ne op2 none hzn,
        Sess.read_setF_ne prop none hzZ, Sess.read_watch, Sess.read_alloc_old ex hzZ, hZ0]
    · rw [Sess.read_setF_ne op2 _ hzn, Sess.read_setF_ne op2 none hzn,
        Sess.read_setF_ne prop none hzZ, Sess.read_watch, Sess.read_alloc_old ex hzZ, hZid]
    · rw [Sess.next_setF, Sess.next_setF, Sess.next_setF, Sess.next_watch,
        Sess.next_alloc, hZnext]
      exact le_trans hleY (Nat.le_succ _)

/-- `_addMultiRoot` with no root to link: clears the instance's property. -/
theorem addMultiRoot_spec_none {s : MemoryDatastore} {now : Int} {om model : String}
    {op2 prop : String} {sessB : Sess} :
    addMultiRoot s now om op2 none model prop 0 sessB = .ok (sessB.setF 0 prop none) := by
  unfold addMultiRoot
  rfl

/-- `_addMultiRoot` with a fetched root: joins the root's id list, unlinks
the instance's current root, and points the instance at the new root. -/
theorem addMultiRoot_spec_some {s : MemoryDatastore} {now : Int} {om model : String}
    {op2 prop : String} {sessB : Sess} {n : Nat} {ei : Inst}
    (hk : storeKeysWFB s = true) (hi : storeIntegrityB s now = true) (hna : noAliases s)
    (hpairOp : getIn (s.getModelTemplate om) op2
      = some (.link ⟨.hasMany, .owns, model, some prop⟩))
    (hn0 : 0 < sessB.next) (hnn : n ≠ 0) (hnlt : n < sessB.next)
    (hein : sessB.read n = ei)
    (hcurT : (sessB.read 0).fields prop = none ∨ ∃ c,
      (sessB.read 0).fields prop = some (.str c) ∧
      (s.getData now om (some c)).isSome = true)
    (htyr : linkFieldWFB s now ⟨.hasMany, .owns, model, some prop⟩ (ei.fields op2) = true) :
    ∃ sessC, addMultiRoot s now om op2 (some n) model prop 0 sessB = .ok sessC ∧
      (sessC.read 0).fields prop = some (.str ei.id) ∧
      (sessC.read 0).id = (sessB.read 0).id ∧
      sessB.next ≤ sessC.next := by
  obtain ⟨l, harr, _⟩ := linkFieldWFB_many
    (a := ⟨.hasMany, .owns, model, some prop⟩) (by simp) htyr
  unfold addMultiRoot
  dsimp only
  rw [hein, harr]
  dsimp only
  have hz : (0 : Nat) ≠ sessB.next := Nat.ne_of_lt hn0
  have hzn : (0 : Nat) ≠ n := fun hh => hnn hh.symm
  have hnz : n ≠ sessB.next := Nat.ne_of_lt hnlt
  have hX0 : ((if l.contains (sessB.read 0).id then sessB
      else sessB.setF n op2 (some (.arr (l ++ [(sessB.read 0).id])))).read 0).fields prop
      = (sessB.read 0).fields prop := by
    by_cases hc : l.contains (sessB.read 0).id = true
    · rw [if_pos hc]
    · rw [if_neg hc, Sess.read_setF_ne op2 _ hzn]
  have hXid : ((if l.contains (sessB.read 0).id then sessB
      else sessB.setF n op2 (some (.arr (l ++ [(sessB.read 0).id])))).read 0).id
      = (sessB.read 0).id := by
    by_cases hc : l.contains (sessB.read 0).id = true
    · rw [if_pos hc]
    · rw [if_neg hc, Sess.read_setF_ne op2 _ hzn]
  have hXnid : ((if l.contains (sessB.read 0).id then sessB
      else sessB.setF n op2 (some (.arr (l ++ [(sessB.read 0).id])))).read n).id = ei.id := by
    by_cases hc : l.contains (sessB.read 0).id = true
    · rw [if_pos hc, hein]
    · rw [if_neg hc, Sess.read_setF_eq, setF_id, hein]
  have hXnext : (if l.contains (sessB.read 0).id then sessB
      else sessB.setF n op2 (some (.arr (l ++ [(sessB.read 0).id])))).next = sessB.next := by
    by_cases hc : l.contains (sessB.read 0).id = true
    · rw [if_pos hc]
    · rw [if_neg hc, Sess.next_setF]
  generalize hgen : (if l.contains (sessB.read 0).id then sessB
      else sessB.setF n op2 (some (.arr (l ++ [(sessB.read 0).id])))) = sessX
  rw [hgen] at hX0 hXid hXnid hXnext
  have hzX : (0 : Nat) ≠ sessX.next := by
    rw [hXnext]
    exact hz
  have hnzX : n ≠ sessX.next := by
    rw [hXnext]
    exact hnz
  rw [hX0, hXnid]
  rcases hcurT with hc0 | ⟨c, hc0, hcres⟩
  · rw [hc0, if_pos (by simp), show asKey (none : Option FVal) = none from rfl,
      getDataS_none sessX (getData_none_arg s now om)]
    dsimp only
    rw [show Sess.watchModel sessX none om = sessX from rfl]
    have hrml : removeMultiLeaf op2 none (some prop) (some 0) sessX = .ok sessX := by
      unfold removeMultiLeaf
      rfl
    rw [hrml]
    dsimp only
    rw [hXnid]
    refine ⟨_, rfl, ?_, ?_, ?_⟩
    · rw [Sess.read_setF_eq, setF_fields, if_pos rfl]
    · rw [Sess.read_setF_eq, setF_id, hXid]
    · rw [Sess.next_setF, hXnext]
  · by_cases hcond : (some (FVal.str c) : Option FVal) ≠ some (.str ei.id)
    · obtain ⟨ec, hgec⟩ : ∃ ec, s.getData now om (some c) = some ec :=
        Option.isSome_iff_exists.mp hcres
      obtain ⟨l3, hl3, _⟩ := linkFieldWFB_many
        (a := ⟨.hasMany, .owns, model, some prop⟩) (by simp)
        ((getData_wf hk hi hna hgec).2 op2 _ hpairOp)
      rw [hc0, if_pos hcond, show asKey (some (.str c)) = some c from rfl,
        getDataS_some sessX hgec]
      dsimp only
      have hrdm2 : (((sessX.alloc ec).2).watchModel (some sessX.next) om).read sessX.next
          = ec := by
        rw [Sess.read_watch, Sess.read_alloc_new]
      have hrd0E : (((sessX.alloc ec).2).watchModel (some sessX.next) om).read 0
          = sessX.read 0 := by
        rw [Sess.read_watch, Sess.read_alloc_old ec hzX]
      have hrdnE : (((sessX.alloc ec).2).watchModel (some sessX.next) om).read n
          = sessX.read n := by
        rw [Sess.read_watch, Sess.read_alloc_old ec hnzX]
      have hrml : removeMultiLeaf op2 (some sessX.next) (some prop) (some 0)
          ((((sessX.alloc ec).2).watchModel (some sessX.next) om))
          = .ok ((if l3.contains
                (((((sessX.alloc ec).2).watchModel (some sessX.next) om)).read 0).id then
              (((sessX.alloc ec).2).watchModel (some sessX.next) om).setF sessX.next op2
                (some (.arr (l3.filter (fun e => e ≠
                  (((((sessX.alloc ec).2).watchModel (some sessX.next) om)).read 0).id))))
            else (((sessX.alloc ec).2).watchModel (some sessX.next) om)).setF 0 prop none) := by
        unfold removeMultiLeaf
        dsimp only
        rw [hrdm2, hl3]
      rw [hrml]
      dsimp only
      refine ⟨_, rfl, ?_, ?_, ?_⟩
      · rw [Sess.read_setF_eq, setF_fields, if_pos rfl]
        congr 2
        by_cases hc3 : l3.contains
            (((((sessX.alloc ec).2).watchModel (some sessX.next) om)).read 0).id = true
        · rw [if_pos hc3, Sess.read_setF_ne prop none hnn, Sess.read_setF_ne op2 _ hnzX,
            hrdnE, hXnid]
        · rw [if_neg hc3, Sess.read_setF_ne prop none hnn, hrdnE, hXnid]
      · rw [Sess.read_setF_eq, setF_id, Sess.read_setF_eq, setF_id]
        by_cases hc3 : l3.contains
            (((((sessX.alloc ec).2).watchModel (some sessX.next) om)).read 0).id = true
        · rw [if_pos hc3, Sess.read_setF_ne op2 _ hzX, hrd0E, hXid]
        · rw [if_neg hc3, hrd0E, hXid]
      · rw [Sess.next_setF, Sess.next_setF]
        by_cases hc3 : l3.contains
            (((((sessX.alloc ec).2).watchModel (some sessX.next) om)).read 0).id = true
        · rw [if_pos hc3, Sess.next_setF, Sess.next_watch, Sess.next_alloc, hXnext]
          exact Nat.le_succ _
        · rw [if_neg hc3, Sess.next_watch, Sess.next_alloc, hXnext]
          exact Nat.le_succ _
    · rw [hc0, if_neg hcond]
      dsimp only
      rw [hXnid]
      refine ⟨_, rfl, ?_, ?_, ?_⟩
      · rw [Sess.read_setF_eq, setF_fields, if_pos rfl]
      · rw [Sess.read_setF_eq, setF_id, hXid]
      · rw [Sess.next_setF, hXnext]

theorem filter_not_contains_self (l : List String) :
    l.filter (fun e => ¬ l.contains e) = [] := by
  rw [List.filter_eq_nil_iff]
  intro a ha
  simp [ha]

theorem foldl_addLinkId_of_subset :
    ∀ (l acc : List String), (∀ x ∈ l, acc.contains x = true) →
      l.foldl addLinkId acc = acc := by
  intro l
  induction l with
  | nil => intro acc _; rfl
  | cons x rest ih =>
    intro acc h
    rw [List.foldl_cons, show addLinkId acc x = acc from by
        unfold addLinkId
        rw [if_pos (h x (List.mem_cons_self _ _))]]
    exact ih acc (fun y hy => h y (List.mem_cons_of_mem _ hy))

/-- One linked property's rewiring on a well-formed store: it succeeds,
and rewiring a property to the very value it already holds leaves the
instance's property unchanged. -/
theorem processLinkProp_spec {s : MemoryDatastore} {now : Int} {model prop : String}
    {a : LinkAnn} {value : Option FVal} {sess : Sess}
    (hn : 0 < sess.next)
    (hk : storeKeysWFB s = true) (hi : storeIntegrityB s now = true) (hna : noAliases s)
    (hsp : schemaPairedWFB s = true)
    (hlink : getIn (s.getModelTemplate model) prop = some (.link a))
    (hcur : linkFieldWFB s now a ((sess.read 0).fields prop) = true)
    (hval : match a.type, a.dir with
      | .hasMany, .owns => ∃ l, value = some (.arr l) ∧
          ∀ i ∈ l, (s.getData now a.otherModel (some i)).isSome = true
      | _, _ => value = none ∨ ∃ i, value = some (.str i) ∧
          (i ≠ "" → (s.getData now a.otherModel (some i)).isSome = true)) :
    ∃ sess2, processLinkProp s now model 0 prop a value sess = .ok sess2 ∧
      (value = (sess.read 0).fields prop → (sess2.read 0).fields prop = value) ∧
      (sess2.read 0).id = (sess.read 0).id ∧
      sess.next ≤ sess2.next := by
  obtain ⟨ty, dir, om, op⟩ := a
  have hpair := schemaPaired_inverse hsp hlink
  dsimp only at hpair
  have hz : (0 : Nat) ≠ sess.next := Nat.ne_of_lt hn
  cases ty with
  | hasOne =>
    cases dir with
    | owns =>
      dsimp only at hval hcur
      have hcurT := linkFieldWFB_single (a := ⟨.hasOne, .owns, om, op⟩) (by simp) hcur
      dsimp only at hcurT
      have hcurT2 : (sess.read 0).fields prop = none ∨ ∃ c,
          (sess.read 0).fields prop = some (.str c) ∧
          (s.getData now om (some c)).isSome = true := by
        rcases hcurT with h | ⟨c, h1, h2, h3⟩
        · exact Or.inl h
        · exact Or.inr ⟨c, h1, h3⟩
      unfold processLinkProp
      dsimp only
      rcases hval with hv | ⟨i, hv, hres⟩
      · subst hv
        rw [show asKey (none : Option FVal) = none from rfl,
          getDataS_none sess (getData_none_arg s now om)]
        dsimp only
        rw [show Sess.watchModel sess none om = sess from rfl]
        obtain ⟨sessC, hok, hC0, hCid, hCle⟩ := @addSingleLeaf_spec_none s now model om op prop sess hn hcurT2
        exact ⟨sessC, hok, fun _ => hC0, hCid, hCle⟩
      · subst hv
        rw [show asKey (some (.str i)) = some i from rfl]
        cases hgd : s.getData now om (some i) with
        | none =>
          rw [getDataS_none sess hgd]
          dsimp only
          rw [show Sess.watchModel sess none om = sess from rfl]
          obtain ⟨sessC, hok, hC0, hCid, hCle⟩ := @addSingleLeaf_spec_none s now model om op prop sess hn hcurT2
          refine ⟨sessC, hok, ?_, hCid, hCle⟩
          intro hveq
          rcases hcurT2 with hnone | ⟨c, hceq, hcres⟩
          · rw [← hveq] at hnone
            exact absurd hnone (by simp)
          · rw [← hveq] at hceq
            injection hceq with hh
            injection hh with hh2
            subst hh2
            rw [hgd] at hcres
            exact absurd hcres (by simp)
        | some ei =>
          rw [getDataS_some sess hgd]
          dsimp only
          have hcurB : ((((sess.alloc ei).2).watchModel (some sess.next) om).read 0).fields
              prop = none ∨ ∃ c,
              ((((sess.alloc ei).2).watchModel (some sess.next) om).read 0).fields prop
                = some (.str c) ∧ (s.getData now om (some c)).isSome = true := by
            rw [Sess.read_watch, Sess.read_alloc_old ei hz]
            exact hcurT2
          have hnB : (((sess.alloc ei).2).watchModel (some sess.next) om).next
              = sess.next + 1 := by
            rw [Sess.next_watch, Sess.next_alloc]
          obtain ⟨sessC, hok, hC0, hCid, hCle⟩ := addSingleLeaf_spec_some
            (by rw [hnB]; exact Nat.succ_pos _) (fun hh => hz hh.symm)
            (by rw [hnB]; exact Nat.lt_succ_self _)
            (by rw [Sess.read_watch, Sess.read_alloc_new])
            hcurB
            (fun lp hlp => (getData_wf hk hi hna hgd).2 lp _ (hpair.2 lp hlp))
          refine ⟨sessC, hok, ?_, ?_, ?_⟩
          · intro hveq
            rw [hC0, getData_id hk hna hgd]
          · rw [hCid, Sess.read_watch, Sess.read_alloc_old ei hz]
          · rw [hnB] at hCle
            exact le_trans (Nat.le_succ _) hCle
    | ownedBy =>
      dsimp only at hval hcur
      obtain ⟨op2, hop2⟩ : ∃ x, op = some x := by
        cases op with
        | none => exact absurd (hpair.1 rfl) (by simp)
        | some x => exact ⟨x, rfl⟩
      subst hop2
      have hcurT := linkFieldWFB_single (a := ⟨.hasOne, .ownedBy, om, some op2⟩)
        (by simp) hcur
      dsimp only at hcurT
      have hcurT2 : (sess.read 0).fields prop = none ∨ ∃ c,
          (sess.read 0).fields prop = some (.str c) ∧
          (s.getData now om (some c)).isSome = true := by
        rcases hcurT with h | ⟨c, h1, h2, h3⟩
        · exact Or.inl h
        · exact Or.inr ⟨c, h1, h3⟩
      unfold processLinkProp
      dsimp only
      rw [show Option.getD (some op2) "undefined" = op2 from rfl]
      rcases hval with hv | ⟨i, hv, hres⟩
      · subst hv
        rw [show asKey (none : Option FVal) = none from rfl,
          getDataS_none sess (getData_none_arg s now om)]
        dsimp only
        rw [show Sess.watchModel sess none om = sess from rfl]
        obtain ⟨sessC, hok, hC0, hCid, hCle⟩ := @addSingleRoot_spec_none s now om model op2 prop sess hn hcurT2
        exact ⟨sessC, hok, fun _ => hC0, hCid, hCle⟩
      · subst hv
        rw [show asKey (some (.str i)) = some i from rfl]
        cases hgd : s.getData now om (some i) with
        | none =>
          rw [getDataS_none sess hgd]
          dsimp only
          rw [show Sess.watchModel sess none om = sess from rfl]
          obtain ⟨sessC, hok, hC0, hCid, hCle⟩ := @addSingleRoot_spec_none s now om model op2 prop sess hn hcurT2
          refine ⟨sessC, hok, ?_, hCid, hCle⟩
          intro hveq
          rcases hcurT2 with hnone | ⟨c, hceq, hcres⟩
          · rw [← hveq] at hnone
            exact absurd hnone (by simp)
          · rw [← hveq] at hceq
            injection hceq with hh
            injection hh with hh2
            subst hh2
            rw [hgd] at hcres
            exact absurd hcres (by simp)
        | some ei =>
          rw [getDataS_some sess hgd]
          dsimp only
          have hcurB : ((((sess.alloc ei).2).watchModel (some sess.next) om).read 0).fields
              prop = none ∨ ∃ c,
              ((((sess.alloc ei).2).watchModel (some sess.next) om).read 0).fields prop
                = some (.str c) ∧ (s.getData now om (some c)).isSome = true := by
            rw [Sess.read_watch, Sess.read_alloc_old ei hz]
            exact hcurT2
          have hnB : (((sess.alloc ei).2).watchModel (some sess.next) om).next
              = sess.next + 1 := by
            rw [Sess.next_watch, Sess.next_alloc]
          obtain ⟨sessC, hok, hC0, hCid, hCle⟩ := addSingleRoot_spec_some
            (by rw [hnB]; exact Nat.succ_pos _) (fun hh => hz hh.symm)
            (by rw [hnB]; exact Nat.lt_succ_self _)
            (by rw [Sess.read_watch, Sess.read_alloc_new])
            hcurB
            ((getData_wf hk hi hna hgd).2 op2 _ (hpair.2 op2 rfl))
          refine ⟨sessC, hok, ?_, ?_, ?_⟩
          · intro hveq
            rw [hC0, getData_id hk hna hgd]
          · rw [hCid, Sess.read_watch, Sess.read_alloc_old ei hz]
          · rw [hnB] at hCle
            exact le_trans (Nat.le_succ _) hCle
  | hasMany =>
    cases dir with
    | owns =>
      dsimp only at hval hcur
      obtain ⟨valArr, hv, hres⟩ := hval
      subst hv
      obtain ⟨cur, hcureq, hcurres⟩ := linkFieldWFB_many
        (a := ⟨.hasMany, .owns, om, op⟩) (by simp) hcur
      dsimp only at hcureq hcurres
      unfold processLinkProp
      dsimp only
      rw [hcureq]
      dsimp only
      obtain ⟨sessA, hrl, hA0, hAid, hAle⟩ := linkRemoveLoop_spec hk hna
        (cur.filter (fun e => ¬ valArr.contains e)) sess cur hn
        (fun i hi2 => hcurres i (List.mem_of_mem_filter hi2)) hcureq
      rw [hrl]
      dsimp only
      obtain ⟨sess2, hal, hval2, hid2, hle2⟩ := linkAddLoop_spec hk hi hna hlink
        (fun lp hlp => hpair.2 lp hlp) valArr sessA
        ((cur.filter (fun e => ¬ valArr.contains e)).foldl removeLinkId cur)
        (Nat.lt_of_lt_of_le hn hAle) hres hA0
      refine ⟨sess2, hal, ?_, ?_, ?_⟩
      · intro hveq
        injection hveq with hveq2
        injection hveq2 with hveq3
        subst hveq3
        rw [hval2, filter_not_contains_self]
        rw [show List.foldl removeLinkId valArr ([] : List String) = valArr from rfl]
        rw [foldl_addLinkId_of_subset valArr valArr
          (fun x hx => List.elem_eq_true_of_mem hx)]
      · rw [hid2, hAid]
      · exact le_trans hAle hle2
    | ownedBy =>
      dsimp only at hval hcur
      obtain ⟨op2, hop2⟩ : ∃ x, op = some x := by
        cases op with
        | none => exact absurd (hpair.1 rfl) (by simp)
        | some x => exact ⟨x, rfl⟩
      subst hop2
      have hcurT := linkFieldWFB_single (a := ⟨.hasMany, .ownedBy, om, some op2⟩)
        (by simp) hcur
      dsimp only at hcurT
      have hcurT2 : (sess.read 0).fields prop = none ∨ ∃ c,
          (sess.read 0).fields prop = some (.str c) ∧
          (s.getData now om (some c)).isSome = true := by
        rcases hcurT with h | ⟨c, h1, h2, h3⟩
        · exact Or.inl h
        · exact Or.inr ⟨c, h1, h3⟩
      unfold processLinkProp
      dsimp only
      rw [show Option.getD (some op2) "undefined" = op2 from rfl]
      rcases hval with hv | ⟨i, hv, hres⟩
      · subst hv
        rw [show asKey (none : Option FVal) = none from rfl,
          getDataS_none sess (getData_none_arg s now om)]
        dsimp only
        rw [show Sess.watchModel sess none om = sess from rfl, addMultiRoot_spec_none]
        refine ⟨_, rfl, ?_, ?_, ?_⟩
        · intro hveq
          rw [Sess.read_setF_eq, setF_fields, if_pos rfl]
        · rw [Sess.read_setF_eq, setF_id]
        · rw [Sess.next_setF]
      · subst hv
        rw [show asKey (some (.str i)) = some i from rfl]
        cases hgd : s.getData now om (some i) with
        | none =>
          rw [getDataS_none sess hgd]
          dsimp only
          rw [show Sess.watchModel sess none om = sess from rfl, addMultiRoot_spec_none]
          refine ⟨_, rfl, ?_, ?_, ?_⟩
          · intro hveq
            rcases hcurT2 with hnone | ⟨c, hceq, hcres⟩
            · rw [← hveq] at hnone
              exact absurd hnone (by simp)
            · rw [← hveq] at hceq
              injection hceq with hh
              injection hh with hh2
              subst hh2
              rw [hgd] at hcres
              exact absurd hcres (by simp)
          · rw [Sess.read_setF_eq, setF_id]
          · rw [Sess.next_setF]
        | some ei =>
          rw [getDataS_some sess hgd]
          dsimp only
          have hcurB : ((((sess.alloc ei).2).watchModel (some sess.next) om).read 0).fields
              prop = none ∨ ∃ c,
              ((((sess.alloc ei).2).watchModel (some sess.next) om).read 0).fields prop
                = some (.str c) ∧ (s.getData now om (some c)).isSome = true := by
            rw [Sess.read_watch, Sess.read_alloc_old ei hz]
            exact hcurT2
          have hnB : (((sess.alloc ei).2).watchModel (some sess.next) om).next
              = sess.next + 1 := by
            rw [Sess.next_watch, Sess.next_alloc]
          obtain ⟨sessC, hok, hC0, hCid, hCle⟩ := addMultiRoot_spec_some hk hi hna
            (hpair.2 op2 rfl)
            (by rw [hnB]; exact Nat.succ_pos _) (fun hh => hz hh.symm)
            (by rw [hnB]; exact Nat.lt_succ_self _)
            (by rw [Sess.read_watch, Sess.read_alloc_new])
            hcurB
            ((getData_wf hk hi hna hgd).2 op2 _ (hpair.2 op2 rfl))
          refine ⟨sessC, hok, ?_, ?_, ?_⟩
          · intro hveq
            rw [hC0, getData_id hk hna hgd]
          · rw [hCid, Sess.read_watch, Sess.read_alloc_old ei hz]
          · rw [hnB] at hCle
            exact le_trans (Nat.le_succ _) hCle

theorem charsContain_prefix (n t : List Char) : charsContain n (n ++ t) = true := by
  cases hnt : n ++ t with
  | nil =>
    have hn : n = [] := (List.append_eq_nil.mp hnt).1
    subst hn
    rfl
  | cons x xs =>
    unfold charsContain
    simp only [Bool.or_eq_true]
    left
    rw [← hnt]
    exact List.isPrefixOf_iff_prefix.mpr (List.prefix_append n t)

/-- Annotated link strings always match the `/hasOne|hasMany/` search. -/
theorem searchLinked_link (b : LinkAnn) :
    searchLinked (propValString (PropVal.link b)) = true := by
  obtain ⟨ty, dir, om, op⟩ := b
  cases ty with
  | hasOne =>
    unfold searchLinked
    simp only [Bool.or_eq_true]
    left
    show charsContain "hasOne".data (String.data _) = true
    simp only [propValString, String.data_append, List.append_assoc]
    exact charsContain_prefix _ _
  | hasMany =>
    unfold searchLinked
    simp only [Bool.or_eq_true]
    right
    show charsContain "hasMany".data (String.data _) = true
    simp only [propValString, String.data_append, List.append_assoc]
    exact charsContain_prefix _ _

theorem ensureRefs_false_arr {s : MemoryDatastore} {now : Int} {om : String}
    {l : List String} {meth : String} {r : Option String}
    (h : s.ensureReferencesExist now om (some (.arr l)) meth = (false, r)) :
    ∀ i ∈ l, (s.getData now om (some i)).isSome = true := by
  unfold MemoryDatastore.ensureReferencesExist at h
  rw [if_neg (by simp [jsFalsy])] at h
  dsimp only at h
  cases hf : l.find? (fun i => (s.getData now om (some i)).isNone) with
  | some i =>
    rw [hf] at h
    exact absurd h (by simp)
  | none =>
    intro i hi
    have h2 := List.find?_eq_none.mp hf i hi
    cases hgd : s.getData now om (some i) with
    | none =>
      rw [hgd] at h2
      simp at h2
    | some e => simp [hgd]

theorem ensureRefs_false_str {s : MemoryDatastore} {now : Int} {om : String}
    {i : String} {meth : String} {r : Option String}
    (h : s.ensureReferencesExist now om (some (.str i)) meth = (false, r)) (hne : i ≠ "") :
    (s.getData now om (some i)).isSome = true := by
  unfold MemoryDatastore.ensureReferencesExist at h
  rw [if_neg (by simp [jsFalsy, hne])] at h
  dsimp only at h
  split at h
  · exact absurd h (by simp)
  · rename_i hnn
    cases hgd : s.getData now om (some i) with
    | none =>
      rw [hgd] at hnn
      simp at hnn
    | some e => simp [hgd]

theorem stateLinkWFB_prop {tmpl : Template} {st : UState} {q : String} {a : LinkAnn}
    (hw : stateLinkWFB tmpl st = true) (hmem : (q, PropVal.link a) ∈ tmpl) :
    ∀ v, st.fields q = some v →
      (a.type = .hasMany ∧ a.dir = .owns → (jsFalsy v = true ∨ ∃ l, v = some (.arr l))) ∧
      (¬ (a.type = .hasMany ∧ a.dir = .owns) → v = none ∨ ∃ i, v = some (.str i)) := by
  intro v hv
  simp only [stateLinkWFB, List.all_eq_true] at hw
  have h2 := hw (q, PropVal.link a) hmem
  dsimp only at h2
  rw [hv] at h2
  dsimp only at h2
  constructor
  · intro hmo
    rw [if_pos hmo] at h2
    simp only [Bool.or_eq_true] at h2
    rcases h2 with h3 | h3
    · exact Or.inl h3
    · right
      cases v with
      | none => simp at h3
      | some fv =>
        cases fv with
        | str z => simp at h3
        | arr l2 => exact ⟨l2, rfl⟩
  · intro hmo
    rw [if_neg hmo] at h2
    simp only [Bool.or_eq_true] at h2
    rcases h2 with h3 | h3
    · left
      cases v with
      | none => rfl
      | some fv => simp at h3
    · right
      cases v with
      | none => simp at h3
      | some fv =>
        cases fv with
        | str z => exact ⟨z, rfl⟩
        | arr l2 => simp at h3

/-- The simple-property pass never touches a (duplicate-free) template's
link properties. -/
theorem foldSimple_link_none (st : UState) {q : String} {b : LinkAnn} :
    ∀ (t : Template) (i : Inst), nodupKeysB t = true → (q, PropVal.link b) ∈ t →
      (t.foldl (simplePropStep st) i).fields q = i.fields q := by
  intro t
  induction t with
  | nil =>
    intro i _ hmem
    simp at hmem
  | cons p rest ih =>
    intro i hnd hmem
    obtain ⟨pk, pv⟩ := p
    obtain ⟨hmemk, hnd2⟩ := nodupKeysB_head hnd
    rw [List.foldl_cons]
    rcases List.mem_cons.mp hmem with h | h
    · injection h with h1 h2
      subst h1
      subst h2
      rw [foldSimple_fields_of_not_mem st q rest _ hmemk,
        simplePropStep_skip st (q, PropVal.link b) (Or.inr (searchLinked_link b)) i]
    · have hqne : q ≠ pk := by
        intro hh
        subst hh
        exact hmemk (List.mem_map.mpr ⟨(q, PropVal.link b), h, rfl⟩)
      rw [ih (simplePropStep st i (pk, pv)) hnd2 h,
        simplePropStep_fields_ne st i (pk, pv) q hqne]

theorem keysNodup_of_nodupKeysB {α : Type} :
    ∀ {m : List (String × α)}, nodupKeysB m = true → keysNodup m := by
  intro m
  induction m with
  | nil => intro _; exact List.nodup_nil
  | cons p rest ih =>
    intro h
    obtain ⟨pk, pv⟩ := p
    obtain ⟨h1, h2⟩ := nodupKeysB_head h
    exact List.nodup_cons.mpr ⟨h1, ih h2⟩


theorem linkValMatch_single {s : MemoryDatastore} {now : Int} {a : LinkAnn}
    {value : Option FVal}
    (hma : ¬ (a.type = LinkType.hasMany ∧ a.dir = LinkDir.owns))
    (h : value = none ∨ ∃ i, value = some (.str i) ∧
      (i ≠ "" → (s.getData now a.otherModel (some i)).isSome = true)) :
    (match a.type, a.dir with
     | LinkType.hasMany, LinkDir.owns => ∃ l, value = some (.arr l) ∧
         ∀ i ∈ l, (s.getData now a.otherModel (some i)).isSome = true
     | _, _ => value = none ∨ ∃ i, value = some (.str i) ∧
         (i ≠ "" → (s.getData now a.otherModel (some i)).isSome = true)) := by
  obtain ⟨ty, dir, om, op⟩ := a
  cases ty <;> cases dir
  · exact h
  · exact h
  · exact absurd ⟨rfl, rfl⟩ hma
  · exact h

theorem linkValMatch_many {s : MemoryDatastore} {now : Int} {a : LinkAnn}
    {value : Option FVal}
    (h1 : a.type = LinkType.hasMany) (h2 : a.dir = LinkDir.owns)
    (h : ∃ l, value = some (.arr l) ∧
      ∀ i ∈ l, (s.getData now a.otherModel (some i)).isSome = true) :
    (match a.type, a.dir with
     | LinkType.hasMany, LinkDir.owns => ∃ l, value = some (.arr l) ∧
         ∀ i ∈ l, (s.getData now a.otherModel (some i)).isSome = true
     | _, _ => value = none ∨ ∃ i, value = some (.str i) ∧
         (i ≠ "" → (s.getData now a.otherModel (some i)).isSome = true)) := by
  obtain ⟨ty, dir, om, op⟩ := a
  dsimp only at h1 h2
  subst h1
  subst h2
  exact h

theorem goSpec_stop {s : MemoryDatastore} {now : Int} {model : String} {st : UState}
    {cp : Bool} {meth : String} {prop : String} {a : LinkAnn} {rest : Template}
    {sess sessB : Sess} {r2 : Option String}
    (hstep : updateLinkPropsGo s now model 0 st cp meth ((prop, PropVal.link a) :: rest) sess
      = .ok (sessB, true, r2))
    (hBid : (sessB.read 0).id = (sess.read 0).id)
    (hBle : sess.next ≤ sessB.next)
    (hBfr : ∀ g, g ≠ prop → (sessB.read 0).fields g = (sess.read 0).fields g)
    (hpm : prop ≠ "meta") :
    GoSpecOut s now model st cp meth ((prop, PropVal.link a) :: rest) sess := by
  refine ⟨sessB, true, r2, hstep, hBid, hBle, ?_, ?_, ?_, fun _ => rfl⟩
  · intro g hg
    have hgp : g ≠ prop := by
      intro he
      subst he
      rcases hg (PropVal.link a) (List.mem_cons_self _ _) with h | h
      · exact hpm h
      · rw [searchLinked_link a] at h
        exact absurd h (by simp)
    exact hBfr g hgp
  · intro hbf
    exact absurd hbf (by simp)
  · intro hbf
    exact absurd hbf (by simp)

theorem goSpec_skip {s : MemoryDatastore} {now : Int} {model : String} {st : UState}
    {cp : Bool} {meth : String} {prop : String} {pv : PropVal} {rest : Template}
    {sess : Sess}
    (hskip : prop = "meta" ∨ ¬ searchLinked (propValString pv) = true)
    (IH : GoSpecOut s now model st cp meth rest sess) :
    GoSpecOut s now model st cp meth ((prop, pv) :: rest) sess := by
  obtain ⟨sess2, b, r, heq, hid, hle, hR1, hR2, hR2c, hR3⟩ := IH
  refine ⟨sess2, b, r, ?_, hid, hle, ?_, ?_, ?_, ?_⟩
  · show updateLinkPropsGo s now model 0 st cp meth ((prop, pv) :: rest) sess = _
    simp only [updateLinkPropsGo]
    rw [if_pos hskip]
    exact heq
  · intro g hg
    exact hR1 g (fun pw hpw => hg pw (List.mem_cons_of_mem _ hpw))
  · intro hb hcp q bq hq hqm hqn
    rcases List.mem_cons.mp hq with h | h
    · injection h with h1 h2
      subst h1
      rcases hskip with hs | hs
      · exact absurd hs hqm
      · rw [← h2] at hs
        exact absurd (searchLinked_link bq) hs
    · exact hR2 hb hcp q bq h hqm hqn
  · intro hb hcp q bq hq hqm hqn
    rcases List.mem_cons.mp hq with h | h
    · injection h with h1 h2
      subst h1
      rcases hskip with hs | hs
      · exact absurd hs hqm
      · rw [← h2] at hs
        exact absurd (searchLinked_link bq) hs
    · exact hR2c hb hcp q bq h hqm hqn
  · rintro ⟨q, bq, v, hq, hqm, hqv, hchk⟩
    rcases List.mem_cons.mp hq with h | h
    · injection h with h1 h2
      subst h1
      rcases hskip with hs | hs
      · exact absurd hs hqm
      · rw [← h2] at hs
        exact absurd (searchLinked_link bq) hs
    · exact hR3 ⟨q, bq, v, h, hqm, hqv, hchk⟩

theorem goSpec_step {s : MemoryDatastore} {now : Int} {model : String} {st : UState}
    {cp : Bool} {meth : String} {prop : String} {a : LinkAnn} {rest : Template}
    {sess sessC : Sess}
    (hstep : updateLinkPropsGo s now model 0 st cp meth ((prop, PropVal.link a) :: rest) sess
      = updateLinkPropsGo s now model 0 st cp meth rest sessC)
    (hCid : (sessC.read 0).id = (sess.read 0).id)
    (hCle : sess.next ≤ sessC.next)
    (hCfr : ∀ g, g ≠ prop → (sessC.read 0).fields g = (sess.read 0).fields g)
    (hCrest : cp = false → st.fields prop = none →
      (sessC.read 0).fields prop = (sess.read 0).fields prop)
    (hCcre : cp = true → st.fields prop = none →
      (sessC.read 0).fields prop = emptyLinkVal a.type a.dir)
    (hCmiss : ∀ v, st.fields prop = some v →
      (s.ensureReferencesExist now a.otherModel (createEffValue a v) meth).1 = false)
    (hnd : nodupKeysB ((prop, PropVal.link a) :: rest) = true)
    (hpm : prop ≠ "meta")
    (IH : GoSpecOut s now model st cp meth rest sessC) :
    GoSpecOut s now model st cp meth ((prop, PropVal.link a) :: rest) sess := by
  obtain ⟨hpnr, hndr⟩ := nodupKeysB_head hnd
  obtain ⟨sess2, b, r, heq, hid, hle, hR1, hR2, hR2c, hR3⟩ := IH
  have hgp : ∀ g, (∀ pw, (g, pw) ∈ (prop, PropVal.link a) :: rest →
      g = "meta" ∨ searchLinked (propValString pw) = false) → g ≠ prop := by
    intro g hg he
    subst he
    rcases hg (PropVal.link a) (List.mem_cons_self _ _) with h | h
    · exact hpm h
    · rw [searchLinked_link a] at h
      exact absurd h (by simp)
  refine ⟨sess2, b, r, by rw [hstep]; exact heq, by rw [hid, hCid],
    le_trans hCle hle, ?_, ?_, ?_, ?_⟩
  · intro g hg
    have h1 := hR1 g (fun pw hpw => hg pw (List.mem_cons_of_mem _ hpw))
    rw [h1, hCfr g (hgp g hg)]
  · intro hb hcp q bq hq hqm hqn
    rcases List.mem_cons.mp hq with h | h
    · injection h with h1 h2
      subst h1
      have hpres : (sess2.read 0).fields q = (sessC.read 0).fields q := by
        refine hR1 q (fun pw hpw => absurd (List.mem_map.mpr ⟨(q, pw), hpw, rfl⟩) hpnr)
      rw [hpres, hCrest hcp hqn]
    · have hqp : q ≠ prop := by
        intro he
        exact hpnr (he ▸ List.mem_map.mpr ⟨(q, PropVal.link bq), h, rfl⟩)
      rw [hR2 hb hcp q bq h hqm hqn, hCfr q hqp]
  · intro hb hcp q bq hq hqm hqn
    rcases List.mem_cons.mp hq with h | h
    · injection h with h1 h2
      subst h1
      injection h2 with h2a
      subst h2a
      have hpres : (sess2.read 0).fields q = (sessC.read 0).fields q := by
        refine hR1 q (fun pw hpw => absurd (List.mem_map.mpr ⟨(q, pw), hpw, rfl⟩) hpnr)
      rw [hpres, hCcre hcp hqn]
    · have hqp : q ≠ prop := by
        intro he
        exact hpnr (he ▸ List.mem_map.mpr ⟨(q, PropVal.link bq), h, rfl⟩)
      rw [hR2c hb hcp q bq h hqm hqn]
  · rintro ⟨q, bq, v, hq, hqm, hqv, hchk⟩
    rcases List.mem_cons.mp hq with h | h
    · injection h with h1 h2
      subst h1
      injection h2 with h2a
      subst h2a
      rw [hCmiss v hqv] at hchk
      exact absurd hchk (by simp)
    · exact hR3 ⟨q, bq, v, h, hqm, hqv, hchk⟩

theorem goCons_link {s : MemoryDatastore} {now : Int} {model : String} {st : UState}
    {cp : Bool} {meth : String} {prop : String} {a : LinkAnn} {rest : Template}
    {sess : Sess} {value : Option FVal} {sessB : Sess}
    (hskipn : ¬ (prop = "meta" ∨ ¬ searchLinked (propValString (PropVal.link a)) = true))
    (hv : (if jsFalsy (match st.fields prop with
             | some v => v
             | none => (sess.read 0).fields prop) = true
             ∧ a.type = LinkType.hasMany ∧ a.dir = LinkDir.owns
           then some (FVal.arr [])
           else (match st.fields prop with
             | some v => v
             | none => (sess.read 0).fields prop)) = value)
    (hB : (if cp = true then sess.setF 0 prop (emptyLinkVal a.type a.dir) else sess) = sessB) :
    (∀ r2, s.ensureReferencesExist now a.otherModel value meth = (true, r2) →
      updateLinkPropsGo s now model 0 st cp meth ((prop, PropVal.link a) :: rest) sess
        = .ok (sessB, true, r2)) ∧
    (∀ r2 sessX, s.ensureReferencesExist now a.otherModel value meth = (false, r2) →
      processLinkProp s now model 0 prop a value sessB = .ok sessX →
      updateLinkPropsGo s now model 0 st cp meth ((prop, PropVal.link a) :: rest) sess
        = updateLinkPropsGo s now model 0 st cp meth rest sessX) := by
  constructor
  · intro r2 hER
    simp only [updateLinkPropsGo]
    rw [if_neg hskipn]
    dsimp only [getLinkAnn]
    rw [hv, hB, hER]
  · intro r2 sessX hER hpl
    simp only [updateLinkPropsGo]
    rw [if_neg hskipn]
    dsimp only [getLinkAnn]
    rw [hv, hB, hER]
    dsimp only
    rw [hpl]

theorem goStep_run {s : MemoryDatastore} {now : Int} {model : String} {st : UState}
    {cp : Bool} {meth : String} {prop : String} {a : LinkAnn} {rest : Template}
    {sess sessB : Sess} {value : Option FVal}
    (hn : 0 < sess.next)
    (hk : storeKeysWFB s = true) (hi : storeIntegrityB s now = true) (hna : noAliases s)
    (hsp : schemaPairedWFB s = true)
    (hlink : getIn (s.getModelTemplate model) prop = some (PropVal.link a))
    (hstop : ∀ r2, s.ensureReferencesExist now a.otherModel value meth = (true, r2) →
      updateLinkPropsGo s now model 0 st cp meth ((prop, PropVal.link a) :: rest) sess
        = .ok (sessB, true, r2))
    (hcont : ∀ r2 sessX, s.ensureReferencesExist now a.otherModel value meth = (false, r2) →
      processLinkProp s now model 0 prop a value sessB = .ok sessX →
      updateLinkPropsGo s now model 0 st cp meth ((prop, PropVal.link a) :: rest) sess
        = updateLinkPropsGo s now model 0 st cp meth rest sessX)
    (hBid : (sessB.read 0).id = (sess.read 0).id)
    (hBle : sess.next ≤ sessB.next)
    (hBfr : ∀ g, g ≠ prop → (sessB.read 0).fields g = (sess.read 0).fields g)
    (hcur : linkFieldWFB s now a ((sessB.read 0).fields prop) = true)
    (hval : ∀ r2, s.ensureReferencesExist now a.otherModel value meth = (false, r2) →
      match a.type, a.dir with
      | LinkType.hasMany, LinkDir.owns => ∃ l, value = some (.arr l) ∧
          ∀ i ∈ l, (s.getData now a.otherModel (some i)).isSome = true
      | _, _ => value = none ∨ ∃ i, value = some (.str i) ∧
          (i ≠ "" → (s.getData now a.otherModel (some i)).isSome = true))
    (hrst : cp = false → st.fields prop = none →
      value = (sessB.read 0).fields prop ∧
      (sessB.read 0).fields prop = (sess.read 0).fields prop)
    (hrstC : cp = true → st.fields prop = none →
      value = (sessB.read 0).fields prop ∧
      (sessB.read 0).fields prop = emptyLinkVal a.type a.dir)
    (hmv : ∀ v, st.fields prop = some v → createEffValue a v = value)
    (hpm : prop ≠ "meta")
    (hnd : nodupKeysB ((prop, PropVal.link a) :: rest) = true)
    (hIH : ∀ sessX, 0 < sessX.next →
      (cp = true → ∀ q bq, (q, PropVal.link bq) ∈ rest → (sessX.read 0).fields q = none) →
      (cp = false → ∀ q bq, (q, PropVal.link bq) ∈ rest →
        linkFieldWFB s now bq ((sessX.read 0).fields q) = true) →
      GoSpecOut s now model st cp meth rest sessX)
    (hcre : cp = true → ∀ q bq, (q, PropVal.link bq) ∈ (prop, PropVal.link a) :: rest →
      (sess.read 0).fields q = none)
    (hupd : cp = false → ∀ q bq, (q, PropVal.link bq) ∈ (prop, PropVal.link a) :: rest →
      linkFieldWFB s now bq ((sess.read 0).fields q) = true) :
    GoSpecOut s now model st cp meth ((prop, PropVal.link a) :: rest) sess := by
  obtain ⟨hpnr, hndr⟩ := nodupKeysB_head hnd
  have hBn : 0 < sessB.next := lt_of_lt_of_le hn hBle
  cases hER : s.ensureReferencesExist now a.otherModel value meth with
  | mk er1 er2 =>
    cases er1 with
    | true =>
      exact goSpec_stop (hstop er2 hER) hBid hBle hBfr hpm
    | false =>
      obtain ⟨sessC, hokC, hrestC, hCid0, hCle0⟩ :=
        processLinkProp_spec hBn hk hi hna hsp hlink hcur (hval er2 hER)
      have FC := processLinkProp_frame hokC
      have hCfrB : ∀ g, g ≠ prop → (sessC.read 0).fields g = (sessB.read 0).fields g := by
        intro g hg
        refine (FC.2 0 hBn).2 g ?_
        intro hc
        rcases hc with ⟨_, hgpe⟩ | hnx
        · exact hg hgpe
        · exact absurd hnx (by omega)
      have hCfr : ∀ g, g ≠ prop → (sessC.read 0).fields g = (sess.read 0).fields g :=
        fun g hg => (hCfrB g hg).trans (hBfr g hg)
      have hCn : 0 < sessC.next := lt_of_lt_of_le hBn hCle0
      have hqneprop : ∀ (q : String) (bq : LinkAnn), (q, PropVal.link bq) ∈ rest →
          q ≠ prop := by
        intro q bq hq he
        exact hpnr (he ▸ List.mem_map.mpr ⟨(q, PropVal.link bq), hq, rfl⟩)
      have IH := hIH sessC hCn
        (fun hc q bq hq => by
          rw [hCfr q (hqneprop q bq hq)]
          exact hcre hc q bq (List.mem_cons_of_mem _ hq))
        (fun hc q bq hq => by
          rw [hCfr q (hqneprop q bq hq)]
          exact hupd hc q bq (List.mem_cons_of_mem _ hq))
      refine goSpec_step (hcont er2 sessC hER hokC) (hCid0.trans hBid)
        (le_trans hBle hCle0) hCfr ?_ ?_ ?_ hnd hpm IH
      · intro hc hnone
        obtain ⟨hv1, hv2⟩ := hrst hc hnone
        rw [hrestC hv1, hv1]
        exact hv2
      · intro hc hnone
        obtain ⟨hv1, hv2⟩ := hrstC hc hnone
        rw [hrestC hv1, hv1]
        exact hv2
      · intro v hv
        rw [hmv v hv, hER]

/-- The linked-property loop satisfies its full contract on every template
suffix whose entries come from the model's (duplicate-free) template. -/
theorem updateLinkPropsGo_spec {s : MemoryDatastore} {now : Int} {model : String}
    {st : UState} {cp : Bool} {meth : String}
    (hk : storeKeysWFB s = true) (hi : storeIntegrityB s now = true) (hna : noAliases s)
    (hsp : schemaPairedWFB s = true)
    (hstate : stateLinkWFB (s.getModelTemplate model) st = true) :
    ∀ (t : Template) (sess : Sess),
      0 < sess.next → nodupKeysB t = true →
      (∀ p ∈ t, getIn (s.getModelTemplate model) p.1 = some p.2) →
      templateAttrsCleanB t = true →
      (cp = true → ∀ q bq, (q, PropVal.link bq) ∈ t → (sess.read 0).fields q = none) →
      (cp = false → ∀ q bq, (q, PropVal.link bq) ∈ t →
        linkFieldWFB s now bq ((sess.read 0).fields q) = true) →
      GoSpecOut s now model st cp meth t sess := by
  intro t
  induction t with
  | nil =>
    intro sess _ _ _ _ _ _
    refine ⟨sess, false, none, rfl, rfl, le_refl _, fun g _ => rfl,
      fun _ _ q bq hq _ _ => absurd hq (List.not_mem_nil _),
      fun _ _ q bq hq _ _ => absurd hq (List.not_mem_nil _), ?_⟩
    rintro ⟨q, bq, v, hq, -, -, -⟩
    exact absurd hq (List.not_mem_nil _)
  | cons p rest ih =>
    intro sess hn hnd htype hclean hcre hupd
    obtain ⟨prop, pv⟩ := p
    obtain ⟨hpnr, hndr⟩ := nodupKeysB_head hnd
    have htypeR : ∀ p2 ∈ rest, getIn (s.getModelTemplate model) p2.1 = some p2.2 :=
      fun p2 hp2 => htype p2 (List.mem_cons_of_mem _ hp2)
    simp only [templateAttrsCleanB, List.all_cons, Bool.and_eq_true] at hclean
    have hcleanR : templateAttrsCleanB rest = true := hclean.2
    by_cases hskip : prop = "meta" ∨ ¬ searchLinked (propValString pv) = true
    · exact goSpec_skip hskip (ih sess hn hndr htypeR hcleanR
        (fun hc q bq hq => hcre hc q bq (List.mem_cons_of_mem _ hq))
        (fun hc q bq hq => hupd hc q bq (List.mem_cons_of_mem _ hq)))
    · push_neg at hskip
      obtain ⟨hpm, hsl⟩ := hskip
      cases pv with
      | attr ty =>
        exfalso
        have h1 := hclean.1
        rw [show propValString (PropVal.attr ty) = ty from rfl] at hsl
        dsimp only at h1
        rw [hsl] at h1
        simp at h1
      | link a =>
        have hskipn : ¬ (prop = "meta"
            ∨ ¬ searchLinked (propValString (PropVal.link a)) = true) := by
          intro hco
          rcases hco with hco | hco
          · exact hpm hco
          · exact hco (searchLinked_link a)
        have hlink : getIn (s.getModelTemplate model) prop = some (PropVal.link a) :=
          htype (prop, PropVal.link a) (List.mem_cons_self _ _)
        have hmemT : (prop, PropVal.link a) ∈ s.getModelTemplate model :=
          mem_of_getIn_eq_some hlink
        have hBid : ((if cp = true then sess.setF 0 prop (emptyLinkVal a.type a.dir)
            else sess).read 0).id = (sess.read 0).id := by
          split
          · rw [Sess.read_setF_eq, setF_id]
          · rfl
        have hBle : sess.next ≤ (if cp = true then sess.setF 0 prop
            (emptyLinkVal a.type a.dir) else sess).next := by
          split
          · exact le_of_eq (Sess.next_setF sess 0 prop (emptyLinkVal a.type a.dir)).symm
          · exact le_refl _
        have hBfr : ∀ g, g ≠ prop → ((if cp = true then sess.setF 0 prop
            (emptyLinkVal a.type a.dir) else sess).read 0).fields g
            = (sess.read 0).fields g := by
          intro g hg
          split
          · rw [Sess.read_setF_eq, setF_fields, if_neg hg]
          · rfl
        have hBcur : linkFieldWFB s now a (((if cp = true then sess.setF 0 prop
            (emptyLinkVal a.type a.dir) else sess).read 0).fields prop) = true := by
          split
          · rw [Sess.read_setF_eq, setF_fields, if_pos rfl]
            exact linkFieldWFB_empty s now a
          · rename_i hco
            have hcf : cp = false := by
              revert hco
              cases cp
              · intro _; rfl
              · intro hco; exact absurd rfl hco
            exact hupd hcf prop a (List.mem_cons_self _ _)
        have hIH : ∀ sessX, 0 < sessX.next →
            (cp = true → ∀ q bq, (q, PropVal.link bq) ∈ rest →
              (sessX.read 0).fields q = none) →
            (cp = false → ∀ q bq, (q, PropVal.link bq) ∈ rest →
              linkFieldWFB s now bq ((sessX.read 0).fields q) = true) →
            GoSpecOut s now model st cp meth rest sessX :=
          fun sessX hX hcreX hupdX => ih sessX hX hndr htypeR hcleanR hcreX hupdX
        cases hstp : st.fields prop with
        | some v =>
          have hmvgen : ∀ v2, st.fields prop = some v2 → v2 = v := by
            intro v2 hv2
            rw [hstp] at hv2
            injection hv2 with h2
            exact h2.symm
          obtain ⟨hwf1, hwf2⟩ := stateLinkWFB_prop hstate hmemT v hstp
          by_cases hma : a.type = LinkType.hasMany ∧ a.dir = LinkDir.owns
          · by_cases hjf : jsFalsy v = true
            · obtain ⟨hstop, hcont⟩ := goCons_link hskipn
                (show _ = some (FVal.arr []) by
                  rw [hstp]
                  dsimp only
                  rw [if_pos ⟨hjf, hma⟩])
                rfl
              refine goStep_run hn hk hi hna hsp hlink hstop hcont hBid hBle hBfr hBcur
                ?_ ?_ ?_ ?_ hpm hnd hIH hcre hupd
              · intro r2 _
                exact linkValMatch_many hma.1 hma.2 ⟨[], rfl, by simp⟩
              · intro _ hnone
                exact absurd (hstp.symm.trans hnone) (by simp)
              · intro _ hnone
                exact absurd (hstp.symm.trans hnone) (by simp)
              · intro v2 hv2
                rw [hmvgen v2 hv2]
                unfold createEffValue
                rw [if_pos ⟨hjf, hma⟩]
            · rcases hwf1 hma with hj | ⟨l, hveq⟩
              · exact absurd hj hjf
              · subst hveq
                obtain ⟨hstop, hcont⟩ := goCons_link hskipn
                  (show _ = some (FVal.arr l) by
                    rw [hstp]
                    dsimp only
                    rw [if_neg (fun hcond => hjf hcond.1)])
                  rfl
                refine goStep_run hn hk hi hna hsp hlink hstop hcont hBid hBle hBfr hBcur
                  ?_ ?_ ?_ ?_ hpm hnd hIH hcre hupd
                · intro r2 hER
                  exact linkValMatch_many hma.1 hma.2 ⟨l, rfl, ensureRefs_false_arr hER⟩
                · intro _ hnone
                  exact absurd (hstp.symm.trans hnone) (by simp)
                · intro _ hnone
                  exact absurd (hstp.symm.trans hnone) (by simp)
                · intro v2 hv2
                  rw [hmvgen v2 hv2]
                  unfold createEffValue
                  rw [if_neg (fun hcond => hjf hcond.1)]
          · rcases hwf2 hma with hveq | ⟨i, hveq⟩
            · subst hveq
              obtain ⟨hstop, hcont⟩ := goCons_link hskipn
                (show _ = (none : Option FVal) by
                  rw [hstp]
                  dsimp only
                  rw [if_neg (fun hcond => hma hcond.2)])
                rfl
              refine goStep_run hn hk hi hna hsp hlink hstop hcont hBid hBle hBfr hBcur
                ?_ ?_ ?_ ?_ hpm hnd hIH hcre hupd
              · intro r2 _
                exact linkValMatch_single hma (Or.inl rfl)
              · intro _ hnone
                exact absurd (hstp.symm.trans hnone) (by simp)
              · intro _ hnone
                exact absurd (hstp.symm.trans hnone) (by simp)
              · intro v2 hv2
                rw [hmvgen v2 hv2]
                unfold createEffValue
                rw [if_neg (fun hcond => hma hcond.2)]
            · subst hveq
              obtain ⟨hstop, hcont⟩ := goCons_link hskipn
                (show _ = some (FVal.str i) by
                  rw [hstp]
                  dsimp only
                  rw [if_neg (fun hcond => hma hcond.2)])
                rfl
              refine goStep_run hn hk hi hna hsp hlink hstop hcont hBid hBle hBfr hBcur
                ?_ ?_ ?_ ?_ hpm hnd hIH hcre hupd
              · intro r2 hER
                exact linkValMatch_single hma
                  (Or.inr ⟨i, rfl, fun hi => ensureRefs_false_str hER hi⟩)
              · intro _ hnone
                exact absurd (hstp.symm.trans hnone) (by simp)
              · intro _ hnone
                exact absurd (hstp.symm.trans hnone) (by simp)
              · intro v2 hv2
                rw [hmvgen v2 hv2]
                unfold createEffValue
                rw [if_neg (fun hcond => hma hcond.2)]
        | none =>
          have hmvX : ∀ (w : Option FVal) v2, st.fields prop = some v2 →
              createEffValue a v2 = w := by
            intro w v2 hv2
            rw [hstp] at hv2
            exact absurd hv2 (by simp)
          by_cases hc : cp = true
          · have hcur0 : (sess.read 0).fields prop = none :=
              hcre hc prop a (List.mem_cons_self _ _)
            by_cases hma : a.type = LinkType.hasMany ∧ a.dir = LinkDir.owns
            · obtain ⟨hstop, hcont⟩ := goCons_link hskipn
                (show _ = some (FVal.arr []) by
                  rw [hstp]
                  dsimp only
                  rw [hcur0]
                  rw [if_pos ⟨rfl, hma⟩])
                rfl
              refine goStep_run hn hk hi hna hsp hlink hstop hcont hBid hBle hBfr hBcur
                ?_ ?_ ?_ ?_ hpm hnd hIH hcre hupd
              · intro r2 _
                exact linkValMatch_many hma.1 hma.2 ⟨[], rfl, by simp⟩
              · intro hcf _
                exact absurd (hc.symm.trans hcf) (by simp)
              · intro _ _
                refine ⟨?_, ?_⟩
                · rw [if_pos hc, Sess.read_setF_eq, setF_fields, if_pos rfl]
                  unfold emptyLinkVal
                  rw [if_pos hma]
                · rw [if_pos hc, Sess.read_setF_eq, setF_fields, if_pos rfl]
              · exact hmvX _
            · obtain ⟨hstop, hcont⟩ := goCons_link hskipn
                (show _ = (none : Option FVal) by
                  rw [hstp]
                  dsimp only
                  rw [hcur0]
                  rw [if_neg (fun hcond => hma hcond.2)])
                rfl
              refine goStep_run hn hk hi hna hsp hlink hstop hcont hBid hBle hBfr hBcur
                ?_ ?_ ?_ ?_ hpm hnd hIH hcre hupd
              · intro r2 _
                exact linkValMatch_single hma (Or.inl rfl)
              · intro hcf _
                exact absurd (hc.symm.trans hcf) (by simp)
              · intro _ _
                refine ⟨?_, ?_⟩
                · rw [if_pos hc, Sess.read_setF_eq, setF_fields, if_pos rfl]
                  unfold emptyLinkVal
                  rw [if_neg hma]
                · rw [if_pos hc, Sess.read_setF_eq, setF_fields, if_pos rfl]
              · exact hmvX _
          · have hcf : cp = false := by
              revert hc
              cases cp
              · intro _; rfl
              · intro hc; exact absurd rfl hc
            have hBeq : (if cp = true then sess.setF 0 prop (emptyLinkVal a.type a.dir)
                else sess) = sess := by rw [if_neg hc]
            have hcurS : linkFieldWFB s now a ((sess.read 0).fields prop) = true :=
              hupd hcf prop a (List.mem_cons_self _ _)
            by_cases hma : a.type = LinkType.hasMany ∧ a.dir = LinkDir.owns
            · obtain ⟨l, hleq, hres⟩ := linkFieldWFB_many hma hcurS
              obtain ⟨hstop, hcont⟩ := goCons_link hskipn
                (show _ = some (FVal.arr l) by
                  rw [hstp]
                  dsimp only
                  rw [hleq]
                  rw [if_neg (fun hcond => absurd hcond.1 (by simp [jsFalsy]))])
                rfl
              refine goStep_run hn hk hi hna hsp hlink hstop hcont hBid hBle hBfr hBcur
                ?_ ?_ ?_ ?_ hpm hnd hIH hcre hupd
              · intro r2 hER
                exact linkValMatch_many hma.1 hma.2 ⟨l, rfl, ensureRefs_false_arr hER⟩
              · intro _ _
                rw [hBeq]
                exact ⟨hleq.symm, rfl⟩
              · intro hcc _
                exact absurd hcc hc
              · exact hmvX _
            · rcases linkFieldWFB_single hma hcurS with hcn | ⟨rr, hcr, hrne, hrres⟩
              · obtain ⟨hstop, hcont⟩ := goCons_link hskipn
                  (show _ = (none : Option FVal) by
                    rw [hstp]
                    dsimp only
                    rw [hcn]
                    rw [if_neg (fun hcond => hma hcond.2)])
                  rfl
                refine goStep_run hn hk hi hna hsp hlink hstop hcont hBid hBle hBfr hBcur
                  ?_ ?_ ?_ ?_ hpm hnd hIH hcre hupd
                · intro r2 _
                  exact linkValMatch_single hma (Or.inl rfl)
                · intro _ _
                  rw [hBeq]
                  exact ⟨hcn.symm, rfl⟩
                · intro hcc _
                  exact absurd hcc hc
                · exact hmvX _
              · obtain ⟨hstop, hcont⟩ := goCons_link hskipn
                  (show _ = some (FVal.str rr) by
                    rw [hstp]
                    dsimp only
                    rw [hcr]
                    rw [if_neg (fun hcond => hma hcond.2)])
                  rfl
                refine goStep_run hn hk hi hna hsp hlink hstop hcont hBid hBle hBfr hBcur
                  ?_ ?_ ?_ ?_ hpm hnd hIH hcre hupd
                · intro r2 _
                  exact linkValMatch_single hma (Or.inr ⟨rr, rfl, fun _ => hrres⟩)
                · intro _ _
                  rw [hBeq]
                  exact ⟨hcr.symm, rfl⟩
                · intro hcc _
                  exact absurd hcc hc
                · exact hmvX _

/-- `_updateLinkProperties` on a well-formed store: it does not throw,
preserves the working instance's id, restores omitted linked properties in
update mode when no reject fired, and flags the reject whenever a supplied
link value fails the reference check. -/
theorem updateLinkProperties_spec {s : MemoryDatastore} {now : Int} {model : String}
    {st : UState} {cp : Bool} {meth : String} {sess : Sess}
    (hk : storeKeysWFB s = true) (hi : storeIntegrityB s now = true) (hna : noAliases s)
    (hsp : schemaPairedWFB s = true)
    (hstate : stateLinkWFB (s.getModelTemplate model) st = true)
    (hn : 0 < sess.next)
    (hnd : nodupKeysB (s.getModelTemplate model) = true)
    (hclean : templateAttrsCleanB (s.getModelTemplate model) = true)
    (hcre : cp = true → ∀ q bq, (q, PropVal.link bq) ∈ s.getModelTemplate model →
      (sess.read 0).fields q = none)
    (hupd : cp = false → ∀ q bq, (q, PropVal.link bq) ∈ s.getModelTemplate model →
      linkFieldWFB s now bq ((sess.read 0).fields q) = true) :
    ∃ sess2 b r, s.updateLinkProperties now model 0 st cp meth sess = .ok (sess2, b, r) ∧
      (sess2.read 0).id = (sess.read 0).id ∧
      sess.next ≤ sess2.next ∧
      (∀ g, (∀ pv, (g, pv) ∈ s.getModelTemplate model → g = "meta" ∨
        searchLinked (propValString pv) = false) →
        (sess2.read 0).fields g = (sess.read 0).fields g) ∧
      (b = false → cp = false → ∀ q bq, (q, PropVal.link bq) ∈ s.getModelTemplate model →
        q ≠ "meta" → st.fields q = none →
        (sess2.read 0).fields q = (sess.read 0).fields q) ∧
      (b = false → cp = true → ∀ q bq, (q, PropVal.link bq) ∈ s.getModelTemplate model →
        q ≠ "meta" → st.fields q = none →
        (sess2.read 0).fields q = emptyLinkVal bq.type bq.dir) ∧
      ((∃ q bq v, (q, PropVal.link bq) ∈ s.getModelTemplate model ∧ q ≠ "meta" ∧
        st.fields q = some v ∧
        (s.ensureReferencesExist now bq.otherModel (createEffValue bq v) meth).1 = true) →
        b = true) := by
  have htype : ∀ p ∈ s.getModelTemplate model,
      getIn (s.getModelTemplate model) p.1 = some p.2 := by
    intro p hp
    obtain ⟨p1, p2⟩ := p
    exact getIn_eq_some_of_mem (keysNodup_of_nodupKeysB hnd) hp
  obtain ⟨sess2, b, r, heq, hid, hle, hR1, hR2, hR2c, hR3⟩ :=
    updateLinkPropsGo_spec hk hi hna hsp hstate (s.getModelTemplate model)
      (sess.watchModel (some 0) model)
      (by rw [Sess.next_watch]; exact hn) hnd htype hclean
      (fun hc q bq hq => by rw [Sess.read_watch]; exact hcre hc q bq hq)
      (fun hc q bq hq => by rw [Sess.read_watch]; exact hupd hc q bq hq)
  refine ⟨sess2, b, r, heq, ?_, ?_, ?_, ?_, ?_, hR3⟩
  · rw [hid, Sess.read_watch]
  · rw [← Sess.next_watch sess (some 0) model]
    exact hle
  · intro g hg
    rw [hR1 g hg, Sess.read_watch]
  · intro hb hcp q bq hq hqm hqn
    rw [hR2 hb hcp q bq hq hqm hqn, Sess.read_watch]
  · intro hb hcp q bq hq hqm hqn
    exact hR2c hb hcp q bq hq hqm hqn

/-- C4: `create` rejects when no state is given, when the state carries an
id, and when a supplied link value fails the reference-existence check; in
every rejection case the returned store is exactly the original store (the
all-or-nothing guarantee). -/
theorem c4_create_rejects_and_is_atomic
    {s : MemoryDatastore} {now : Int} {freshId model : String}
    (hm : s.hasModel model = true)
    (hk : storeKeysWFB s = true) (hi : storeIntegrityB s now = true)
    (hna : noAliases s) (hsp : schemaPairedWFB s = true)
    (hnd : nodupKeysB (s.getModelTemplate model) = true)
    (hclean : templateAttrsCleanB (s.getModelTemplate model) = true) :
    (s.create now freshId model none
      = (s, Outcome.reject (ERROR_NO_STATE_GIVEN "create"))) ∧
    (∀ st : UState, jsTruthyId st.id = true →
      s.create now freshId model (some st)
        = (s, Outcome.reject ERROR_CANNOT_CREATE_WITH_ID)) ∧
    (∀ st : UState, jsTruthyId st.id = false →
      stateLinkWFB (s.getModelTemplate model) st = true →
      (∃ q bq v, (q, PropVal.link bq) ∈ s.getModelTemplate model ∧ q ≠ "meta" ∧
        st.fields q = some v ∧
        (s.ensureReferencesExist now bq.otherModel (createEffValue bq v) "create").1
          = true) →
      ∃ msg, s.create now freshId model (some st) = (s, Outcome.reject msg)) ∧
    (∀ st0 s2 msg, s.create now freshId model st0 = (s2, Outcome.reject msg) → s2 = s) := by
  refine ⟨?_, ?_, ?_, ?_⟩
  · unfold MemoryDatastore.create
    rw [if_neg (not_not_intro hm)]
  · intro st hid
    unfold MemoryDatastore.create
    rw [if_neg (not_not_intro hm)]
    dsimp only
    rw [if_pos hid]
  · intro st hid hstate hmiss
    have hcre0 : ∀ q bq, (q, PropVal.link bq) ∈ s.getModelTemplate model →
        (s.updateSimpleProps model ⟨freshId, emptyFields⟩ st).fields q = none := by
      intro q bq hq
      unfold MemoryDatastore.updateSimpleProps
      rw [foldSimple_link_none st (s.getModelTemplate model) ⟨freshId, emptyFields⟩ hnd hq]
      rfl
    obtain ⟨sess2, b, r, heq, _, _, _, _, _, hR3⟩ :=
      @updateLinkProperties_spec s now model st true "create"
        ⟨fun _ => s.updateSimpleProps model ⟨freshId, emptyFields⟩ st, 1, []⟩
        hk hi hna hsp hstate Nat.one_pos hnd hclean
        (fun _ q bq hq => hcre0 q bq hq)
        (fun hcf => absurd hcf (by simp))
    have hb := hR3 hmiss
    subst hb
    refine ⟨Option.getD r "", ?_⟩
    unfold MemoryDatastore.create
    rw [if_neg (not_not_intro hm)]
    dsimp only
    rw [if_neg (by rw [hid]; simp)]
    rw [heq]
    rfl
  · intro st0 s2 msg h
    unfold MemoryDatastore.create at h
    rw [if_neg (not_not_intro hm)] at h
    cases st0 with
    | none =>
      dsimp only at h
      injection h with h1 _
      exact h1.symm
    | some st1 =>
      dsimp only at h
      by_cases hid : jsTruthyId st1.id = true
      · rw [if_pos hid] at h
        injection h with h1 _
        exact h1.symm
      · rw [if_neg hid] at h
        cases hul : s.updateLinkProperties now model 0 st1 true "create"
            ⟨fun _ => s.updateSimpleProps model ⟨freshId, emptyFields⟩ st1, 1, []⟩ with
        | error e =>
          rw [hul] at h
          dsimp only at h
          injection h with _ h2
          exact absurd h2 (by simp)
        | ok tr =>
          obtain ⟨sessf, wr, rr⟩ := tr
          rw [hul] at h
          dsimp only at h
          cases wr with
          | true =>
            rw [if_pos rfl] at h
            injection h with h1 _
            exact h1.symm
          | false =>
            rw [if_neg (by simp)] at h
            injection h with _ h2
            exact absurd h2 (by simp)

theorem c4_create_witness :
    (c2s1.create 0 "x1" "person" none
      = (c2s1, Outcome.reject (ERROR_NO_STATE_GIVEN "create"))) ∧
    (∃ msg, c2s1.create 0 "x1" "person"
      (some (ustate [("bike", some (FVal.str "zz"))])) = (c2s1, Outcome.reject msg)) :=
  have H := @c4_create_rejects_and_is_atomic c2s1 0 "x1" "person"
    (by decide) (by decide) (by decide) (fun m k => rfl) (by decide) (by decide) (by decide)
  ⟨H.1, H.2.2.1 (ustate [("bike", some (FVal.str "zz"))]) (by decide) (by decide)
    ⟨"bike", ⟨LinkType.hasOne, LinkDir.owns, "bicycle", some "owner"⟩,
      some (FVal.str "zz"), by decide, by decide, rfl, by decide⟩⟩

/-- A single simple-property step never changes a field the state omits. -/
theorem simplePropStep_omitted (st : UState) (q : String) (hq : st.fields q = none)
    (i : Inst) (pp : String × PropVal) :
    (simplePropStep st i pp).fields q = i.fields q := by
  by_cases hqp : q = pp.1
  · subst hqp
    by_cases hsk : pp.1 = "meta" ∨ searchLinked (propValString pp.2) = true
    · rw [simplePropStep_skip st pp hsk i]
    · by_cases hkp : ((i.fields pp.1).isSome && (st.fields pp.1).isNone) = true
      · rw [simplePropStep_keep st pp hsk i hkp]
      · rw [simplePropStep_assign st pp hsk i hkp, setF_fields, if_pos rfl]
        have hin : i.fields pp.1 = none := by
          cases hin : i.fields pp.1 with
          | none => rfl
          | some w =>
            exfalso
            apply hkp
            rw [hin, hq]
            rfl
        rw [hin]
        unfold UState.val
        rw [hq]
  · exact simplePropStep_fields_ne st i pp q hqp

/-- The simple-property pass never changes a field the state omits. -/
theorem foldSimple_omitted (st : UState) (q : String) (hq : st.fields q = none) :
    ∀ (t : Template) (i : Inst),
      (t.foldl (simplePropStep st) i).fields q = i.fields q := by
  intro t
  induction t with
  | nil => intro i; rfl
  | cons p rest ih =>
    intro i
    rw [List.foldl_cons, ih, simplePropStep_omitted st q hq]

/-- The simple-property pass never changes the instance id. -/
theorem foldSimple_id (st : UState) :
    ∀ (t : Template) (i : Inst), (t.foldl (simplePropStep st) i).id = i.id := by
  intro t
  induction t with
  | nil => intro i; rfl
  | cons p rest ih =>
    intro i
    rw [List.foldl_cons, ih]
    unfold simplePropStep
    repeat' split
    · rfl
    · rfl
    · rfl

theorem applyPatch_meta (s : MemoryDatastore) (p : Patch) :
    (applyPatch s p).meta = s.meta := by
  unfold applyPatch
  split
  · rfl
  · split
    · rfl
    · dsimp only
      split
      · split
        · rfl
        · split
          · rfl
          · rfl
      · rfl

theorem applyPatch_ttlCache (s : MemoryDatastore) (p : Patch) :
    (applyPatch s p).ttlCache = s.ttlCache := by
  unfold applyPatch
  split
  · rfl
  · split
    · rfl
    · dsimp only
      split
      · split
        · rfl
        · split
          · rfl
          · rfl
      · rfl

theorem applyPatch_ttl (s : MemoryDatastore) (p : Patch) :
    (applyPatch s p).ttl = s.ttl := by
  unfold applyPatch
  split
  · rfl
  · split
    · rfl
    · dsimp only
      split
      · split
        · rfl
        · split
          · rfl
          · rfl
      · rfl

theorem applyPatch_data_isSome (s : MemoryDatastore) (p : Patch) (model : String)
    (h : (getIn s.data model).isSome = true) :
    (getIn (applyPatch s p).data model).isSome = true := by
  have hset : ∀ (d : List (String × IdMap)) (k : String) (v : IdMap),
      (getIn d model).isSome = true → (getIn (setIn d k v) model).isSome = true := by
    intro d k v hd
    by_cases hk : k = model
    · subst hk
      rw [getIn_setIn_self]
      rfl
    · rw [getIn_setIn_ne d k model v (fun he => hk he.symm)]
      exact hd
  unfold applyPatch
  split
  · exact h
  · split
    · exact h
    · dsimp only
      split
      · split
        · exact hset _ _ _ h
        · split
          · exact hset _ _ _ h
          · exact hset _ _ _ h
      · exact hset _ _ _ h

theorem applyPatches_meta : ∀ (ps : List Patch) (s : MemoryDatastore),
    (applyPatches s ps).meta = s.meta := by
  intro ps
  induction ps with
  | nil => intro s; rfl
  | cons p rest ih =>
    intro s
    exact (ih (applyPatch s p)).trans (applyPatch_meta s p)

theorem applyPatches_ttlCache : ∀ (ps : List Patch) (s : MemoryDatastore),
    (applyPatches s ps).ttlCache = s.ttlCache := by
  intro ps
  induction ps with
  | nil => intro s; rfl
  | cons p rest ih =>
    intro s
    exact (ih (applyPatch s p)).trans (applyPatch_ttlCache s p)

theorem applyPatches_ttl : ∀ (ps : List Patch) (s : MemoryDatastore),
    (applyPatches s ps).ttl = s.ttl := by
  intro ps
  induction ps with
  | nil => intro s; rfl
  | cons p rest ih =>
    intro s
    exact (ih (applyPatch s p)).trans (applyPatch_ttl s p)

theorem applyPatches_data_isSome : ∀ (ps : List Patch) (s : MemoryDatastore) (model : String),
    (getIn s.data model).isSome = true →
    (getIn (applyPatches s ps).data model).isSome = true := by
  intro ps
  induction ps with
  | nil => intro s model h; exact h
  | cons p rest ih =>
    intro s model h
    exact ih (applyPatch s p) model (applyPatch_data_isSome s p model h)

/-- C9: when `update` resolves, every field the state omits keeps the value
it had on the stored instance — on the resolved object and on the entry the
store now holds under the instance's id. -/
theorem c9_update_retains_omitted_fields
    {s s2 : MemoryDatastore} {now : Int} {model : String} {st : UState} {e e0 : Inst}
    (hk : storeKeysWFB s = true) (hi : storeIntegrityB s now = true) (hna : noAliases s)
    (hsp : schemaPairedWFB s = true)
    (hstate : stateLinkWFB (s.getModelTemplate model) st = true)
    (hnd : nodupKeysB (s.getModelTemplate model) = true)
    (hclean : templateAttrsCleanB (s.getModelTemplate model) = true)
    (hgd : s.getData now model st.id = some e0)
    (hu : s.update now model (some st) = (s2, Outcome.resolve e)) :
    (∀ q, st.fields q = none → e.fields q = e0.fields q) ∧
    s2.getData now model st.id = some e := by
  unfold MemoryDatastore.update at hu
  by_cases hm : s.hasModel model = true
  case neg =>
    rw [if_pos hm] at hu
    injection hu with _ h2
    exact absurd h2 (by simp)
  rw [if_neg (not_not_intro hm)] at hu
  dsimp only at hu
  by_cases hid : jsTruthyId st.id = true
  case neg =>
    rw [if_pos hid] at hu
    injection hu with _ h2
    exact absurd h2 (by simp)
  rw [if_neg (not_not_intro hid)] at hu
  rw [hgd] at hu
  dsimp only at hu
  obtain ⟨id0, hido⟩ : ∃ id0, st.id = some id0 := by
    cases hio : st.id with
    | none =>
      rw [hio] at hid
      simp [jsTruthyId] at hid
    | some x => exact ⟨x, rfl⟩
  have hgd2 : s.getData now model (some id0) = some e0 := by rw [← hido]; exact hgd
  have hTU : ∀ q, st.fields q = none →
      (s.updateSimpleProps model e0 st).fields q = e0.fields q := by
    intro q hq
    unfold MemoryDatastore.updateSimpleProps
    exact foldSimple_omitted st q hq _ e0
  obtain ⟨sessf, b, r, heq, hidf, _, hR1, hR2, _, hR3⟩ :=
    @updateLinkProperties_spec s now model st false "update"
      ⟨fun _ => s.updateSimpleProps model e0 st, 1, []⟩
      hk hi hna hsp hstate Nat.one_pos hnd hclean
      (fun hc => absurd hc (by simp))
      (fun _ q bq hq => by
        show linkFieldWFB s now bq ((s.updateSimpleProps model e0 st).fields q) = true
        unfold MemoryDatastore.updateSimpleProps
        rw [foldSimple_link_none st _ e0 hnd hq]
        exact (getData_wf hk hi hna hgd2).2 q bq
          (getIn_eq_some_of_mem (keysNodup_of_nodupKeysB hnd) hq))
  rw [heq] at hu
  dsimp only at hu
  cases b with
  | true =>
    rw [if_pos rfl] at hu
    injection hu with _ h2
    exact absurd h2 (by simp)
  | false =>
    rw [if_neg (by simp)] at hu
    injection hu with hu1 hu2
    injection hu2 with hE
    have heid : e.id = id0 := by
      rw [← hE, hidf]
      show (s.updateSimpleProps model e0 st).id = id0
      unfold MemoryDatastore.updateSimpleProps
      rw [foldSimple_id]
      exact (getData_wf hk hi hna hgd2).1
    constructor
    · intro q hq
      rw [← hE]
      by_cases hall : ∀ pv, (q, pv) ∈ s.getModelTemplate model →
          q = "meta" ∨ searchLinked (propValString pv) = false
      · rw [hR1 q hall]
        exact hTU q hq
      · push_neg at hall
        obtain ⟨pv, hmem, hq1, hq2⟩ := hall
        cases pv with
        | attr ty =>
          exfalso
          simp only [templateAttrsCleanB, List.all_eq_true] at hclean
          have h3 := hclean (q, PropVal.attr ty) hmem
          dsimp only at h3
          rw [show propValString (PropVal.attr ty) = ty from rfl] at hq2
          cases hsl : searchLinked ty with
          | false => exact hq2 hsl
          | true =>
            rw [hsl] at h3
            exact absurd h3 (by simp)
        | link bq =>
          rw [hR2 rfl rfl q bq hmem hq1 hq]
          exact hTU q hq
    · -- the updated entry is stored back under the instance's id
      rw [hido]
      rw [← hu1, hE]
      -- extract that the original lookup was not expired and found the map
      simp only [MemoryDatastore.getData] at hgd2
      rw [hna model id0] at hgd2
      simp only [jsOr] at hgd2
      split at hgd2
      · exact absurd hgd2 (by simp)
      · rename_i hexp
        cases him0 : getIn s.data model with
        | none =>
          rw [him0] at hgd2
          simp [getIn] at hgd2
        | some im0 =>
          have hpres : (getIn (applyPatches s (getPatches s sessf)).data model).isSome
              = true :=
            applyPatches_data_isSome (getPatches s sessf) s model (by rw [him0]; rfl)
          cases him1 : getIn (applyPatches s (getPatches s sessf)).data model with
          | none =>
            rw [him1] at hpres
            exact absurd hpres (by simp)
          | some im1 =>
            rw [setData_of_map _ model e im1 him1]
            simp only [MemoryDatastore.getData]
            rw [applyPatches_meta (getPatches s sessf) s, hna model id0]
            simp only [jsOr]
            rw [applyPatches_ttlCache (getPatches s sessf) s,
              applyPatches_ttl (getPatches s sessf) s]
            rw [if_neg hexp]
            rw [getIn_setIn_self]
            simp only [Option.getD]
            rw [heid]
            exact getIn_setIn_self im1 id0 e

theorem c9_witness :
    (∀ q, c9st.fields q = none → c9inst.fields q = c9e0.fields q) ∧
    c9run.1.getData 0 "person" c9st.id = some c9inst :=
  @c9_update_retains_omitted_fields c2s4 c9run.1 0 "person" c9st c9inst c9e0
    (by decide) (by decide) (fun m k => rfl) (by decide)
    (by decide) (by decide) (by decide) rfl rfl

theorem getIn_delIn_self {α : Type} : ∀ {m : List (String × α)} (k : String),
    nodupKeysB m = true → getIn (delIn m k) k = none := by
  intro m
  induction m with
  | nil => intro k _; rfl
  | cons p rest ih =>
    intro k hnd
    obtain ⟨pk, pv⟩ := p
    obtain ⟨hpn, hndr⟩ := nodupKeysB_head hnd
    unfold delIn
    by_cases hk : pk = k
    · rw [if_pos hk]
      subst hk
      cases hg : getIn rest pk with
      | none => rfl
      | some v =>
        exact absurd (List.mem_map.mpr ⟨(pk, v), mem_of_getIn_eq_some hg, rfl⟩) hpn
    · rw [if_neg hk, getIn_cons, if_neg hk]
      exact ih k hndr

theorem nodupKeysB_of_store {s : MemoryDatastore} {model : String} {im : IdMap}
    (hkw : storeKeysWFB s = true) (him : getIn s.data model = some im) :
    nodupKeysB im = true := by
  simp only [storeKeysWFB, List.all_eq_true, Bool.and_eq_true] at hkw
  exact (hkw (model, im) (mem_of_getIn_eq_some him)).1

/-- A one-hop `find` by model and id resolves through `_getData`. -/
theorem find_single_by_id {X : MemoryDatastore} {now : Int} {model U : String} {d : Inst}
    (hm : X.hasModel model = true) (hmne : model ≠ "")
    (hg : X.getData now model (some U) = some d) :
    X.find now [⟨some model, none, some U⟩] = .single (some d) := by
  have hv : findValidateGo X [⟨some model, none, some U⟩] none = .ok none := by
    simp [findValidateGo, jsTruthyStr, hmne, hm]
  have hl : findLoop X now [⟨some model, none, some U⟩] true "undefined" false none []
      = .ok (false, some d, []) := by
    simp [findLoop, hg]
  unfold MemoryDatastore.find
  rw [hv]
  dsimp only
  rw [hl]
  dsimp only
  rw [if_neg (by simp)]
  rfl

/-- A `delete` keyed by an id that `_getData` resolves goes through. -/
theorem delete_resolves_by_id {X : MemoryDatastore} {now : Int} {model U : String} {d : Inst}
    (hm : X.hasModel model = true) (hU : U ≠ "")
    (hg : X.getData now model (some U) = some d) :
    (X.delete now model (some (ustateId U []))).2 = .resolve () := by
  unfold MemoryDatastore.delete
  rw [if_neg (not_not_intro hm)]
  dsimp only
  rw [if_neg (not_not_intro (show jsTruthyId (ustateId U []).id = true from by
    simp [ustateId, jsTruthyId, hU]))]
  rw [show (ustateId U []).id = some U from rfl]
  rw [hg]

/-- C5: a committed reconciliation that renames temporary id `U` to server
id `S` stores the confirmed instance under `S`, removes the `U` entry,
records the alias `U ↦ S`, and every subsequent lookup through `_getData`
(`find`, `delete`) using `U` resolves to the instance now stored under
`S`. -/
theorem c5_commit_alias_reconciliation
    {s : MemoryDatastore} {now : Int} {model U S : String} {d : Inst} {im : IdMap}
    (hup : s.hasUpstream = true)
    (hm : s.hasModel model = true)
    (hmne : model ≠ "")
    (hkw : storeKeysWFB s = true)
    (him : getIn s.data model = some im)
    (hd : d.id = S)
    (hU : U ≠ "") (hS : S ≠ "") (hUS : U ≠ S)
    (hTtl : s.ttlCache model S = none) :
    (s.commit (.accept (some [⟨model, some U, d⟩]))).2 = .resolve () ∧
    (∃ im2, getIn (s.commit (.accept (some [⟨model, some U, d⟩]))).1.data model = some im2 ∧
      getIn im2 S = some d ∧ getIn im2 U = none) ∧
    (s.commit (.accept (some [⟨model, some U, d⟩]))).1.meta model U = some S ∧
    (s.commit (.accept (some [⟨model, some U, d⟩]))).1.getData now model (some U) = some d ∧
    (s.commit (.accept (some [⟨model, some U, d⟩]))).1.find now
      [⟨some model, none, some U⟩] = .single (some d) ∧
    ((s.commit (.accept (some [⟨model, some U, d⟩]))).1.delete now model
      (some (ustateId U []))).2 = .resolve () := by
  have hAR : applyRecon s ⟨model, some U, d⟩ = { s with
      meta := fun m k => if m = model ∧ k = U then some S else s.meta m k,
      data := setIn (setIn s.data model (delIn im U)) model (setIn (delIn im U) S d) } := by
    unfold applyRecon
    dsimp only
    rw [hd]
    rw [if_pos ⟨hU, hUS⟩]
    rw [him]
    dsimp only
    rw [getIn_setIn_self]
  have hC : s.commit (.accept (some [⟨model, some U, d⟩]))
      = ({ s with
            meta := fun m k => if m = model ∧ k = U then some S else s.meta m k,
            data := setIn (setIn s.data model (delIn im U)) model (setIn (delIn im U) S d),
            snapshot := setIn (setIn s.data model (delIn im U)) model
              (setIn (delIn im U) S d),
            shared := fun _ _ => false }, .resolve ()) := by
    unfold MemoryDatastore.commit
    rw [if_neg (not_not_intro hup)]
    dsimp only
    rw [List.foldl_cons, List.foldl_nil, hAR]
  have hndim : nodupKeysB im = true := nodupKeysB_of_store hkw him
  have hgetU : (s.commit (.accept (some [⟨model, some U, d⟩]))).1.getData now model (some U)
      = some d := by
    rw [hC]
    simp only [MemoryDatastore.getData]
    rw [show (if True ∧ True then some S else s.meta model U) = some S from rfl]
    simp only [jsOr]
    rw [if_neg hS]
    rw [hTtl]
    rw [if_neg (by cases s.ttl <;> simp)]
    rw [getIn_setIn_self]
    simp only [Option.getD]
    rw [getIn_setIn_self]
  have hmC : (s.commit (.accept (some [⟨model, some U, d⟩]))).1.hasModel model = true := by
    rw [hC]
    exact hm
  refine ⟨by rw [hC], ⟨setIn (delIn im U) S d, ?_, ?_, ?_⟩, ?_, hgetU,
    find_single_by_id hmC hmne hgetU, delete_resolves_by_id hmC hU hgetU⟩
  · rw [hC]
    dsimp only
    rw [getIn_setIn_self]
  · rw [getIn_setIn_self]
  · rw [getIn_setIn_ne (delIn im U) S U d hUS]
    exact getIn_delIn_self U hndim
  · rw [hC]
    dsimp only
    rw [if_pos ⟨rfl, rfl⟩]

theorem c5_witness :
    (c3t0.commit (.accept (some [⟨"pet", some "tmp1", (⟨"S1", emptyFields⟩ : Inst)⟩]))).1.getData
      0 "pet" (some "tmp1") = some (⟨"S1", emptyFields⟩ : Inst) ∧
    (c3t0.commit (.accept (some [⟨"pet", some "tmp1", (⟨"S1", emptyFields⟩ : Inst)⟩]))).1.meta
      "pet" "tmp1" = some "S1" :=
  have H := @c5_commit_alias_reconciliation c3t0 0 "pet" "tmp1" "S1" ⟨"S1", emptyFields⟩ []
    rfl (by decide) (by decide) (by decide) rfl rfl (by decide) (by decide) (by decide) rfl
  ⟨H.2.2.2.1, H.2.2.1⟩

/-- C10: with a numeric ttl, an upstream-merged instance (whose fetch time
`mergeEntry` records in the ttl cache) is treated as absent by `_getData`
once more than `ttl` has elapsed since the fetch — a one-hop `find` then
falls through to the upstream store — while it is still served before the
deadline, and entries without a fetch timestamp (locally created instances;
`create` never writes the ttl cache) never expire. -/
theorem c10_ttl_expiry {now : Int} :
    (∀ (X : MemoryDatastore) (model k : String) (f t : Int),
      X.meta model k = none → X.ttl = some t → X.ttlCache model k = some f →
      f ≠ 0 → f < now - t → X.getData now model (some k) = none) ∧
    (∀ (X : MemoryDatastore) (model k : String) (f t : Int),
      X.meta model k = none → X.ttl = some t → X.ttlCache model k = some f →
      ¬ f < now - t →
      X.getData now model (some k) = getIn (Option.getD (getIn X.data model) []) k) ∧
    (∀ (s0 : MemoryDatastore) (now0 : Int) (model : String) (r : Inst)
      (s1 : MemoryDatastore), mergeEntry s0 now0 model r = .ok s1 →
      s1.ttlCache model r.id = some now0 ∧
      ∃ im2, getIn s1.data model = some im2 ∧ getIn im2 r.id = some r) ∧
    (∀ (X : MemoryDatastore) (model k : String),
      X.meta model k = none → X.ttlCache model k = none →
      X.getData now model (some k) = getIn (Option.getD (getIn X.data model) []) k) ∧
    (∀ (s : MemoryDatastore) (now2 : Int) (fid model : String) (st : Option UState),
      (s.create now2 fid model st).1.ttlCache = s.ttlCache) ∧
    (∀ (X : MemoryDatastore) (model k : String) (f t : Int),
      X.hasModel model = true → model ≠ "" → X.hasUpstream = true →
      X.meta model k = none → X.ttl = some t → X.ttlCache model k = some f →
      f ≠ 0 → f < now - t →
      X.find now [⟨some model, none, some k⟩] = .wentUpstream) := by
  have hExp : ∀ (X : MemoryDatastore) (model k : String) (f t : Int),
      X.meta model k = none → X.ttl = some t → X.ttlCache model k = some f →
      f ≠ 0 → f < now - t → X.getData now model (some k) = none := by
    intro X model k f t hmeta httl hc hf0 hlt
    simp only [MemoryDatastore.getData]
    rw [hmeta]
    simp only [jsOr]
    rw [hc, httl]
    rw [if_pos (show (f != 0 && decide (f < now - t)) = true from by
      simp [hf0, hlt])]
  refine ⟨hExp, ?_, ?_, ?_, ?_, ?_⟩
  · intro X model k f t hmeta httl hc hlt
    simp only [MemoryDatastore.getData]
    rw [hmeta]
    simp only [jsOr]
    rw [hc, httl]
    rw [if_neg (show ¬ (f != 0 && decide (f < now - t)) = true from by
      simp [hlt])]
  · intro s0 now0 model r s1 h
    unfold mergeEntry at h
    cases him : getIn s0.data model with
    | none =>
      rw [him] at h
      exact absurd h (by simp)
    | some im =>
      rw [him] at h
      dsimp only at h
      have hTC : s1.ttlCache model r.id = some now0 ∧
          s1.data = setIn s0.data model (setIn im r.id r) := by
        split at h
        · injection h with h1
          rw [← h1]
          exact ⟨by dsimp only; rw [if_pos ⟨rfl, rfl⟩], rfl⟩
        · injection h with h1
          rw [← h1]
          exact ⟨by dsimp only; rw [if_pos ⟨rfl, rfl⟩], rfl⟩
      refine ⟨hTC.1, setIn im r.id r, ?_, getIn_setIn_self im r.id r⟩
      rw [hTC.2]
      exact getIn_setIn_self _ _ _
  · intro X model k hmeta hc
    simp only [MemoryDatastore.getData]
    rw [hmeta]
    simp only [jsOr]
    rw [hc]
    rw [if_neg (by cases X.ttl <;> simp)]
  · intro s now2 fid model st
    unfold MemoryDatastore.create
    split
    · rfl
    · cases st with
      | none => rfl
      | some st1 =>
        dsimp only
        split
        · rfl
        · split
          · rfl
          · split
            · rfl
            · rw [applyPatches_ttlCache, setData_ttlCache]
  · intro X model k f t hm hmne hup hmeta httl hc hf0 hlt
    have hg := hExp X model k f t hmeta httl hc hf0 hlt
    have hv : findValidateGo X [⟨some model, none, some k⟩] none = .ok none := by
      simp [findValidateGo, jsTruthyStr, hmne, hm]
    have hl : findLoop X now [⟨some model, none, some k⟩] true "undefined" false none []
        = .ok (false, none, []) := by
      simp [findLoop, hg]
    unfold MemoryDatastore.find
    rw [hv]
    dsimp only
    rw [hl]
    dsimp only
    rw [if_pos ⟨hup, rfl, rfl⟩]

theorem c10_witness :
    c10s1.getData 200 "pet" (some "p9") = none ∧
    c10s1.getData 120 "pet" (some "p9")
      = getIn (Option.getD (getIn c10s1.data "pet") []) "p9" ∧
    c10s1.find 200 [⟨some "pet", none, some "p9"⟩] = .wentUpstream ∧
    (c10s0.create 200 "z1" "pet" (some (ustate []))).1.ttlCache = c10s0.ttlCache :=
  have H1 := @c10_ttl_expiry 200
  have H2 := @c10_ttl_expiry 120
  ⟨H1.1 c10s1 "pet" "p9" 50 100 rfl rfl rfl (by decide) (by decide),
   H2.2.1 c10s1 "pet" "p9" 50 100 rfl rfl rfl (by decide),
   H1.2.2.2.2.2 c10s1 "pet" "p9" 50 100 (by decide) (by decide) rfl rfl rfl rfl
     (by decide) (by decide),
   H1.2.2.2.2.1 c10s0 200 "z1" "pet" (some (ustate []))⟩

theorem swg_refl (s : MemoryDatastore) (now : Int) (sess : Sess) :
    SessWatchGood s now sess sess :=
  ⟨[], (List.append_nil _).symm, fun w hw => absurd hw (List.not_mem_nil _)⟩

theorem swg_of_watchers_eq {s : MemoryDatastore} {now : Int} {s1 s2 : Sess}
    (h : s2.watchers = s1.watchers) : SessWatchGood s now s1 s2 :=
  ⟨[], by rw [h, List.append_nil], fun w hw => absurd hw (List.not_mem_nil _)⟩

theorem swg_trans {s : MemoryDatastore} {now : Int} {s1 s2 s3 : Sess}
    (h1 : SessWatchGood s now s1 s2) (h2 : SessWatchGood s now s2 s3) :
    SessWatchGood s now s1 s3 := by
  obtain ⟨d1, he1, hg1⟩ := h1
  obtain ⟨d2, he2, hg2⟩ := h2
  refine ⟨d1 ++ d2, by rw [he2, he1, List.append_assoc], ?_⟩
  intro w hw
  rcases List.mem_append.mp hw with h | h
  · exact hg1 w h
  · exact hg2 w h

theorem swg_setF (s : MemoryDatastore) (now : Int) (sess : Sess) (i : Nat) (f : String)
    (v : Option FVal) : SessWatchGood s now sess (sess.setF i f v) :=
  swg_of_watchers_eq rfl

theorem swg_writeFOpt {s : MemoryDatastore} {now : Int} {sess sess2 : Sess}
    {obj : Option Nat} {f : String} {v : Option FVal}
    (h : writeFOpt sess obj f v = .ok sess2) : SessWatchGood s now sess sess2 := by
  cases obj with
  | none => exact absurd h (by simp [writeFOpt])
  | some i =>
    simp only [writeFOpt, Except.ok.injEq] at h
    rw [← h]
    exact swg_setF s now sess i f v

/-- Fetch-and-watch: the single way the link pass adds a watcher. -/
theorem swg_fetch {s : MemoryDatastore} {now : Int} (hk : storeKeysWFB s = true)
    (hna : noAliases s) (m : String) (k : Option String) (sess : Sess) :
    SessWatchGood s now sess
      ((getDataS s now m k sess).2.watchModel (getDataS s now m k sess).1 m) := by
  unfold getDataS
  cases k with
  | none =>
    rw [getData_none_arg]
    exact swg_refl s now sess
  | some k0 =>
    cases hg : s.getData now m (some k0) with
    | none => exact swg_refl s now sess
    | some inst =>
      dsimp only [Sess.watchModel]
      refine ⟨[⟨sess.next, m, ((sess.alloc inst).2.read sess.next).id,
        (sess.alloc inst).2.read sess.next⟩], rfl, ?_⟩
      intro w hw
      rcases List.mem_cons.mp hw with h | h
      · subst h
        dsimp only
        rw [Sess.read_alloc_new sess inst]
        rw [getData_id hk hna hg]
        rw [hg]
        rfl
      · exact absurd h (List.not_mem_nil _)

theorem writeFOpt_watchers {sess sess2 : Sess} {obj : Option Nat} {f : String}
    {v : Option FVal} (h : writeFOpt sess obj f v = .ok sess2) :
    sess2.watchers = sess.watchers := by
  cases obj with
  | none => exact absurd h (by simp [writeFOpt])
  | some i =>
    simp only [writeFOpt, Except.ok.injEq] at h
    rw [← h]
    rfl

theorem removeSingleLeaf_watchers {rootProp : String} {ri : Option Nat} {lp : Option String}
    {li : Option Nat} {s1 s2 : Sess}
    (h : removeSingleLeaf rootProp ri lp li s1 = .ok s2) : s2.watchers = s1.watchers := by
  unfold removeSingleLeaf at h
  cases lp with
  | none => exact writeFOpt_watchers h
  | some lp0 =>
    dsimp only at h
    cases hw : writeFOpt s1 li lp0 none with
    | error e =>
      rw [hw] at h
      exact absurd h (by simp)
    | ok sA =>
      rw [hw] at h
      dsimp only at h
      rw [writeFOpt_watchers h, writeFOpt_watchers hw]

theorem removeSingleRoot_watchers {rootProp : String} {ri : Option Nat} {lp : String}
    {li : Option Nat} {s1 s2 : Sess}
    (h : removeSingleRoot rootProp ri lp li s1 = .ok s2) : s2.watchers = s1.watchers := by
  unfold removeSingleRoot at h
  cases hw : writeFOpt s1 ri rootProp none with
  | error e =>
    rw [hw] at h
    exact absurd h (by simp)
  | ok sA =>
    rw [hw] at h
    dsimp only at h
    rw [writeFOpt_watchers h, writeFOpt_watchers hw]

theorem removeMultiLeaf_watchers {rootProp : String} {ri : Option Nat} {lp : Option String}
    {li0 : Option Nat} {s1 s2 : Sess}
    (h : removeMultiLeaf rootProp ri lp li0 s1 = .ok s2) : s2.watchers = s1.watchers := by
  unfold removeMultiLeaf at h
  cases ri with
  | none =>
    simp only [Except.ok.injEq] at h
    rw [← h]
  | some ri1 =>
    dsimp only at h
    cases hf : (s1.read ri1).fields rootProp with
    | none =>
      rw [hf] at h
      exact absurd h (by simp)
    | some fv =>
      cases fv with
      | str z =>
        rw [hf] at h
        exact absurd h (by simp)
      | arr l =>
        rw [hf] at h
        dsimp only at h
        cases li0 with
        | none => exact absurd h (by simp)
        | some li =>
          dsimp only at h
          have hA : (if l.contains (s1.read li).id then
              s1.setF ri1 rootProp (some (.arr (l.filter (fun e => e ≠ (s1.read li).id))))
              else s1).watchers = s1.watchers := by
            split
            · rfl
            · rfl
          cases lp with
          | none =>
            simp only [Except.ok.injEq] at h
            rw [← h]
            exact hA
          | some lp0 =>
            simp only [Except.ok.injEq] at h
            rw [← h]
            exact hA

theorem removeMultiRoot_watchers {rootProp : String} {ri : Option Nat} {lp : Option String}
    {li0 : Option Nat} {s1 s2 : Sess}
    (h : removeMultiRoot rootProp ri lp li0 s1 = .ok s2) : s2.watchers = s1.watchers := by
  unfold removeMultiRoot at h
  cases ri with
  | none =>
    dsimp only at h
    cases lp with
    | none =>
      simp only [Except.ok.injEq] at h
      rw [← h]
    | some lp0 =>
      dsimp only at h
      cases li0 with
      | none => exact absurd h (by simp)
      | some li =>
        simp only [Except.ok.injEq] at h
        rw [← h]
        rfl
  | some ri1 =>
    dsimp only at h
    cases hf : (s1.read ri1).fields rootProp with
    | none =>
      rw [hf] at h
      exact absurd h (by simp)
    | some fv =>
      cases fv with
      | str z =>
        rw [hf] at h
        exact absurd h (by simp)
      | arr l =>
        rw [hf] at h
        dsimp only at h
        cases li0 with
        | none => exact absurd h (by simp)
        | some li =>
          dsimp only at h
          cases lp with
          | none =>
            simp only [Except.ok.injEq] at h
            rw [← h]
            rfl
          | some lp0 =>
            simp only [Except.ok.injEq] at h
            rw [← h]
            rfl

theorem addSingleLeaf_swg {s : MemoryDatastore} {now : Int}
    {rootModel rootProp : String} {ri0 : Option Nat} {leafModel : String}
    {lp : Option String} {li0 : Option Nat} {sess s2 : Sess}
    (hk : storeKeysWFB s = true) (hna : noAliases s)
    (h : addSingleLeaf s now rootModel rootProp ri0 leafModel lp li0 sess = .ok s2) :
    SessWatchGood s now sess s2 := by
  unfold addSingleLeaf at h
  cases ri0 with
  | none => exact absurd h (by simp)
  | some ri =>
    dsimp only at h
    cases hstep : (if (sess.read ri).fields rootProp ≠ none then
        removeSingleLeaf rootProp (some ri) lp
          (getDataS s now leafModel (asKey ((sess.read ri).fields rootProp)) sess).1
          ((getDataS s now leafModel (asKey ((sess.read ri).fields rootProp)) sess).2.watchModel
            (getDataS s now leafModel (asKey ((sess.read ri).fields rootProp)) sess).1 leafModel)
      else .ok sess) with
    | error e =>
      rw [hstep] at h
      exact absurd h (by simp)
    | ok sessA =>
      rw [hstep] at h
      dsimp only at h
      have WA : SessWatchGood s now sess sessA := by
        split at hstep
        · exact swg_trans
            (swg_fetch hk hna leafModel (asKey ((sess.read ri).fields rootProp)) sess)
            (swg_of_watchers_eq (removeSingleLeaf_watchers hstep))
        · injection hstep with h2
          subst h2
          exact swg_refl _ _ _
      cases li0 with
      | none =>
        simp only [Except.ok.injEq] at h
        subst h
        exact swg_trans WA (swg_setF s now sessA ri rootProp none)
      | some li =>
        dsimp only at h
        cases lp with
        | none =>
          simp only [Except.ok.injEq] at h
          subst h
          exact swg_trans WA (swg_setF s now sessA ri rootProp _)
        | some lp0 =>
          dsimp only at h
          cases hstep2 : (if ¬ jsFalsy (((sessA.setF ri rootProp
                (some (.str (sessA.read li).id))).read li).fields lp0) then
              removeSingleRoot rootProp
                (getDataS s now rootModel
                  (asKey (((sessA.setF ri rootProp
                    (some (.str (sessA.read li).id))).read li).fields lp0))
                  (sessA.setF ri rootProp (some (.str (sessA.read li).id)))).1
                lp0 (some li)
                ((getDataS s now rootModel
                  (asKey (((sessA.setF ri rootProp
                    (some (.str (sessA.read li).id))).read li).fields lp0))
                  (sessA.setF ri rootProp (some (.str (sessA.read li).id)))).2.watchModel
                  (getDataS s now rootModel
                    (asKey (((sessA.setF ri rootProp
                      (some (.str (sessA.read li).id))).read li).fields lp0))
                    (sessA.setF ri rootProp (some (.str (sessA.read li).id)))).1 rootModel)
            else .ok (sessA.setF ri rootProp (some (.str (sessA.read li).id)))) with
          | error e =>
            rw [hstep2] at h
            exact absurd h (by simp)
          | ok sessC =>
            rw [hstep2] at h
            dsimp only at h
            have WB : SessWatchGood s now sessA sessC := by
              split at hstep2
              · exact swg_trans (swg_trans (swg_setF s now sessA ri rootProp _)
                  (swg_fetch hk hna rootModel _ _))
                  (swg_of_watchers_eq (removeSingleRoot_watchers hstep2))
              · injection hstep2 with h2
                subst h2
                exact swg_setF s now sessA ri rootProp _
            simp only [Except.ok.injEq] at h
            subst h
            exact swg_trans WA (swg_trans WB (swg_setF s now sessC li lp0 _))

theorem addSingleRoot_swg {s : MemoryDatastore} {now : Int}
    {rootModel rootProp : String} {ri0 : Option Nat} {leafModel : String}
    {lp : String} {li : Nat} {sess s2 : Sess}
    (hk : storeKeysWFB s = true) (hna : noAliases s)
    (h : addSingleRoot s now rootModel rootProp ri0 leafModel lp li sess = .ok s2) :
    SessWatchGood s now sess s2 := by
  unfold addSingleRoot at h
  dsimp only at h
  cases hstep : (if (sess.read li).fields lp ≠ none then
      removeSingleRoot rootProp
        (getDataS s now rootModel (asKey ((sess.read li).fields lp)) sess).1
        lp (some li)
        ((getDataS s now rootModel (asKey ((sess.read li).fields lp)) sess).2.watchModel
          (getDataS s now rootModel (asKey ((sess.read li).fields lp)) sess).1 rootModel)
    else .ok sess) with
  | error e =>
    rw [hstep] at h
    exact absurd h (by simp)
  | ok sessA =>
    rw [hstep] at h
    dsimp only at h
    have WA : SessWatchGood s now sess sessA := by
      split at hstep
      · exact swg_trans (swg_fetch hk hna rootModel (asKey ((sess.read li).fields lp)) sess)
          (swg_of_watchers_eq (removeSingleRoot_watchers hstep))
      · injection hstep with h2
        subst h2
        exact swg_refl _ _ _
    cases ri0 with
    | none =>
      simp only [Except.ok.injEq] at h
      subst h
      exact swg_trans WA (swg_setF s now sessA li lp none)
    | some ri =>
      dsimp only at h
      cases hstep2 : (if ((sessA.setF li lp
            (some (.str (sessA.read ri).id))).read ri).fields rootProp ≠ none then
          removeSingleLeaf rootProp (some ri) (some lp)
            (getDataS s now leafModel
              (asKey (((sessA.setF li lp
                (some (.str (sessA.read ri).id))).read ri).fields rootProp))
              (sessA.setF li lp (some (.str (sessA.read ri).id)))).1
            ((getDataS s now leafModel
              (asKey (((sessA.setF li lp
                (some (.str (sessA.read ri).id))).read ri).fields rootProp))
              (sessA.setF li lp (some (.str (sessA.read ri).id)))).2.watchModel
              (getDataS s now leafModel
                (asKey (((sessA.setF li lp
                  (some (.str (sessA.read ri).id))).read ri).fields rootProp))
                (sessA.setF li lp (some (.str (sessA.read ri).id)))).1 leafModel)
        else .ok (sessA.setF li lp (some (.str (sessA.read ri).id)))) with
      | error e =>
        rw [hstep2] at h
        exact absurd h (by simp)
      | ok sessC =>
        rw [hstep2] at h
        dsimp only at h
        have WB : SessWatchGood s now sessA sessC := by
          split at hstep2
          · exact swg_trans (swg_trans (swg_setF s now sessA li lp _)
              (swg_fetch hk hna leafModel _ _))
              (swg_of_watchers_eq (removeSingleLeaf_watchers hstep2))
          · injection hstep2 with h2
            subst h2
            exact swg_setF s now sessA li lp _
        simp only [Except.ok.injEq] at h
        subst h
        exact swg_trans WA (swg_trans WB (swg_setF s now sessC ri rootProp _))

theorem multiLeafTail_swg {s : MemoryDatastore} {now : Int}
    {rootModel rootProp lp0 : String} {ri li : Nat} {sessB s2 : Sess}
    (hk : storeKeysWFB s = true) (hna : noAliases s)
    (h : (match (if (sessB.read li).fields lp0 ≠ some (.str (sessB.read ri).id) then
            removeMultiRoot rootProp
              (getDataS s now rootModel (asKey ((sessB.read li).fields lp0)) sessB).1
              (some lp0) (some li)
              ((getDataS s now rootModel (asKey ((sessB.read li).fields lp0)) sessB).2.watchModel
                (getDataS s now rootModel (asKey ((sessB.read li).fields lp0)) sessB).1 rootModel)
          else Except.ok sessB : Except String Sess) with
        | Except.error e => Except.error e
        | Except.ok sess => Except.ok (sess.setF li lp0 (some (.str (sess.read ri).id))))
        = Except.ok s2) :
    SessWatchGood s now sessB s2 := by
  cases hstep : (if (sessB.read li).fields lp0 ≠ some (.str (sessB.read ri).id) then
      removeMultiRoot rootProp
        (getDataS s now rootModel (asKey ((sessB.read li).fields lp0)) sessB).1
        (some lp0) (some li)
        ((getDataS s now rootModel (asKey ((sessB.read li).fields lp0)) sessB).2.watchModel
          (getDataS s now rootModel (asKey ((sessB.read li).fields lp0)) sessB).1 rootModel)
    else .ok sessB) with
  | error e =>
    rw [hstep] at h
    exact absurd h (by simp)
  | ok sessC =>
    rw [hstep] at h
    dsimp only at h
    have WC : SessWatchGood s now sessB sessC := by
      split at hstep
      · exact swg_trans (swg_fetch hk hna rootModel (asKey ((sessB.read li).fields lp0)) sessB)
          (swg_of_watchers_eq (removeMultiRoot_watchers hstep))
      · injection hstep with h2
        subst h2
        exact swg_refl _ _ _
    simp only [Except.ok.injEq] at h
    subst h
    exact swg_trans WC (swg_setF s now sessC li lp0 _)

theorem multiRootTail_swg {s : MemoryDatastore} {now : Int}
    {rootModel rootProp lp : String} {ri li : Nat} {sessB s2 : Sess}
    (hk : storeKeysWFB s = true) (hna : noAliases s)
    (h : (match (if (sessB.read li).fields lp ≠ some (.str (sessB.read ri).id) then
            removeMultiLeaf rootProp
              (getDataS s now rootModel (asKey ((sessB.read li).fields lp)) sessB).1
              (some lp) (some li)
              ((getDataS s now rootModel (asKey ((sessB.read li).fields lp)) sessB).2.watchModel
                (getDataS s now rootModel (asKey ((sessB.read li).fields lp)) sessB).1 rootModel)
          else Except.ok sessB : Except String Sess) with
        | Except.error e => Except.error e
        | Except.ok sess => Except.ok (sess.setF li lp (some (.str (sess.read ri).id))))
        = Except.ok s2) :
    SessWatchGood s now sessB s2 := by
  cases hstep : (if (sessB.read li).fields lp ≠ some (.str (sessB.read ri).id) then
      removeMultiLeaf rootProp
        (getDataS s now rootModel (asKey ((sessB.read li).fields lp)) sessB).1
        (some lp) (some li)
        ((getDataS s now rootModel (asKey ((sessB.read li).fields lp)) sessB).2.watchModel
          (getDataS s now rootModel (asKey ((sessB.read li).fields lp)) sessB).1 rootModel)
    else .ok sessB) with
  | error e =>
    rw [hstep] at h
    exact absurd h (by simp)
  | ok sessC =>
    rw [hstep] at h
    dsimp only at h
    have WC : SessWatchGood s now sessB sessC := by
      split at hstep
      · exact swg_trans (swg_fetch hk hna rootModel (asKey ((sessB.read li).fields lp)) sessB)
          (swg_of_watchers_eq (removeMultiLeaf_watchers hstep))
      · injection hstep with h2
        subst h2
        exact swg_refl _ _ _
    simp only [Except.ok.injEq] at h
    subst h
    exact swg_trans WC (swg_setF s now sessC li lp _)

theorem addMultiLeaf_swg {s : MemoryDatastore} {now : Int}
    {rootModel rootProp : String} {ri : Nat} {leafModel : String}
    {lp : Option String} {li0 : Option Nat} {sess s2 : Sess}
    (hk : storeKeysWFB s = true) (hna : noAliases s)
    (h : addMultiLeaf s now rootModel rootProp ri leafModel lp li0 sess = .ok s2) :
    SessWatchGood s now sess s2 := by
  unfold addMultiLeaf at h
  cases hf : (sess.read ri).fields rootProp with
  | none =>
    rw [hf] at h
    exact absurd h (by simp)
  | some fv =>
    cases fv with
    | str z =>
      rw [hf] at h
      exact absurd h (by simp)
    | arr curList =>
      rw [hf] at h
      dsimp only at h
      cases li0 with
      | none => exact absurd h (by simp)
      | some li =>
        dsimp only at h
        by_cases hcon : curList.contains (sess.read li).id = true
        · rw [if_pos hcon] at h
          cases lp with
          | none =>
            simp only [Except.ok.injEq] at h
            subst h
            exact swg_refl _ _ _
          | some lp0 =>
            dsimp only at h
            exact multiLeafTail_swg hk hna h
        · rw [if_neg hcon] at h
          cases lp with
          | none =>
            simp only [Except.ok.injEq] at h
            subst h
            exact swg_setF s now sess ri rootProp _
          | some lp0 =>
            dsimp only at h
            exact swg_trans (swg_setF s now sess ri rootProp
              (some (.arr (curList ++ [(sess.read li).id]))))
              (multiLeafTail_swg hk hna h)

theorem addMultiRoot_swg {s : MemoryDatastore} {now : Int}
    {rootModel rootProp : String} {ri0 : Option Nat} {leafModel : String}
    {lp : String} {li : Nat} {sess s2 : Sess}
    (hk : storeKeysWFB s = true) (hna : noAliases s)
    (h : addMultiRoot s now rootModel rootProp ri0 leafModel lp li sess = .ok s2) :
    SessWatchGood s now sess s2 := by
  unfold addMultiRoot at h
  cases ri0 with
  | none =>
    simp only [Except.ok.injEq] at h
    subst h
    exact swg_setF s now sess li lp none
  | some ri =>
    dsimp only at h
    cases hf : (sess.read ri).fields rootProp with
    | none =>
      rw [hf] at h
      exact absurd h (by simp)
    | some fv =>
      cases fv with
      | str z =>
        rw [hf] at h
        exact absurd h (by simp)
      | arr l =>
        rw [hf] at h
        dsimp only at h
        by_cases hcon : l.contains (sess.read li).id = true
        · rw [if_pos hcon] at h
          exact multiRootTail_swg hk hna h
        · rw [if_neg hcon] at h
          exact swg_trans (swg_setF s now sess ri rootProp
            (some (.arr (l ++ [(sess.read li).id]))))
            (multiRootTail_swg hk hna h)

theorem linkRemoveLoop_swg {s : MemoryDatastore} {now : Int} {otherModel : String}
    {otherProp : Option String} {prop : String} {instSlot : Nat}
    (hk : storeKeysWFB s = true) (hna : noAliases s) :
    ∀ (l : List String) (sess s2 : Sess),
      linkRemoveLoop s now otherModel otherProp prop instSlot l sess = .ok s2 →
      SessWatchGood s now sess s2 := by
  intro l
  induction l with
  | nil =>
    intro sess s2 h
    simp only [linkRemoveLoop, Except.ok.injEq] at h
    subst h
    exact swg_refl _ _ _
  | cons rid rest ih =>
    intro sess s2 h
    simp only [linkRemoveLoop] at h
    cases hrm : removeMultiLeaf prop (some instSlot) otherProp
        (getDataS s now otherModel (some rid) sess).1
        ((getDataS s now otherModel (some rid) sess).2.watchModel
          (getDataS s now otherModel (some rid) sess).1 otherModel) with
    | error e =>
      rw [hrm] at h
      exact absurd h (by simp)
    | ok sessA =>
      rw [hrm] at h
      dsimp only at h
      exact swg_trans (swg_trans (swg_fetch hk hna otherModel (some rid) sess)
        (swg_of_watchers_eq (removeMultiLeaf_watchers hrm))) (ih _ _ h)

theorem linkAddLoop_swg {s : MemoryDatastore} {now : Int} {model otherModel : String}
    {otherProp : Option String} {prop : String} {instSlot : Nat}
    (hk : storeKeysWFB s = true) (hna : noAliases s) :
    ∀ (l : List String) (sess s2 : Sess),
      linkAddLoop s now model otherModel otherProp prop instSlot l sess = .ok s2 →
      SessWatchGood s now sess s2 := by
  intro l
  induction l with
  | nil =>
    intro sess s2 h
    simp only [linkAddLoop, Except.ok.injEq] at h
    subst h
    exact swg_refl _ _ _
  | cons vid rest ih =>
    intro sess s2 h
    simp only [linkAddLoop] at h
    cases had : addMultiLeaf s now model prop instSlot otherModel otherProp
        (getDataS s now otherModel (some vid) sess).1
        ((getDataS s now otherModel (some vid) sess).2.watchModel
          (getDataS s now otherModel (some vid) sess).1 otherModel) with
    | error e =>
      rw [had] at h
      exact absurd h (by simp)
    | ok sessA =>
      rw [had] at h
      dsimp only at h
      exact swg_trans (swg_trans (swg_fetch hk hna otherModel (some vid) sess)
        (addMultiLeaf_swg hk hna had)) (ih _ _ h)

theorem processLinkProp_swg {s : MemoryDatastore} {now : Int} {model : String}
    {instSlot : Nat} {prop : String} {a : LinkAnn} {value : Option FVal} {sess s2 : Sess}
    (hk : storeKeysWFB s = true) (hna : noAliases s)
    (h : processLinkProp s now model instSlot prop a value sess = .ok s2) :
    SessWatchGood s now sess s2 := by
  obtain ⟨ty, dir, om, op⟩ := a
  unfold processLinkProp at h
  cases ty with
  | hasOne =>
    cases dir with
    | owns =>
      dsimp only at h
      exact swg_trans (swg_fetch hk hna om (asKey value) sess) (addSingleLeaf_swg hk hna h)
    | ownedBy =>
      dsimp only at h
      exact swg_trans (swg_fetch hk hna om (asKey value) sess) (addSingleRoot_swg hk hna h)
  | hasMany =>
    cases dir with
    | owns =>
      dsimp only at h
      cases hf : (sess.read instSlot).fields prop with
      | none =>
        rw [hf] at h
        exact absurd h (by simp)
      | some fv =>
        cases fv with
        | str z =>
          rw [hf] at h
          exact absurd h (by simp)
        | arr cur =>
          rw [hf] at h
          dsimp only at h
          cases value with
          | none => exact absurd h (by simp)
          | some fv2 =>
            cases fv2 with
            | str z2 => exact absurd h (by simp)
            | arr valArr =>
              dsimp only at h
              cases hrl : linkRemoveLoop s now om op prop instSlot
                  (cur.filter (fun e => ¬ valArr.contains e)) sess with
              | error e =>
                rw [hrl] at h
                exact absurd h (by simp)
              | ok sessA =>
                rw [hrl] at h
                dsimp only at h
                exact swg_trans (linkRemoveLoop_swg hk hna _ _ _ hrl)
                  (linkAddLoop_swg hk hna _ _ _ h)
    | ownedBy =>
      dsimp only at h
      exact swg_trans (swg_fetch hk hna om (asKey value) sess) (addMultiRoot_swg hk hna h)

theorem updateLinkPropsGo_swg {s : MemoryDatastore} {now : Int} {model : String}
    {instSlot : Nat} {st : UState} {cp : Bool} {meth : String}
    (hk : storeKeysWFB s = true) (hna : noAliases s) :
    ∀ (t : Template) (sess s2 : Sess) (b : Bool) (r : Option String),
      updateLinkPropsGo s now model instSlot st cp meth t sess = .ok (s2, b, r) →
      SessWatchGood s now sess s2 := by
  intro t
  induction t with
  | nil =>
    intro sess s2 b r h
    simp only [updateLinkPropsGo, Except.ok.injEq, Prod.mk.injEq] at h
    rw [← h.1]
    exact swg_refl _ _ _
  | cons p rest ih =>
    intro sess s2 b r h
    obtain ⟨pk, pv⟩ := p
    simp only [updateLinkPropsGo] at h
    by_cases hskip : pk = "meta" ∨ ¬ searchLinked (propValString pv) = true
    · rw [if_pos hskip] at h
      exact ih _ _ _ _ h
    · rw [if_neg hskip] at h
      cases hga : getLinkAnn pv with
      | none =>
        rw [hga] at h
        exact absurd h (by simp)
      | some a =>
        rw [hga] at h
        dsimp only at h
        have WI : SessWatchGood s now sess
            (if cp then sess.setF instSlot pk (emptyLinkVal a.type a.dir) else sess) := by
          split
          · exact swg_setF s now sess instSlot pk _
          · exact swg_refl _ _ _
        cases hens : s.ensureReferencesExist now a.otherModel
            (if jsFalsy (match st.fields pk with
                | some v => v
                | none => (sess.read instSlot).fields pk) ∧ a.type = .hasMany ∧ a.dir = .owns
             then some (.arr [])
             else (match st.fields pk with
                | some v => v
                | none => (sess.read instSlot).fields pk)) meth with
        | mk b0 r0 =>
          rw [hens] at h
          cases b0 with
          | true =>
            dsimp only at h
            simp only [Except.ok.injEq, Prod.mk.injEq] at h
            rw [← h.1]
            exact WI
          | false =>
            dsimp only at h
            cases hpl : processLinkProp s now model instSlot pk a
                (if jsFalsy (match st.fields pk with
                    | some v => v
                    | none => (sess.read instSlot).fields pk) ∧ a.type = .hasMany ∧ a.dir = .owns
                 then some (.arr [])
                 else (match st.fields pk with
                    | some v => v
                    | none => (sess.read instSlot).fields pk))
                (if cp then sess.setF instSlot pk (emptyLinkVal a.type a.dir) else sess) with
            | error e =>
              rw [hpl] at h
              exact absurd h (by simp)
            | ok sessP =>
              rw [hpl] at h
              dsimp only at h
              exact swg_trans (swg_trans WI (processLinkProp_swg hk hna hpl)) (ih _ _ _ _ h)

theorem mem_diffFields_val {flds : List String} {mirror cur : Inst}
    {d : String × Option FVal} (hid : mirror.id = cur.id)
    (hd : d ∈ diffFields flds mirror cur) : d.2 = cur.fields d.1 ∧ d.1 ∈ flds := by
  unfold diffFields at hd
  obtain ⟨f, hf, heq⟩ := List.mem_filterMap.mp hd
  by_cases hfid : f = "id"
  · rw [if_pos hfid, if_pos hid] at heq
    exact absurd heq (by simp)
  · rw [if_neg hfid] at heq
    by_cases hne : mirror.fields f = cur.fields f
    · rw [if_pos hne] at heq
      exact absurd heq (by simp)
    · rw [if_neg hne] at heq
      injection heq with h2
      rw [← h2]
      exact ⟨rfl, hf⟩

theorem diffFields_mem_of_ne {flds : List String} {mirror cur : Inst} {g : String}
    (hg : g ∈ flds) (hgid : g ≠ "id") (hne : mirror.fields g ≠ cur.fields g) :
    (g, cur.fields g) ∈ diffFields flds mirror cur := by
  unfold diffFields
  exact List.mem_filterMap.mpr ⟨g, hg, by rw [if_neg hgid, if_neg hne]⟩

theorem setFold_eq (cur : Inst) :
    ∀ (L : List (String × Option FVal)) (acc : Inst),
      acc.id = cur.id →
      (∀ d ∈ L, d.2 = cur.fields d.1) →
      (∀ g, g ∉ L.map Prod.fst → acc.fields g = cur.fields g) →
      L.foldl (fun a d => a.setF d.1 d.2) acc = cur := by
  intro L
  induction L with
  | nil =>
    intro acc hid _ hout
    exact instExt hid (fun g => hout g (by simp))
  | cons d rest ih =>
    intro acc hid hval hout
    rw [List.foldl_cons]
    refine ih (acc.setF d.1 d.2) (by rw [setF_id]; exact hid)
      (fun d2 hd2 => hval d2 (List.mem_cons_of_mem _ hd2)) ?_
    intro g hg
    rw [setF_fields]
    by_cases hgd : g = d.1
    · rw [if_pos hgd, hgd]
      exact hval d (List.mem_cons_self _ _)
    · rw [if_neg hgd]
      refine hout g ?_
      simp only [List.map_cons, List.mem_cons]
      push_neg
      exact ⟨hgd, hg⟩

theorem applyPatch_data_found {X : MemoryDatastore} {p : Patch} {im : IdMap} {inst : Inst}
    (him : getIn X.data p.model = some im) (hin : getIn im p.objId = some inst) :
    (applyPatch X p).data
      = setIn X.data p.model (setIn im p.objId (inst.setF p.field p.value)) := by
  unfold applyPatch
  rw [him]
  dsimp only
  rw [hin]
  dsimp only
  split
  · split
    · rfl
    · split
      · rfl
      · rfl
  · rfl

theorem applyPatch_data_nomodel {X : MemoryDatastore} {p : Patch}
    (h : getIn X.data p.model = none) : (applyPatch X p).data = X.data := by
  unfold applyPatch
  rw [h]

theorem applyPatch_data_noobj {X : MemoryDatastore} {p : Patch} {im : IdMap}
    (him : getIn X.data p.model = some im) (h : getIn im p.objId = none) :
    (applyPatch X p).data = X.data := by
  unfold applyPatch
  rw [him]
  dsimp only
  rw [h]

theorem applyPatch_entry {model freshId : String} {X : MemoryDatastore} {im : IdMap}
    {E : Inst} (p : Patch)
    (him : getIn X.data model = some im) (hE : getIn im freshId = some E) :
    ∃ im2, getIn (applyPatch X p).data model = some im2 ∧
      getIn im2 freshId = some (if p.model = model ∧ p.objId = freshId
        then E.setF p.field p.value else E) := by
  cases hm1 : getIn X.data p.model with
  | none =>
    rw [applyPatch_data_nomodel hm1]
    have hpm : ¬ (p.model = model ∧ p.objId = freshId) := by
      rintro ⟨h1, -⟩
      rw [h1, him] at hm1
      exact absurd hm1 (by simp)
    rw [if_neg hpm]
    exact ⟨im, him, hE⟩
  | some imp =>
    by_cases hpm : p.model = model
    · have himp : imp = im := by
        rw [hpm, him] at hm1
        injection hm1 with h2
        exact h2.symm
      subst himp
      cases hobj : getIn imp p.objId with
      | none =>
        rw [applyPatch_data_noobj hm1 hobj]
        have hpo : ¬ (p.model = model ∧ p.objId = freshId) := by
          rintro ⟨-, h2⟩
          rw [h2, hE] at hobj
          exact absurd hobj (by simp)
        rw [if_neg hpo]
        exact ⟨imp, him, hE⟩
      | some inst =>
        rw [applyPatch_data_found hm1 hobj]
        refine ⟨setIn imp p.objId (inst.setF p.field p.value), ?_, ?_⟩
        · rw [← hpm]
          exact getIn_setIn_self _ _ _
        · by_cases hpo : p.objId = freshId
          · have hinst : inst = E := by
              rw [hpo, hE] at hobj
              injection hobj with h2
              exact h2.symm
            rw [if_pos ⟨hpm, hpo⟩, ← hpo, hinst]
            exact getIn_setIn_self _ _ _
          · rw [if_neg (fun hc => hpo hc.2)]
            rw [getIn_setIn_ne imp p.objId freshId _ (fun he => hpo he.symm)]
            exact hE
    · have hne : ¬ (p.model = model ∧ p.objId = freshId) := fun hc => hpm hc.1
      rw [if_neg hne]
      cases hobj : getIn imp p.objId with
      | none =>
        rw [applyPatch_data_noobj hm1 hobj]
        exact ⟨im, him, hE⟩
      | some inst =>
        rw [applyPatch_data_found hm1 hobj]
        refine ⟨im, ?_, hE⟩
        rw [getIn_setIn_ne _ p.model model _ (fun he => hpm he.symm)]
        exact him

theorem applyPatches_entry {model freshId : String} :
    ∀ (ps : List Patch) (X : MemoryDatastore) (im : IdMap) (E : Inst),
      getIn X.data model = some im → getIn im freshId = some E →
      ∃ im2, getIn (applyPatches X ps).data model = some im2 ∧
        getIn im2 freshId = some (ps.foldl (fun acc p =>
          if p.model = model ∧ p.objId = freshId then acc.setF p.field p.value else acc) E) := by
  intro ps
  induction ps with
  | nil =>
    intro X im E him hE
    exact ⟨im, him, hE⟩
  | cons p rest ih =>
    intro X im E him hE
    obtain ⟨im1, h1, h2⟩ := applyPatch_entry p him hE
    exact ih (applyPatch X p) im1 _ h1 h2

theorem patchFold_skip {model freshId : String} :
    ∀ (l : List Patch) (E : Inst), (∀ p ∈ l, ¬ (p.model = model ∧ p.objId = freshId)) →
      l.foldl (fun acc p => if p.model = model ∧ p.objId = freshId
        then acc.setF p.field p.value else acc) E = E := by
  intro l
  induction l with
  | nil => intro E _; rfl
  | cons p rest ih =>
    intro E hp
    rw [List.foldl_cons, if_neg (hp p (List.mem_cons_self _ _))]
    exact ih E (fun q hq => hp q (List.mem_cons_of_mem _ hq))

theorem patchFold_mapped {model freshId : String} :
    ∀ (L : List (String × Option FVal)) (E : Inst),
      (L.map (fun d => Patch.mk model freshId d.1 d.2)).foldl (fun acc p =>
        if p.model = model ∧ p.objId = freshId then acc.setF p.field p.value else acc) E
      = L.foldl (fun a d => a.setF d.1 d.2) E := by
  intro L
  induction L with
  | nil => intro E; rfl
  | cons d rest ih =>
    intro E
    rw [List.map_cons, List.foldl_cons, List.foldl_cons, if_pos ⟨rfl, rfl⟩]
    exact ih _

theorem patches_foldr_mem {s : MemoryDatastore} {sess : Sess} :
    ∀ (ws : List Watch) (p : Patch),
      p ∈ ws.foldr (fun w acc =>
        ((diffFields (s.watchFieldList w.model) w.mirror (sess.read w.slot)).map
          (fun d => Patch.mk w.model w.objId d.1 d.2)) ++ acc) [] →
      ∃ w ∈ ws, p.model = w.model ∧ p.objId = w.objId := by
  intro ws
  induction ws with
  | nil =>
    intro p hp
    exact absurd hp (List.not_mem_nil _)
  | cons w rest ih =>
    intro p hp
    rw [List.foldr_cons] at hp
    rcases List.mem_append.mp hp with h | h
    · obtain ⟨d, _, hd2⟩ := List.mem_map.mp h
      rw [← hd2]
      exact ⟨w, List.mem_cons_self _ _, rfl, rfl⟩
    · obtain ⟨w2, hw2, hp2⟩ := ih p h
      exact ⟨w2, List.mem_cons_of_mem _ hw2, hp2⟩

theorem applyPatch_models (s : MemoryDatastore) (p : Patch) :
    (applyPatch s p).models = s.models := by
  unfold applyPatch
  split
  · rfl
  · split
    · rfl
    · dsimp only
      split
      · split
        · rfl
        · split
          · rfl
          · rfl
      · rfl

theorem applyPatches_models : ∀ (ps : List Patch) (s : MemoryDatastore),
    (applyPatches s ps).models = s.models := by
  intro ps
  induction ps with
  | nil => intro s; rfl
  | cons p rest ih =>
    intro s
    exact (ih (applyPatch s p)).trans (applyPatch_models s p)

/-! ## C7: create / find round trip -/

/-- **C7.**  Round-trip through `create` and `find`: whenever
`create(model, st)` resolves with instance `e` (under the usual store
well-formedness, a model whose template does not declare an `id` property,
and a fresh id that no current entry or ttl stamp occupies), the resolved
instance carries the fresh id, the store returned by `create` serves
exactly `e` from `_getData` under that id, a one-hop `find` by the fresh id
returns `e`, and every linked property omitted from the supplied state is
default-filled on `e` (`[]` for owned to-many links, `undefined`
otherwise). -/
theorem c7_create_find_roundtrip
    {s s2 : MemoryDatastore} {now : Int} {freshId model : String} {st : UState}
    {e : Inst} {im : IdMap}
    (hmne : model ≠ "")
    (hk : storeKeysWFB s = true) (hi : storeIntegrityB s now = true)
    (hna : noAliases s) (hsp : schemaPairedWFB s = true)
    (hstate : stateLinkWFB (s.getModelTemplate model) st = true)
    (hnd : nodupKeysB (s.getModelTemplate model) = true)
    (hclean : templateAttrsCleanB (s.getModelTemplate model) = true)
    (hidt : "id" ∉ (s.getModelTemplate model).map Prod.fst)
    (him : getIn s.data model = some im)
    (hfreshGD : s.getData now model (some freshId) = none)
    (hfreshTtl : s.ttlCache model freshId = none)
    (hcr : s.create now freshId model (some st) = (s2, Outcome.resolve e)) :
    e.id = freshId ∧
    s2.getData now model (some freshId) = some e ∧
    s2.find now [⟨some model, none, some freshId⟩] = FindOutcome.single (some e) ∧
    ∀ q bq, (q, PropVal.link bq) ∈ s.getModelTemplate model → q ≠ "meta" →
      st.fields q = none → e.fields q = emptyLinkVal bq.type bq.dir := by
  unfold MemoryDatastore.create at hcr
  by_cases hm : s.hasModel model = true
  case neg =>
    rw [if_pos hm] at hcr
    injection hcr with _ h2
    exact absurd h2 (by simp)
  rw [if_neg (not_not_intro hm)] at hcr
  dsimp only at hcr
  by_cases hid : jsTruthyId st.id = true
  case pos =>
    rw [if_pos hid] at hcr
    injection hcr with _ h2
    exact absurd h2 (by simp)
  rw [if_neg hid] at hcr
  cases hul : s.updateLinkProperties now model 0 st true "create"
      ⟨fun _ => s.updateSimpleProps model ⟨freshId, emptyFields⟩ st, 1, []⟩ with
  | error er =>
    rw [hul] at hcr
    dsimp only at hcr
    injection hcr with _ h2
    exact absurd h2 (by simp)
  | ok tr =>
    obtain ⟨sessf, wr, rr⟩ := tr
    rw [hul] at hcr
    dsimp only at hcr
    cases wr with
    | true =>
      rw [if_pos rfl] at hcr
      injection hcr with _ h2
      exact absurd h2 (by simp)
    | false =>
      rw [if_neg (by simp)] at hcr
      injection hcr with hu1 hu2
      injection hu2 with hE
      subst hu1
      -- the simple pass keeps the fresh id
      have hidc : (s.updateSimpleProps model ⟨freshId, emptyFields⟩ st).id = freshId := by
        unfold MemoryDatastore.updateSimpleProps
        rw [foldSimple_id]
      -- write-framing of the link pass at slot 0
      have FC := updateLinkProperties_frame hul
      have hidTC : (s.updateSimpleProps model ⟨freshId, emptyFields⟩ st).id
          = (sessf.read 0).id := ((FC.2 0 Nat.one_pos).1).symm
      have hframe : ∀ g, g ∉ (s.getModelTemplate model).map Prod.fst →
          (s.updateSimpleProps model ⟨freshId, emptyFields⟩ st).fields g
            = (sessf.read 0).fields g := by
        intro g hg
        refine ((FC.2 0 Nat.one_pos).2 g ?_).symm
        rintro (⟨-, hgk⟩ | hle)
        · exact hg hgk
        · exact Nat.not_succ_le_zero 0 hle
      have hide : e.id = freshId := by
        rw [← hE]
        exact hidTC.symm.trans hidc
      -- watcher bookkeeping: the session starts with the single observer of
      -- the instance being created, and the link pass only appends watchers
      -- of objects `_getData` resolves
      have hulgo : updateLinkPropsGo s now model 0 st true "create"
          (s.getModelTemplate model)
          ((⟨fun _ => s.updateSimpleProps model ⟨freshId, emptyFields⟩ st, 1, []⟩ :
              Sess).watchModel (some 0) model)
          = .ok (sessf, false, rr) := hul
      obtain ⟨Δ, hws, hgood⟩ :=
        updateLinkPropsGo_swg hk hna (s.getModelTemplate model) _ _ _ _ hulgo
      have hwW : ((⟨fun _ => s.updateSimpleProps model ⟨freshId, emptyFields⟩ st, 1, []⟩ :
              Sess).watchModel (some 0) model).watchers
          = [⟨0, model, freshId, s.updateSimpleProps model ⟨freshId, emptyFields⟩ st⟩] := by
        show [(⟨0, model, (s.updateSimpleProps model ⟨freshId, emptyFields⟩ st).id,
            s.updateSimpleProps model ⟨freshId, emptyFields⟩ st⟩ : Watch)]
          = [⟨0, model, freshId, s.updateSimpleProps model ⟨freshId, emptyFields⟩ st⟩]
        rw [hidc]
      rw [hwW, List.singleton_append] at hws
      -- the patch list splits into the creating observer's diff and the
      -- patches of the fetched (existing) objects
      have hps : getPatches s sessf
          = ((diffFields (s.watchFieldList model)
              (s.updateSimpleProps model ⟨freshId, emptyFields⟩ st) (sessf.read 0)).map
              (fun d => Patch.mk model freshId d.1 d.2))
            ++ Δ.foldr (fun w acc =>
              ((diffFields (s.watchFieldList w.model) w.mirror (sessf.read w.slot)).map
                (fun d => Patch.mk w.model w.objId d.1 d.2)) ++ acc) [] := by
        unfold getPatches
        rw [hws]
        rfl
      have hskipΔ : ∀ p ∈ Δ.foldr (fun w acc =>
          ((diffFields (s.watchFieldList w.model) w.mirror (sessf.read w.slot)).map
            (fun d => Patch.mk w.model w.objId d.1 d.2)) ++ acc) [],
          ¬ (p.model = model ∧ p.objId = freshId) := by
        intro p hp
        obtain ⟨w, hwd, hp1, hp2⟩ := patches_foldr_mem Δ p hp
        rintro ⟨hc1, hc2⟩
        have hiw := hgood w hwd
        rw [← hp1, hc1, ← hp2, hc2, hfreshGD] at hiw
        exact absurd hiw (by simp)
      -- replaying the observer's diff over the stored entry recovers the
      -- session's final instance
      have hA : (diffFields (s.watchFieldList model)
            (s.updateSimpleProps model ⟨freshId, emptyFields⟩ st) (sessf.read 0)).foldl
            (fun a d => a.setF d.1 d.2)
            (s.updateSimpleProps model ⟨freshId, emptyFields⟩ st)
          = sessf.read 0 := by
        refine setFold_eq (sessf.read 0) _ _ hidTC ?_ ?_
        · intro d hd
          exact (mem_diffFields_val hidTC hd).1
        · intro g hg
          by_cases hne : (s.updateSimpleProps model ⟨freshId, emptyFields⟩ st).fields g
              = (sessf.read 0).fields g
          · exact hne
          · exfalso
            have hgk : g ∈ (s.getModelTemplate model).map Prod.fst := by
              by_contra hgk
              exact hne (hframe g hgk)
            have hgid : g ≠ "id" := fun h => hidt (h ▸ hgk)
            have hgfl : g ∈ s.watchFieldList model := List.mem_cons_of_mem _ hgk
            exact hg (List.mem_map.mpr ⟨(g, (sessf.read 0).fields g),
              diffFields_mem_of_ne hgfl hgid hne, rfl⟩)
      have hfold : (getPatches s sessf).foldl (fun acc p =>
            if p.model = model ∧ p.objId = freshId then acc.setF p.field p.value else acc)
            (s.updateSimpleProps model ⟨freshId, emptyFields⟩ st)
          = sessf.read 0 := by
        rw [hps, List.foldl_append, patchFold_mapped, hA]
        exact patchFold_skip _ _ hskipΔ
      -- the entry stored under the fresh id after `_setData` + patching
      have him1 : getIn (s.setData model
            (s.updateSimpleProps model ⟨freshId, emptyFields⟩ st)).data model
          = some (setIn im freshId (s.updateSimpleProps model ⟨freshId, emptyFields⟩ st)) := by
        rw [setData_of_map s model _ im him]
        dsimp only
        rw [hidc]
        exact getIn_setIn_self _ _ _
      obtain ⟨im2, him2, hE2⟩ := applyPatches_entry (getPatches s sessf)
        (s.setData model (s.updateSimpleProps model ⟨freshId, emptyFields⟩ st))
        (setIn im freshId (s.updateSimpleProps model ⟨freshId, emptyFields⟩ st))
        (s.updateSimpleProps model ⟨freshId, emptyFields⟩ st)
        him1 (getIn_setIn_self _ _ _)
      have hge : (applyPatches
            (s.setData model (s.updateSimpleProps model ⟨freshId, emptyFields⟩ st))
            (getPatches s sessf)).getData now model (some freshId) = some e := by
        simp only [MemoryDatastore.getData]
        rw [applyPatches_meta, setData_meta, hna model freshId]
        simp only [jsOr]
        rw [applyPatches_ttlCache, setData_ttlCache, hfreshTtl,
            applyPatches_ttl, setData_ttl]
        rw [if_neg (by cases s.ttl <;> simp)]
        rw [him2]
        simp only [Option.getD]
        rw [hE2, hfold, hE]
      have hm2 : (applyPatches
            (s.setData model (s.updateSimpleProps model ⟨freshId, emptyFields⟩ st))
            (getPatches s sessf)).hasModel model = true := by
        unfold MemoryDatastore.hasModel
        rw [applyPatches_models, setData_models]
        exact hm
      refine ⟨hide, hge, find_single_by_id hm2 hmne hge, ?_⟩
      -- omitted linked properties take the `createProps` defaults
      intro q bq hq hqm hqn
      have hcre0 : ∀ q2 bq2, (q2, PropVal.link bq2) ∈ s.getModelTemplate model →
          (s.updateSimpleProps model ⟨freshId, emptyFields⟩ st).fields q2 = none := by
        intro q2 bq2 hq2
        unfold MemoryDatastore.updateSimpleProps
        rw [foldSimple_link_none st (s.getModelTemplate model) ⟨freshId, emptyFields⟩ hnd hq2]
        rfl
      obtain ⟨sessS, bS, rS, heqS, _, _, _, _, hR2cS, _⟩ :=
        @updateLinkProperties_spec s now model st true "create"
          ⟨fun _ => s.updateSimpleProps model ⟨freshId, emptyFields⟩ st, 1, []⟩
          hk hi hna hsp hstate Nat.one_pos hnd hclean
          (fun _ q2 bq2 hq2 => hcre0 q2 bq2 hq2)
          (fun hcf => absurd hcf (by simp))
      rw [hul] at heqS
      injection heqS with h3
      injection h3 with h4 h5
      injection h5 with h6 h7
      rw [← h4, ← h6] at hR2cS
      rw [← hE]
      exact hR2cS rfl rfl q bq hq hqm hqn

theorem c7_witness :
    c7e.id = "x7" ∧
    c7run.1.getData 0 "person" (some "x7") = some c7e ∧
    c7run.1.find 0 [⟨some "person", none, some "x7"⟩] = FindOutcome.single (some c7e) ∧
    c7e.fields "bike" = emptyLinkVal LinkType.hasOne LinkDir.owns :=
  have H := @c7_create_find_roundtrip c2s1 c7run.1 0 "x7" "person" (ustate []) c7e _
    (by decide) (by decide) (by decide) (fun m k => rfl) (by decide) (by decide)
    (by decide) (by decide) (by decide) rfl rfl rfl rfl
  ⟨H.1, H.2.1, H.2.2.1, H.2.2.2 "bike"
    ⟨LinkType.hasOne, LinkDir.owns, "bicycle", some "owner"⟩ (by decide) (by decide) rfl⟩
